import Mathlib

/-!
# larvnetd: configuration file reading and rereading (`config.c`)

A shallow embedding of `config.c` and proofs about it.

Conventions of the embedding.

* A C string is the list of its characters before the terminating NUL; a
  `char *` into a string is the suffix of the list that starts at the
  pointed-to character, and dereferencing the empty suffix yields NUL.
* `int` is a 32-bit two's complement integer and `long` a 64-bit one; values
  are carried as `Int`, with the conversions written out where they happen.
* An array with its element count (`machines`/`nmachines`, ...) is a list; the
  count is the length of the list.  The capacity bookkeeping (`clsize`,
  `machsize`, ...) only drives `erealloc` and is not represented: `emalloc`
  and `erealloc` do not return on exhaustion.
* `syslog` calls, `fclose` and the release of the line buffer are not
  represented.
* What `larvnetd.h` and the other translation units provide (the sentinel
  constants, `ws_sort`, `ws_find`) and what the C library and the resolver
  library provide at run time (`fopen`, `read_line`, `ares_init`) are fields
  of `Env`.
-/

namespace Larvnetd

/-! ## Characters and C strings -/

/-- Character class `isspace` of the C locale: space, and the controls
`\t \n \v \f \r` (codes 9 to 13). -/
def isspace (c : Char) : Bool :=
  c.toNat == 32 || (9 ≤ c.toNat && c.toNat ≤ 13)

/-- Character class `isdigit`: the decimal digits. -/
def isdigit (c : Char) : Bool :=
  48 ≤ c.toNat && c.toNat ≤ 57

/-- Dereference of a `char *`: the pointed-to character, NUL at the end of the string. -/
def deref (p : List Char) : Char :=
  p.headD (Char.ofNat 0)

/-- Array access `p[n]` on a string that is at least `n` characters long. -/
def char_at (p : List Char) (n : Nat) : Char :=
  deref (p.drop n)

/-- Source function `skip_spaces`: advance while `isspace(*p)`. -/
def skip_spaces : List Char → List Char
  | [] => []
  | c :: cs => if isspace c then skip_spaces cs else c :: cs

/-- Source function `skip_nonspaces`: advance while `*p && !isspace(*p)`. -/
def skip_nonspaces : List Char → List Char
  | [] => []
  | c :: cs => if isspace c then c :: cs else skip_nonspaces cs

/-- Pointer difference `q - p` for `q` pointing into the string at `p`. -/
def ptrdiff (q p : List Char) : Nat :=
  p.length - q.length

/-- Library function `estrndup(p, n)`: a fresh copy of the first `n` characters. -/
def estrndup (p : List Char) (n : Nat) : List Char :=
  p.take n

/-- Library function `strchr(s, c)` for a non-NUL `c`: the suffix at the first
occurrence of `c`, or `none` for a null pointer. -/
def strchr : List Char → Char → Option (List Char)
  | [], _ => none
  | a :: as, c => if a = c then some (a :: as) else strchr as c

/-- Test `strncmp(p, lit, n) == 0`. -/
def strncmp_eq (p lit : List Char) (n : Nat) : Bool :=
  p.take n == lit.take n

/-- Test `strcmp(a, b) == 0`. -/
def strcmp_eq (a b : List Char) : Bool :=
  a == b

/-! ## Integers -/

/-- Largest `int`. -/
def INT_MAX : Int := 2147483647

/-- Largest `long`. -/
def LONG_MAX : Int := 9223372036854775807

/-- Smallest `long`. -/
def LONG_MIN : Int := -9223372036854775808

/-- Conversion of a `long` to `int`: reduction modulo `2^32` into the `int` range. -/
def to_int (v : Int) : Int :=
  (v + 2147483648) % 4294967296 - 2147483648

/-- Value of a character as a digit in bases up to 36, as `strtol` reads it. -/
def digit_value (c : Char) : Option Nat :=
  if isdigit c then some (c.toNat - 48)
  else if 97 ≤ c.toNat ∧ c.toNat ≤ 122 then some (c.toNat - 97 + 10)
  else if 65 ≤ c.toNat ∧ c.toNat ≤ 90 then some (c.toNat - 65 + 10)
  else none

/-- Digit loop of `strtol`: consume the digits valid in `base`, accumulating
their value; returns the value and the unconsumed suffix. -/
def scan_digits (base : Nat) : Nat → List Char → Nat × List Char
  | acc, [] => (acc, [])
  | acc, c :: cs =>
    match digit_value c with
    | some d => if d < base then scan_digits base (acc * base + d) cs else (acc, c :: cs)
    | none => (acc, c :: cs)

/-- Test whether the string starts with `0x` or `0X` followed by a hexadecimal digit. -/
def hex_marker : List Char → Bool
  | z :: x :: h :: _ =>
    z == '0' && (x == 'x' || x == 'X') &&
      (match digit_value h with
       | some d => decide (d < 16)
       | none => false)
  | _ => false

/-- Library function `strtol(nptr, &endptr, base)` for `base` 0 or 2..36:
optional white space, optional sign, with base 0 (or 16) an optional `0x`,
with base 0 a leading `0` selecting octal, then the digits.  The result
saturates at `LONG_MAX`/`LONG_MIN`; without any digit the value is 0 and
`endptr` is `nptr`.  Returns the value and `endptr`. -/
def strtol (nptr : List Char) (base : Nat) : Int × List Char :=
  let s := skip_spaces nptr
  let neg := deref s == '-'
  let s := if deref s == '-' || deref s == '+' then s.tail else s
  let hex := (base == 0 || base == 16) && hex_marker s
  let b := if hex then 16 else if base == 0 then (if deref s == '0' then 8 else 10) else base
  let s := if hex then s.drop 2 else s
  let r := scan_digits b 0 s
  if r.2.length = s.length then (0, nptr)
  else
    let v : Int := if neg then -(r.1 : Int) else (r.1 : Int)
    (max LONG_MIN (min LONG_MAX v), r.2)

/-- Library function `atoi(p)`: `(int) strtol(p, NULL, 10)`. -/
def atoi (p : List Char) : Int :=
  to_int (strtol p 10).1

/-- Output of `sprintf` for the conversion `%d`. -/
def fmt_d (i : Int) : List Char :=
  if i < 0 then '-' :: Nat.toDigits 10 i.natAbs else Nat.toDigits 10 i.toNat

/-! ## Data model (`larvnetd.h`) -/

/-- Record `struct archname`. -/
structure archname where
  netname : List Char
  reportname : List Char
  deriving DecidableEq, Repr

/-- Record `struct cluster`. -/
structure cluster where
  name : List Char
  phone : List Char
  cgroup : Int
  deriving DecidableEq, Repr

/-- Record `struct printer`; `timer` is `none` for a null pointer. -/
structure printer where
  name : List Char
  cluster : Int
  up : Int
  jobs : Int
  s : Int
  timer : Option Nat
  deriving DecidableEq, Repr

/-- Record `struct machine`. -/
structure machine where
  name : List Char
  cluster : Int
  busy : Int
  arch : Int
  laststatus : Int
  lastpoll : Int
  numpolls : Int
  deriving DecidableEq, Repr

/-- Record `struct cgroup`, with the fields `config.c` writes. -/
structure cgroup where
  name : List Char
  x : Int
  y : Int
  deriving DecidableEq, Repr

/-- Record `struct config`; the option strings are `none` for a null pointer. -/
structure config where
  clusters : List cluster
  arches : List archname
  machines : List machine
  printers : List printer
  cgroups : List cgroup
  report_other : Option (List Char)
  report_unknown : Option (List Char)
  deriving DecidableEq, Repr

/-- Field `nclusters`. -/
def config.nclusters (c : config) : Int := c.clusters.length

/-- Field `narch`. -/
def config.narch (c : config) : Int := c.arches.length

/-- Field `nmachines`. -/
def config.nmachines (c : config) : Int := c.machines.length

/-- Field `nprinters`. -/
def config.nprinters (c : config) : Int := c.printers.length

/-- Field `ncgroups`. -/
def config.ncgroups (c : config) : Int := c.cgroups.length

/-- Record `struct serverstate`, with the fields `config.c` uses; `channel`
identifies the resolver channel. -/
structure serverstate where
  configfile : List Char
  config : config
  channel : Nat
  deriving DecidableEq, Repr

/-- An open configuration file as `read_line` sees it: `read_line` returns 0
once for each of `lines`, in order, and from then on -1 if `error` is set and
the end-of-file status otherwise. -/
structure LineSource where
  lines : List (List Char)
  error : Bool
  deriving DecidableEq, Repr

/-- What `config.c` takes from outside: the sentinel constants of
`larvnetd.h`, the workstation helpers `ws_sort` and `ws_find` (the latter
returns the position in `machines` of the machine it points to), the file
system as `fopen` sees it, and the outcome of the next `ares_init` (the new
channel, or `none` for a status other than `ARES_SUCCESS`). -/
structure Env where
  UNKNOWN_ARCH : Int
  OTHER_ARCH : Int
  UNKNOWN_BUSYSTATE : Int
  ws_sort : List machine → List machine
  ws_find : List machine → List Char → Option Nat
  fopen : List Char → Option LineSource
  ares_init : Option Nat

/-- The NUL character. -/
def NUL : Char := Char.ofNat 0

/-! ## Resource release (`freeconfig`) -/

/-- The five arrays of a `struct config`. -/
inductive Buffer where
  | clusters
  | arches
  | machines
  | printers
  | cgroups
  deriving DecidableEq, Repr

/-- Calls with an effect outside the configuration being built: `free` of a
string or of an array, `close` of a descriptor, `free(timer_reset(t))`,
`ares_destroy` and `ares_init`. -/
inductive Effect where
  | free_string (s : List Char)
  | free_array (b : Buffer)
  | close (fd : Int)
  | timer_release (t : Nat)
  | ares_destroy (channel : Nat)
  | ares_init
  deriving DecidableEq, Repr

/-- Body of the first loop of `freeconfig`, for one printer. -/
def free_printer (p : printer) : List Effect :=
  [Effect.free_string p.name]
    ++ (if p.s != -1 then [Effect.close p.s] else [])
    ++ (match p.timer with
        | some t => [Effect.timer_release t]
        | none => [])

/-- The call `free(s)` on an option string; `free(NULL)` does nothing. -/
def free_opt : Option (List Char) → List Effect
  | some s => [Effect.free_string s]
  | none => []

/-- Source function `freeconfig`: the releases it performs, in order. -/
def freeconfig (c : config) : List Effect :=
  (c.printers.map free_printer).flatten
    ++ (c.clusters.map (fun cl => [Effect.free_string cl.name, Effect.free_string cl.phone])).flatten
    ++ (c.arches.map (fun a => [Effect.free_string a.netname, Effect.free_string a.reportname])).flatten
    ++ c.cgroups.map (fun g => Effect.free_string g.name)
    ++ [Effect.free_array Buffer.clusters, Effect.free_array Buffer.arches,
        Effect.free_array Buffer.machines, Effect.free_array Buffer.printers,
        Effect.free_array Buffer.cgroups]
    ++ free_opt c.report_other
    ++ free_opt c.report_unknown

/-! ## Parsing (`read_config`) -/

/-- Source function `add_machine`. -/
def add_machine (x : Env) (c : config) (name : List Char) (cluster_index : Int) : config :=
  { c with machines := c.machines ++
      [{ name := name, cluster := cluster_index, busy := x.UNKNOWN_BUSYSTATE,
         arch := x.UNKNOWN_ARCH, laststatus := 0, lastpoll := 0, numpolls := 0 }] }

/-- Source function `find_numeric_range`: `none` for the return value 0, and
for 1 the values stored through `start`, `end`, `first` and `last`. -/
def find_numeric_range (name : List Char) : Option (List Char × List Char × Int × Int) :=
  match strchr name '[' with
  | none => none
  | some start =>
    let p := start.tail
    if !isdigit (deref p) then none
    else
      let r1 := strtol p 0
      let first := to_int r1.1
      let p := r1.2
      if deref p != '-' then none
      else
        let p := p.tail
        if !isdigit (deref p) then none
        else
          let r2 := strtol p 0
          let last := to_int r2.1
          let p := r2.2
          if deref p != ']' then none
          else some (start, p.tail, first, last)

/-- The first loop of `read_config`, over the lines `read_line` delivers:
the configuration with the architectures read, and the lines left after the
terminating one, or `none` when `read_line` stopped delivering lines first. -/
def read_arches (c : config) : List (List Char) → config × Option (List (List Char))
  | [] => (c, none)
  | line :: rest =>
    let p := skip_spaces line
    let q := skip_nonspaces p
    if deref p == '#' || deref p == NUL then read_arches c rest
    else if deref p == '-' then (c, some rest)
    else
      let netname := estrndup p (ptrdiff q p)
      let p := skip_spaces q
      let q := skip_nonspaces p
      let reportname := if deref p != NUL then estrndup p (ptrdiff q p) else netname
      read_arches { c with arches := c.arches ++ [{ netname := netname, reportname := reportname }] }
        rest

/-- How the processing of one line of the second loop ends: with the next
iteration, with `goto cleanup` (`retval` still -1), or in the signed overflow
of the counter of the range loop, after which no behaviour is defined. -/
inductive LineResult where
  | next (c : config) (cluster_index : Int)
  | cleanup (c : config)
  | undefined
  deriving DecidableEq, Repr

/-- The characters of `s` up to its last non-space character. -/
def strip_trailing (s : List Char) : List Char :=
  (s.reverse.dropWhile isspace).reverse

/-- The loop `while (q > p && isspace(*q)) *q-- = 0` started at the last
character of the non-empty string `p`. -/
def chop_trailing : List Char → List Char
  | [] => []
  | c :: cs => c :: strip_trailing cs

/-- The `cluster` branch. -/
def cluster_line (c : config) (p : List Char) : LineResult :=
  let p := skip_spaces (p.drop 8)
  let q := skip_nonspaces p
  let name := estrndup p (ptrdiff q p)
  let p := skip_spaces q
  let q := skip_nonspaces p
  let phone := estrndup p (ptrdiff q p)
  LineResult.next
    { c with clusters := c.clusters ++ [{ name := name, phone := phone, cgroup := -1 }] }
    c.nclusters

/-- The `printer` branch. -/
def printer_line (c : config) (cluster_index : Int) (p : List Char) : LineResult :=
  if cluster_index == -1 then LineResult.cleanup c
  else
    let p := skip_spaces (p.drop 7)
    let q := skip_nonspaces p
    LineResult.next
      { c with printers := c.printers ++
          [{ name := estrndup p (ptrdiff q p), cluster := cluster_index,
             up := 0, jobs := 0, s := -1, timer := none }] }
      cluster_index

/-- The loop `for (i = range_first; i <= range_last; i++)` of the `ws`
branch, from counter value `i`; the first argument bounds the number of
iterations.  The result is `none` when `i++` overflows. -/
def ws_range_loop (x : Env) (name range_end : List Char) (cluster_index range_last : Int) :
    Nat → Int → config → Option config
  | 0, i, c => if i ≤ range_last then none else some c
  | n + 1, i, c =>
    if i ≤ range_last then
      let c := add_machine x c (name ++ fmt_d i ++ range_end) cluster_index
      if i = INT_MAX then none
      else ws_range_loop x name range_end cluster_index range_last n (i + 1) c
    else some c

/-- The `ws` branch. -/
def ws_line (x : Env) (c : config) (cluster_index : Int) (p : List Char) : LineResult :=
  if cluster_index == -1 then LineResult.cleanup c
  else
    let p := skip_spaces (p.drop 2)
    let q := skip_nonspaces p
    let p := p.take (ptrdiff q p)
    match find_numeric_range p with
    | some (range_start, range_end, range_first, range_last) =>
      let name := p.take (ptrdiff range_start p)
      match ws_range_loop x name range_end cluster_index range_last
          (range_last + 1 - range_first).toNat range_first c with
      | some c => LineResult.next c cluster_index
      | none => LineResult.undefined
    | none => LineResult.next (add_machine x c p cluster_index) cluster_index

/-- The search loop over the clusters in the `cgroup` branch, from index `i`:
the index at which it stops. -/
def find_cluster (p : List Char) (n : Nat) : List cluster → Nat → Nat
  | [], i => i
  | cl :: rest, i =>
    if cl.name.length == n && strncmp_eq cl.name p n then i
    else find_cluster p n rest (i + 1)

/-- Assignment to element `i` of an array. -/
def modify_at {α : Type} (f : α → α) : List α → Nat → List α
  | [], _ => []
  | a :: as, 0 => f a :: as
  | a :: as, n + 1 => a :: modify_at f as n

/-- The loop `while (*q)` of the `cgroup` branch; the first argument bounds
the number of iterations (each one advances `q`). -/
def cgroup_members (cluster_index : Int) : Nat → config → List Char → LineResult
  | 0, c, _ => LineResult.next c cluster_index
  | n + 1, c, q =>
    if deref q == NUL then LineResult.next c cluster_index
    else
      let p := skip_spaces q
      let q := skip_nonspaces p
      let i := find_cluster p (ptrdiff q p) c.clusters 0
      if i == c.clusters.length then LineResult.cleanup c
      else if (c.clusters.map cluster.cgroup).getD i 0 != -1 then LineResult.cleanup c
      else
        let g := c.ncgroups - 1
        let cls := modify_at (fun cl => { cl with cgroup := g }) c.clusters i
        cgroup_members cluster_index n { c with clusters := cls } q

/-- The `cgroup` branch. -/
def cgroup_line (c : config) (cluster_index : Int) (p : List Char) : LineResult :=
  let p := skip_spaces (p.drop 6)
  let q := skip_nonspaces p
  let name := estrndup p (ptrdiff q p)
  let p := skip_spaces q
  let q := skip_nonspaces p
  let gx := atoi p
  let p := skip_spaces q
  let q := skip_nonspaces p
  let gy := atoi p
  cgroup_members cluster_index q.length
    { c with cgroups := c.cgroups ++ [{ name := name, x := gx, y := gy }] } q

/-- The `option` branch. -/
def option_line (c : config) (cluster_index : Int) (p : List Char) : LineResult :=
  let p := skip_spaces (p.drop 6)
  if strncmp_eq p "report-other".toList 12 && isspace (char_at p 12) then
    LineResult.next { c with report_other := some (skip_spaces (p.drop 12)) } cluster_index
  else if strncmp_eq p "report-unknown".toList 14 && isspace (char_at p 14) then
    LineResult.next { c with report_unknown := some (skip_spaces (p.drop 14)) } cluster_index
  else LineResult.cleanup c

/-- Body of the second loop of `read_config` for one line. -/
def body_line (x : Env) (c : config) (cluster_index : Int) (line : List Char) : LineResult :=
  let line :=
    match strchr line '#' with
    | some h => line.take (ptrdiff h line)
    | none => line
  let p := skip_spaces line
  if deref p == NUL then LineResult.next c cluster_index
  else
    let p := chop_trailing p
    if strncmp_eq p "cluster".toList 7 && isspace (char_at p 7) then cluster_line c p
    else if strncmp_eq p "printer".toList 7 && isspace (char_at p 7) then
      printer_line c cluster_index p
    else if strncmp_eq p "ws".toList 2 && isspace (char_at p 2) then ws_line x c cluster_index p
    else if strncmp_eq p "cgroup".toList 6 && isspace (char_at p 6) then
      cgroup_line c cluster_index p
    else if strncmp_eq p "option".toList 6 && isspace (char_at p 6) then
      option_line c cluster_index p
    else LineResult.cleanup c

/-- The second loop of `read_config`, over the lines `read_line` delivers. -/
def body_loop (x : Env) : config → Int → List (List Char) → LineResult
  | c, cluster_index, [] => LineResult.next c cluster_index
  | c, cluster_index, line :: rest =>
    match body_line x c cluster_index line with
    | LineResult.next c1 i1 => body_loop x c1 i1 rest
    | r => r

/-- How `read_config` ends: return value 0 with the configuration stored
through `config`, return value -1 after the listed releases, or no defined
behaviour. -/
inductive ParseResult where
  | success (c : config)
  | failure (released : List Effect)
  | undefined
  deriving DecidableEq, Repr

/-- The configuration `read_config` starts from. -/
def empty_config : config :=
  { clusters := [], arches := [], machines := [], printers := [], cgroups := [],
    report_other := none, report_unknown := none }

/-- Source function `read_config`. -/
def read_config (x : Env) (configfile : List Char) : ParseResult :=
  match x.fopen configfile with
  | none => ParseResult.failure []
  | some fp =>
    let r := read_arches empty_config fp.lines
    if r.2.isNone && fp.error then ParseResult.failure (freeconfig r.1)
    else
      match body_loop x r.1 (-1) (r.2.getD []) with
      | LineResult.next c _ =>
        if fp.error then ParseResult.failure (freeconfig c)
        else ParseResult.success { c with machines := x.ws_sort c.machines }
      | LineResult.cleanup c => ParseResult.failure (freeconfig c)
      | LineResult.undefined => ParseResult.undefined

/-! ## Rereading (`reread_config`) -/

/-- The search loop of `translate_arch` from index `i`. -/
def arch_loop (x : Env) (name : List Char) : List archname → Int → Int
  | [], _ => x.OTHER_ARCH
  | a :: rest, i => if strcmp_eq a.netname name then i else arch_loop x name rest (i + 1)

/-- Source function `translate_arch`; `none` when `oldconfig->arches` is read
outside its elements. -/
def translate_arch (x : Env) (oldconfig newconfig : config) (archnum : Int) : Option Int :=
  if archnum == x.UNKNOWN_ARCH || archnum == x.OTHER_ARCH then some archnum
  else
    match (if 0 ≤ archnum then oldconfig.arches[archnum.toNat]? else none) with
    | none => none
    | some a => some (arch_loop x a.netname newconfig.arches 0)

/-- The assignments to `*machine` in the workstation loop of `reread_config`,
from the old machine `m` and the translated architecture `a`. -/
def copy_machine (m : machine) (a : Int) (nm : machine) : machine :=
  { nm with busy := m.busy, laststatus := m.laststatus, lastpoll := m.lastpoll,
            numpolls := m.numpolls, arch := a }

/-- Body of the workstation loop of `reread_config` for the old machine `m`. -/
def merge_machine (x : Env) (oldconfig newconf : config) (m : machine) : Option config :=
  match x.ws_find newconf.machines m.name with
  | none => some newconf
  | some j =>
    match translate_arch x oldconfig newconf m.arch with
    | none => none
    | some a =>
      some { newconf with machines := modify_at (copy_machine m a) newconf.machines j }

/-- The workstation loop of `reread_config` over the old machines. -/
def merge_machines (x : Env) (oldconfig : config) : List machine → config → Option config
  | [], newconf => some newconf
  | m :: ms, newconf =>
    match merge_machine x oldconfig newconf m with
    | none => none
    | some nc => merge_machines x oldconfig ms nc

/-- Body of the inner printer loop of `reread_config`. -/
def copy_printer (old : printer) (p : printer) : printer :=
  if strcmp_eq old.name p.name then { p with up := old.up, jobs := old.jobs } else p

/-- The printer loops of `reread_config`: for each old printer in turn, a
pass over all new printers. -/
def merge_printers : List printer → List printer → List printer
  | [], news => news
  | old :: olds, news => merge_printers olds (news.map (copy_printer old))

/-- How `reread_config` ends: by returning, in `exit(1)`, or with no defined
behaviour. -/
inductive Outcome where
  | returned (state : serverstate)
  | exited
  | undefined
  deriving DecidableEq, Repr

/-- Source function `reread_config`: how it ends and the effects it had. -/
def reread_config (x : Env) (state : serverstate) : Outcome × List Effect :=
  match read_config x state.configfile with
  | ParseResult.undefined => (Outcome.undefined, [])
  | ParseResult.failure released => (Outcome.returned state, released)
  | ParseResult.success newconf =>
    match merge_machines x state.config state.config.machines newconf with
    | none => (Outcome.undefined, [])
    | some nc =>
      let nc := { nc with printers := merge_printers state.config.printers nc.printers }
      match x.ares_init with
      | none => (Outcome.exited, [Effect.ares_destroy state.channel, Effect.ares_init])
      | some ch =>
        (Outcome.returned { state with config := nc, channel := ch },
          [Effect.ares_destroy state.channel, Effect.ares_init] ++ freeconfig state.config)

/-- The configuration a line result carries, if any. -/
def LineResult.config? : LineResult → Option config
  | LineResult.next c _ => some c
  | LineResult.cleanup c => some c
  | LineResult.undefined => none

/-- Runtime state of a printer just created by `read_config`. -/
def fresh_printer (p : printer) : Prop :=
  p.up = 0 ∧ p.jobs = 0 ∧ p.s = -1 ∧ p.timer = none

/-- An effect that releases memory only. -/
def Effect.is_free : Effect → Prop
  | Effect.free_string _ => True
  | Effect.free_array _ => True
  | _ => False

/-! ## Sample environment -/

/-- A linear name lookup over the machines, as a sample `ws_find`. -/
def sample_ws_find : List machine → List Char → Option Nat
  | [], _ => none
  | m :: ms, n => if m.name = n then some 0 else (sample_ws_find ms n).map (fun j => j + 1)

/-- A sample environment: sentinels -1 and -2, the identity as `ws_sort`, a
linear `ws_find`, one configuration file for every name, and a successful
`ares_init` delivering channel 1. -/
def sample_env (file : Option LineSource) : Env :=
  { UNKNOWN_ARCH := -1, OTHER_ARCH := -2, UNKNOWN_BUSYSTATE := 2,
    ws_sort := fun ms => ms, ws_find := sample_ws_find,
    fopen := fun _ => file, ares_init := some 1 }

/-- Sample old configuration: three architectures, `sun4` at index 2. -/
def sample_old_arches : config :=
  { empty_config with arches :=
      [{ netname := "sgi".toList, reportname := "sgi".toList },
       { netname := "linux".toList, reportname := "linux".toList },
       { netname := "sun4".toList, reportname := "Sun".toList }] }

/-- Sample new configuration: `sun4` moved to index 0 and listed again at
index 2, `linux` gone. -/
def sample_new_arches : config :=
  { empty_config with arches :=
      [{ netname := "sun4".toList, reportname := "Sun".toList },
       { netname := "sgi".toList, reportname := "sgi".toList },
       { netname := "sun4".toList, reportname := "Sparc".toList }] }

/-- The passes of the printer loops of `reread_config` as seen by one new
printer `p`: the inner-loop body for each old printer in turn. -/
def copy_all : List printer → printer → printer
  | [], p => p
  | old :: olds, p => copy_all olds (copy_printer old p)

/-- Sample active configuration: architectures `sgi`, `linux`, `sun4`;
machine `foo` busy (state 0) on `sun4` (index 2) with 7 polls, machine `bar`
on `linux`; printer `lp` up with 3 jobs, descriptor 5 and timer 9. -/
def sample_config : config :=
  { sample_old_arches with
    clusters := [{ name := "w20".toList, phone := "x3-1234".toList, cgroup := -1 }],
    machines :=
      [{ name := "bar".toList, cluster := 0, busy := 1, arch := 1, laststatus := 40,
         lastpoll := 50, numpolls := 2 },
       { name := "foo".toList, cluster := 0, busy := 0, arch := 2, laststatus := 100,
         lastpoll := 200, numpolls := 7 }],
    printers :=
      [{ name := "lp".toList, cluster := 0, up := 1, jobs := 3, s := 5, timer := some 9 }] }

/-- Sample server state around `sample_config`, on channel 0. -/
def sample_state : serverstate :=
  { configfile := "larvnetd.conf".toList, config := sample_config, channel := 0 }

/-- Sample reload file: `sun4` first and `linux` gone, machine `foo` kept, two
printers named `lp`. -/
def sample_reload : LineSource :=
  { lines := ["sun4 Sun".toList, "sgi".toList, "-".toList, "cluster m1 x3-0000".toList,
              "printer lp".toList, "ws foo".toList, "cluster m2 x3-1111".toList,
              "printer lp".toList, "ws baz".toList],
    error := false }

/-- Sample reload file with a workstation before any cluster. -/
def sample_bad_reload : LineSource :=
  { lines := ["sun4 Sun".toList, "-".toList, "ws foo".toList], error := false }

/-- The configuration `read_config` builds from `sample_reload`. -/
def sample_parsed : config :=
  { clusters := [{ name := "m1".toList, phone := "x3-0000".toList, cgroup := -1 },
                 { name := "m2".toList, phone := "x3-1111".toList, cgroup := -1 }],
    arches := [{ netname := "sun4".toList, reportname := "Sun".toList },
               { netname := "sgi".toList, reportname := "sgi".toList }],
    machines :=
      [{ name := "foo".toList, cluster := 0, busy := 2, arch := -1, laststatus := 0,
         lastpoll := 0, numpolls := 0 },
       { name := "baz".toList, cluster := 1, busy := 2, arch := -1, laststatus := 0,
         lastpoll := 0, numpolls := 0 }],
    printers :=
      [{ name := "lp".toList, cluster := 0, up := 0, jobs := 0, s := -1, timer := none },
       { name := "lp".toList, cluster := 1, up := 0, jobs := 0, s := -1, timer := none }],
    cgroups := [], report_other := none, report_unknown := none }

/-- The server state after `reread_config` on `sample_state` with
`sample_reload`. -/
def sample_reloaded : serverstate :=
  { configfile := "larvnetd.conf".toList,
    config :=
      { sample_parsed with
        machines :=
          [{ name := "foo".toList, cluster := 0, busy := 0, arch := 0, laststatus := 100,
             lastpoll := 200, numpolls := 7 },
           { name := "baz".toList, cluster := 1, busy := 2, arch := -1, laststatus := 0,
             lastpoll := 0, numpolls := 0 }],
        printers :=
          [{ name := "lp".toList, cluster := 0, up := 1, jobs := 3, s := -1, timer := none },
           { name := "lp".toList, cluster := 1, up := 1, jobs := 3, s := -1, timer := none }] },
    channel := 1 }

/-- The effects of `reread_config` on `sample_state` with `sample_reload`. -/
def sample_reload_effects : List Effect :=
  [Effect.ares_destroy 0, Effect.ares_init] ++ freeconfig sample_config

/-! ## The grammar in the words of the specification -/

/-- The line after `*p = 0` at its first `#`, if it has one. -/
def cut_comment (line : List Char) : List Char :=
  match strchr line '#' with
  | some h => line.take (ptrdiff h line)
  | none => line

/-- A body line that is empty once cut at the first `#` and trimmed. -/
def blank_line (line : List Char) : Bool :=
  deref (skip_spaces (cut_comment line)) == NUL

/-- The text of a body line: cut at the first `#`, then trimmed of leading
and trailing white space. -/
def line_text (line : List Char) : List Char :=
  chop_trailing (skip_spaces (cut_comment line))

/-- The keyword test of the second loop of `read_config` on a body line:
`strncmp(p, kw, n) == 0 && isspace(p[n])` for `n` the length of `kw`. -/
def keyword_test (kw : String) (line : List Char) : Bool :=
  !blank_line line && strncmp_eq (line_text line) kw.toList kw.length
    && isspace (char_at (line_text line) kw.length)

/-- The final `else` of the second loop is reached: the line is not blank and
none of the five keyword tests holds (`unrecognized line`). -/
def unrecognized (line : List Char) : Bool :=
  !blank_line line && !keyword_test "cluster" line && !keyword_test "printer" line
    && !keyword_test "ws" line && !keyword_test "cgroup" line && !keyword_test "option" line

/-- First white-space-delimited token of a text: skip white space, then take
the characters up to the next white space. -/
def first_token (s : List Char) : List Char :=
  (s.dropWhile isspace).takeWhile (fun ch => !isspace ch)

/-- The text that follows the first white-space-delimited token. -/
def after_token (s : List Char) : List Char :=
  (s.dropWhile isspace).dropWhile (fun ch => !isspace ch)

/-- The white-space-delimited token number `n` of a text, counted from 0; the
empty string when the text has fewer tokens. -/
def nth_token : Nat → List Char → List Char
  | 0, s => first_token s
  | n + 1, s => nth_token n (after_token s)

/-- The text that follows the first `n` white-space-delimited tokens. -/
def after_tokens : Nat → List Char → List Char
  | 0, s => s
  | n + 1, s => after_tokens n (after_token s)

/-- Sample file with a printer before any cluster, after an option line and
followed by a cluster line. -/
def sample_orphan : LineSource :=
  { lines := ["sun4 Sun".toList, "-".toList, "option report-other misc".toList,
              "printer lp".toList, "cluster m1 x3-0000".toList],
    error := false }

/-- Runtime state and cluster of a machine as `add_machine` creates it under
the cluster `ci`. -/
def fresh_machine (x : Env) (ci : Int) (m : machine) : Prop :=
  m.cluster = ci ∧ m.busy = x.UNKNOWN_BUSYSTATE ∧ m.arch = x.UNKNOWN_ARCH ∧
    m.laststatus = 0 ∧ m.lastpoll = 0 ∧ m.numpolls = 0

/-- Number of host names a `ws` token stands for: one for a literal token,
and for a range the number of integers from its first to its last bound
(none when the first bound is the larger one). -/
def range_count (tok : List Char) : Nat :=
  match find_numeric_range tok with
  | some r => (r.2.2.2 + 1 - r.2.2.1).toNat
  | none => 1

/-- The white-space-delimited tokens of a text, in order; the first argument
bounds their number. -/
def tokens_upto : Nat → List Char → List (List Char)
  | 0, _ => []
  | n + 1, s =>
    if s.dropWhile isspace = [] then [] else first_token s :: tokens_upto n (after_token s)

/-- The white-space-delimited tokens of a text, in order. -/
def tokens (s : List Char) : List (List Char) :=
  tokens_upto s.length s

/-- The cluster names listed on a `cgroup` line: the tokens after the
keyword, the name and the two coordinates. -/
def listed_clusters (line : List Char) : List (List Char) :=
  tokens (after_tokens 4 (line_text line))

/-- The `cgroup` field of the first cluster named `t`, `none` when no cluster
has that name. -/
def cgroup_of (cls : List cluster) (t : List Char) : Option Int :=
  (cls.find? (fun cl => cl.name == t)).map cluster.cgroup

/-- A body line whose first white-space-delimited token, once the line is
cut at the first `#` and trimmed, is the keyword `kw`. -/
def is_line (kw : String) (line : List Char) : Bool :=
  first_token (line_text line) == kw.toList

/-- The `cluster` fields the printers of a body are to carry, in file order:
for each `printer` line the 0-based ordinal of the nearest `cluster` line
before it; `seen` is the number of `cluster` lines before the first line. -/
def printer_ordinals (seen : Nat) : List (List Char) → List Int
  | [] => []
  | l :: ls =>
    if is_line "cluster" l then printer_ordinals (seen + 1) ls
    else if is_line "printer" l then ((seen : Int) - 1) :: printer_ordinals seen ls
    else printer_ordinals seen ls

/-- The `cluster` fields the machines of a body are to carry, in file order:
for each `ws` line, once for every host name its token stands for, the
0-based ordinal of the nearest `cluster` line before it. -/
def machine_ordinals (seen : Nat) : List (List Char) → List Int
  | [] => []
  | l :: ls =>
    if is_line "cluster" l then machine_ordinals (seen + 1) ls
    else if is_line "ws" l then
      List.replicate (range_count (nth_token 1 (line_text l))) ((seen : Int) - 1)
        ++ machine_ordinals seen ls
    else machine_ordinals seen ls

/-- A line whose first non-space character is `-`: the end of the
architecture list. -/
def arch_end (line : List Char) : Bool :=
  (line.dropWhile isspace).head? == some '-'

/-- A line of the architecture list that is skipped: blank, or with `#` as
its first non-space character. -/
def arch_skipped (line : List Char) : Bool :=
  (line.dropWhile isspace).head? == none || (line.dropWhile isspace).head? == some '#'

/-- The architecture a line of the architecture list stands for: the first
token as network name, the second token as report name if there is one,
otherwise the network name again. -/
def arch_entry (line : List Char) : archname :=
  { netname := nth_token 0 line,
    reportname := if nth_token 1 line = [] then nth_token 0 line else nth_token 1 line }

/-- The architecture list of a file in the words of the specification: one
entry per line before the first terminator line, skipped lines left out. -/
def arch_list (lines : List (List Char)) : List archname :=
  ((lines.takeWhile (fun l => !arch_end l)).filter (fun l => !arch_skipped l)).map arch_entry

/-- The body of a file: the lines after the first terminator line of the
architecture list. -/
def body_of (lines : List (List Char)) : List (List Char) :=
  (lines.dropWhile (fun l => !arch_end l)).tail

/-- The first cluster named `t` is in a cluster group already. -/
def has_cgroup (cls : List cluster) (t : List Char) : Prop :=
  ∃ v, cgroup_of cls t = some v ∧ v ≠ -1

/-- What one body line that does not end the parse does to the configuration
`c` under the current cluster `ci`, giving `c1` and `i1`; `t` stands for the
text of the line. -/
structure LineEffect (x : Env) (c : config) (ci : Int) (line : List Char) (c1 : config)
    (i1 : Int) : Prop where
  recognized : blank_line line = true ∨ keyword_test "cluster" line = true ∨
    keyword_test "printer" line = true ∨ keyword_test "ws" line = true ∨
    keyword_test "cgroup" line = true ∨ keyword_test "option" line = true
  arches : c1.arches = c.arches
  clusters : c1.clusters.map (fun cl => (cl.name, cl.phone))
    = c.clusters.map (fun cl => (cl.name, cl.phone))
      ++ (if keyword_test "cluster" line
          then [(nth_token 1 (line_text line), nth_token 2 (line_text line))] else [])
  printers : c1.printers = c.printers
    ++ (if keyword_test "printer" line
        then [{ name := nth_token 1 (line_text line), cluster := ci, up := 0, jobs := 0,
                s := -1, timer := none }] else [])
  cgroups : c1.cgroups = c.cgroups
    ++ (if keyword_test "cgroup" line
        then [{ name := nth_token 1 (line_text line),
                x := atoi (nth_token 2 (line_text line)),
                y := atoi (nth_token 3 (line_text line)) }] else [])
  machines : ∃ ms, c1.machines = c.machines ++ ms ∧ (∀ m ∈ ms, fresh_machine x ci m) ∧
    ms.length = (if keyword_test "ws" line then range_count (nth_token 1 (line_text line)) else 0)
  index : i1 = (if keyword_test "cluster" line then c.nclusters else ci)
  member : keyword_test "printer" line = true ∨ keyword_test "ws" line = true → ci ≠ -1
  taken : ∀ t, has_cgroup c.clusters t → has_cgroup c1.clusters t

/-- Sample file in which two `cgroup` lines both list the cluster `a`. -/
def sample_cgroups : LineSource :=
  { lines := ["-".toList, "cluster a x3-1".toList, "cluster b x3-2".toList,
              "cgroup west 0 0 a".toList, "cgroup east 5 7 b a".toList, "ws late".toList],
    error := false }

/-- The configuration built from `sample_cgroups` before its second `cgroup`
line. -/
def sample_cgroups_before : config :=
  { empty_config with
    clusters := [{ name := "a".toList, phone := "x3-1".toList, cgroup := 0 },
                 { name := "b".toList, phone := "x3-2".toList, cgroup := -1 }],
    cgroups := [{ name := "west".toList, x := 0, y := 0 }] }

/-- What the lines `body`, none of which ends the parse, do to the
configuration `c` under the current cluster `ci`, giving `c1` and `i1`. -/
structure LoopEffect (x : Env) (c : config) (ci : Int) (body : List (List Char)) (c1 : config)
    (i1 : Int) : Prop where
  arches : c1.arches = c.arches
  clusters : c1.clusters.map (fun cl => (cl.name, cl.phone))
    = c.clusters.map (fun cl => (cl.name, cl.phone))
      ++ (body.filter (is_line "cluster")).map
          (fun l => (nth_token 1 (line_text l), nth_token 2 (line_text l)))
  printer_names : c1.printers.map printer.name
    = c.printers.map printer.name
      ++ (body.filter (is_line "printer")).map (fun l => nth_token 1 (line_text l))
  printer_clusters : c1.printers.map printer.cluster
    = c.printers.map printer.cluster ++ printer_ordinals c.clusters.length body
  cgroups : c1.cgroups.map (fun g => (g.name, g.x, g.y))
    = c.cgroups.map (fun g => (g.name, g.x, g.y))
      ++ (body.filter (is_line "cgroup")).map
          (fun l => (nth_token 1 (line_text l), atoi (nth_token 2 (line_text l)),
                     atoi (nth_token 3 (line_text l))))
  machines : ∃ ms, c1.machines = c.machines ++ ms ∧
    ms.map machine.cluster = machine_ordinals c.clusters.length body ∧
    ∀ m ∈ ms, m.busy = x.UNKNOWN_BUSYSTATE ∧ m.arch = x.UNKNOWN_ARCH ∧ m.laststatus = 0 ∧
      m.lastpoll = 0 ∧ m.numpolls = 0
  index : i1 = (c1.clusters.length : Int) - 1
  printer_lower : ∀ o ∈ printer_ordinals c.clusters.length body, 0 ≤ o
  machine_lower : ∀ o ∈ machine_ordinals c.clusters.length body, 0 ≤ o

/-- Sample file with comments, a blank line, an architecture without report
name and one line of every kind in the body. -/
def sample_round : LineSource :=
  { lines := ["# architectures".toList, "sun4 Sun".toList, "".toList, "  sgi".toList,
              "-".toList, "cluster m1 x3-0000  # first".toList, "printer lp".toList,
              "ws foo".toList, "cgroup west 12 -7 m1".toList],
    error := false }

/-- The configuration `read_config` builds from `sample_round`. -/
def sample_round_parsed : config :=
  { clusters := [{ name := "m1".toList, phone := "x3-0000".toList, cgroup := 0 }],
    arches := [{ netname := "sun4".toList, reportname := "Sun".toList },
               { netname := "sgi".toList, reportname := "sgi".toList }],
    machines :=
      [{ name := "foo".toList, cluster := 0, busy := 2, arch := -1, laststatus := 0,
         lastpoll := 0, numpolls := 0 }],
    printers :=
      [{ name := "lp".toList, cluster := 0, up := 0, jobs := 0, s := -1, timer := none }],
    cgroups := [{ name := "west".toList, x := 12, y := -7 }],
    report_other := none, report_unknown := none }

/-- An architecture number that is a sentinel or an index of a list of
`narch` architectures. -/
def valid_arch (x : Env) (narch : Int) (a : Int) : Prop :=
  a = x.UNKNOWN_ARCH ∨ a = x.OTHER_ARCH ∨ (0 ≤ a ∧ a < narch)

/-- Every machine of the configuration has a sentinel or an index of the
configuration's own architecture list as `arch`. -/
def valid_arches (x : Env) (c : config) : Prop :=
  ∀ m ∈ c.machines, valid_arch x c.narch m.arch

/-- The environment at a later time: the same constants and workstation
helpers, another file system and another outcome of `ares_init`. -/
def later_env (x : Env) (files : List Char → Option LineSource) (init : Option Nat) : Env :=
  { x with fopen := files, ares_init := init }

/-- The server states reachable from a fresh parse (as `read_initial_config`
stores it) by calls of `reread_config` that return, each under the file
system of its time. -/
inductive Reachable (x : Env) : serverstate → Prop where
  | fresh (files : List Char → Option LineSource) (init : Option Nat) (f : List Char)
      (c : config) (ch : Nat) :
      read_config (later_env x files init) f = ParseResult.success c →
      Reachable x { configfile := f, config := c, channel := ch }
  | reload (files : List Char → Option LineSource) (init : Option Nat)
      (s s1 : serverstate) (eff : List Effect) :
      Reachable x s →
      reread_config (later_env x files init) s = (Outcome.returned s1, eff) →
      Reachable x s1

/-! # Proofs -/

/-! ## Architecture translation -/

theorem arch_loop_not_found (x : Env) (name : List Char) (l : List archname) (i : Int)
    (h : ∀ a ∈ l, a.netname ≠ name) : arch_loop x name l i = x.OTHER_ARCH := by
  induction l generalizing i with
  | nil => rfl
  | cons a rest ih =>
    have ha : a.netname ≠ name := h a (List.mem_cons_self _ _)
    have hr : ∀ b ∈ rest, b.netname ≠ name := fun b hb => h b (List.mem_cons_of_mem _ hb)
    simp [arch_loop, strcmp_eq, ha, ih (i + 1) hr]

theorem arch_loop_found (x : Env) (name : List Char) (l : List archname) (i : Int)
    (h : ∃ a ∈ l, a.netname = name) :
    ∃ k : Nat, arch_loop x name l i = i + k ∧ k < l.length ∧
      (∃ b, l[k]? = some b ∧ b.netname = name) ∧
      ∀ k2, k2 < k → ∀ b, l[k2]? = some b → b.netname ≠ name := by
  induction l generalizing i with
  | nil => simp at h
  | cons a rest ih =>
    by_cases ha : a.netname = name
    · refine ⟨0, ?_, by simp, ⟨a, by simp, ha⟩, ?_⟩
      · simp [arch_loop, strcmp_eq, ha]
      · intro k2 hk2; omega
    · have hr : ∃ b ∈ rest, b.netname = name := by
        obtain ⟨b, hb, hbn⟩ := h
        rcases List.mem_cons.mp hb with rfl | hb2
        · exact absurd hbn ha
        · exact ⟨b, hb2, hbn⟩
      obtain ⟨k, hk, hlt, ⟨b, hb, hbn⟩, hmin⟩ := ih (i + 1) hr
      refine ⟨k + 1, ?_, by simp; omega, ⟨b, by simpa using hb, hbn⟩, ?_⟩
      · simp [arch_loop, strcmp_eq, ha, hk]; omega
      · intro k2 hk2 b2 hb2
        cases k2 with
        | zero =>
          simp at hb2
          subst hb2
          exact ha
        | succ k3 =>
          simp at hb2
          exact hmin k3 (by omega) b2 hb2

theorem translate_arch_in_range (x : Env) (old new : config) (archnum : Int) (a : archname)
    (hU : x.UNKNOWN_ARCH < 0) (hO : x.OTHER_ARCH < 0) (h0 : 0 ≤ archnum)
    (ha : old.arches[archnum.toNat]? = some a) :
    translate_arch x old new archnum = some (arch_loop x a.netname new.arches 0) := by
  have h1 : archnum ≠ x.UNKNOWN_ARCH := by omega
  have h2 : archnum ≠ x.OTHER_ARCH := by omega
  simp [translate_arch, h1, h2, h0, ha]

/-- C3: with both sentinels negative, for an index `archnum` of the old
architecture list whose entry `a` has a network name that occurs in the new
list, `translate_arch` returns the smallest index `j` of the new list whose
entry has that network name, and `0 ≤ j < new.narch`. -/
theorem translate_arch_by_name (x : Env) (old new : config) (archnum : Int) (a : archname)
    (hU : x.UNKNOWN_ARCH < 0) (hO : x.OTHER_ARCH < 0)
    (h0 : 0 ≤ archnum) (_h1 : archnum < old.narch)
    (ha : old.arches[archnum.toNat]? = some a)
    (hex : ∃ b ∈ new.arches, b.netname = a.netname) :
    ∃ j : Nat, translate_arch x old new archnum = some (j : Int) ∧ (0 : Int) ≤ j ∧
      (j : Int) < new.narch ∧ (∃ b, new.arches[j]? = some b ∧ b.netname = a.netname) ∧
      ∀ k, k < j → ∀ b, new.arches[k]? = some b → b.netname ≠ a.netname := by
  obtain ⟨k, hk, hlt, hb, hmin⟩ := arch_loop_found x a.netname new.arches 0 hex
  refine ⟨k, ?_, by omega, ?_, hb, hmin⟩
  · rw [translate_arch_in_range x old new archnum a hU hO h0 ha, hk]; simp
  · simp [config.narch]; omega

theorem translate_arch_by_name_witness :
    ∃ j : Nat, translate_arch (sample_env none) sample_old_arches sample_new_arches 2
        = some (j : Int) ∧ (0 : Int) ≤ j ∧
      (j : Int) < sample_new_arches.narch ∧
      (∃ b, sample_new_arches.arches[j]? = some b ∧ b.netname = "sun4".toList) ∧
      ∀ k, k < j → ∀ b, sample_new_arches.arches[k]? = some b → b.netname ≠ "sun4".toList :=
  translate_arch_by_name (sample_env none) sample_old_arches sample_new_arches 2
    { netname := "sun4".toList, reportname := "Sun".toList }
    (by decide) (by decide) (by decide) (by decide) (by decide)
    ⟨{ netname := "sun4".toList, reportname := "Sparc".toList }, by decide, by decide⟩

/-- C4: with both sentinels negative, for an index `archnum` of the old
architecture list whose entry `a` has a network name that no entry of the new
list has, `translate_arch` returns `OTHER_ARCH`. -/
theorem translate_arch_retired (x : Env) (old new : config) (archnum : Int) (a : archname)
    (hU : x.UNKNOWN_ARCH < 0) (hO : x.OTHER_ARCH < 0)
    (h0 : 0 ≤ archnum) (_h1 : archnum < old.narch)
    (ha : old.arches[archnum.toNat]? = some a)
    (hno : ∀ b ∈ new.arches, b.netname ≠ a.netname) :
    translate_arch x old new archnum = some x.OTHER_ARCH := by
  rw [translate_arch_in_range x old new archnum a hU hO h0 ha,
    arch_loop_not_found x a.netname new.arches 0 hno]

theorem translate_arch_retired_witness :
    translate_arch (sample_env none) sample_old_arches sample_new_arches 1
      = some (sample_env none).OTHER_ARCH :=
  translate_arch_retired (sample_env none) sample_old_arches sample_new_arches 1
    { netname := "linux".toList, reportname := "linux".toList }
    (by decide) (by decide) (by decide) (by decide) (by decide) (by decide)

/-- C5: `translate_arch` returns `UNKNOWN_ARCH` for `UNKNOWN_ARCH` and
`OTHER_ARCH` for `OTHER_ARCH`, whatever the two architecture lists are; it
does so also when the old list has no element at all, so no element of it is
read. -/
theorem translate_arch_sentinels (x : Env) (old new : config) :
    translate_arch x old new x.UNKNOWN_ARCH = some x.UNKNOWN_ARCH ∧
    translate_arch x old new x.OTHER_ARCH = some x.OTHER_ARCH ∧
    translate_arch x { old with arches := [] } new x.UNKNOWN_ARCH = some x.UNKNOWN_ARCH ∧
    translate_arch x { old with arches := [] } new x.OTHER_ARCH = some x.OTHER_ARCH := by
  simp [translate_arch]

/-! ## Frame of the parser on the printers -/

theorem add_machine_printers (x : Env) (c : config) (name : List Char) (ci : Int) :
    (add_machine x c name ci).printers = c.printers := rfl

theorem ws_range_loop_printers (x : Env) (name range_end : List Char) (ci last : Int)
    (n : Nat) (i : Int) (c c1 : config)
    (h : ws_range_loop x name range_end ci last n i c = some c1) :
    c1.printers = c.printers := by
  induction n generalizing i c with
  | zero =>
    simp only [ws_range_loop] at h
    split at h
    · simp at h
    · simp at h; rw [← h]
  | succ n ih =>
    simp only [ws_range_loop] at h
    split at h
    · split at h
      · simp at h
      · rw [ih _ _ h, add_machine_printers]
    · simp at h; rw [← h]

theorem ws_line_printers (x : Env) (c : config) (ci : Int) (p : List Char) (c1 : config)
    (h : (ws_line x c ci p).config? = some c1) : c1.printers = c.printers := by
  unfold ws_line at h
  split at h
  · simp [LineResult.config?] at h; rw [← h]
  · simp only at h
    split at h
    · split at h
      · next c2 hc2 =>
        simp [LineResult.config?] at h
        rw [← h]
        exact ws_range_loop_printers _ _ _ _ _ _ _ _ _ hc2
      · simp [LineResult.config?] at h
    · simp [LineResult.config?] at h; rw [← h, add_machine_printers]

theorem cgroup_members_printers (ci : Int) (n : Nat) (c : config) (q : List Char) (c1 : config)
    (h : (cgroup_members ci n c q).config? = some c1) : c1.printers = c.printers := by
  induction n generalizing c q with
  | zero => simp [cgroup_members, LineResult.config?] at h; rw [← h]
  | succ n ih =>
    simp only [cgroup_members] at h
    split at h
    · simp [LineResult.config?] at h; rw [← h]
    · split at h
      · simp [LineResult.config?] at h; rw [← h]
      · split at h
        · simp [LineResult.config?] at h; rw [← h]
        · rw [ih _ _ h]

theorem cgroup_line_printers (c : config) (ci : Int) (p : List Char) (c1 : config)
    (h : (cgroup_line c ci p).config? = some c1) : c1.printers = c.printers := by
  unfold cgroup_line at h
  rw [cgroup_members_printers _ _ _ _ _ h]

theorem option_line_printers (c : config) (ci : Int) (p : List Char) (c1 : config)
    (h : (option_line c ci p).config? = some c1) : c1.printers = c.printers := by
  unfold option_line at h
  simp only at h
  split at h
  · simp [LineResult.config?] at h; rw [← h]
  · split at h
    · simp [LineResult.config?] at h; rw [← h]
    · simp [LineResult.config?] at h; rw [← h]

theorem cluster_line_printers (c : config) (p : List Char) (c1 : config)
    (h : (cluster_line c p).config? = some c1) : c1.printers = c.printers := by
  unfold cluster_line at h
  simp [LineResult.config?] at h; rw [← h]

theorem printer_line_printers (c : config) (ci : Int) (p : List Char) (c1 : config)
    (h : (printer_line c ci p).config? = some c1) :
    c1.printers = c.printers ∨ ∃ np, fresh_printer np ∧ c1.printers = c.printers ++ [np] := by
  unfold printer_line at h
  split at h
  · simp [LineResult.config?] at h; left; rw [← h]
  · simp [LineResult.config?] at h
    right
    refine ⟨_, ?_, by rw [← h]⟩
    simp [fresh_printer]

theorem body_line_printers (x : Env) (c : config) (ci : Int) (line : List Char) (c1 : config)
    (h : (body_line x c ci line).config? = some c1) :
    c1.printers = c.printers ∨ ∃ np, fresh_printer np ∧ c1.printers = c.printers ++ [np] := by
  unfold body_line at h
  simp only at h
  split at h
  · simp [LineResult.config?] at h; left; rw [← h]
  · split at h
    · left; exact cluster_line_printers _ _ _ h
    · split at h
      · exact printer_line_printers _ _ _ _ h
      · split at h
        · left; exact ws_line_printers _ _ _ _ _ h
        · split at h
          · left; exact cgroup_line_printers _ _ _ _ h
          · split at h
            · left; exact option_line_printers _ _ _ _ h
            · simp [LineResult.config?] at h; left; rw [← h]

theorem body_line_fresh (x : Env) (c : config) (ci : Int) (line : List Char) (c1 : config)
    (h : (body_line x c ci line).config? = some c1)
    (hc : ∀ p ∈ c.printers, fresh_printer p) : ∀ p ∈ c1.printers, fresh_printer p := by
  rcases body_line_printers x c ci line c1 h with h1 | ⟨np, hnp, h1⟩
  · rw [h1]; exact hc
  · rw [h1]
    intro p hp
    rcases List.mem_append.mp hp with hp | hp
    · exact hc p hp
    · simp at hp; rw [hp]; exact hnp

theorem body_loop_fresh (x : Env) (c : config) (ci : Int) (lines : List (List Char))
    (c1 : config) (h : (body_loop x c ci lines).config? = some c1)
    (hc : ∀ p ∈ c.printers, fresh_printer p) : ∀ p ∈ c1.printers, fresh_printer p := by
  induction lines generalizing c ci with
  | nil => simp [body_loop, LineResult.config?] at h; rw [← h]; exact hc
  | cons line rest ih =>
    simp only [body_loop] at h
    split at h
    · next c2 i2 h2 =>
      exact ih c2 i2 h (body_line_fresh x c ci line c2 (by rw [h2]; rfl) hc)
    · next r hr =>
      exact body_line_fresh x c ci line c1 h hc

theorem read_arches_printers (c : config) (lines : List (List Char)) :
    (read_arches c lines).1.printers = c.printers := by
  induction lines generalizing c with
  | nil => rfl
  | cons line rest ih =>
    simp only [read_arches]
    split
    · exact ih c
    · split
      · rfl
      · rw [ih]

theorem free_printer_is_free (p : printer) (h : p.s = -1 ∧ p.timer = none) :
    ∀ e ∈ free_printer p, e.is_free := by
  intro e he
  simp [free_printer, h.1, h.2] at he
  subst he
  trivial

theorem free_opt_is_free (o : Option (List Char)) : ∀ e ∈ free_opt o, e.is_free := by
  intro e he
  cases o with
  | none => simp [free_opt] at he
  | some s => simp [free_opt] at he; subst he; trivial

theorem freeconfig_is_free (c : config) (h : ∀ p ∈ c.printers, p.s = -1 ∧ p.timer = none) :
    ∀ e ∈ freeconfig c, e.is_free := by
  intro e he
  simp only [freeconfig, List.mem_append, List.mem_flatten, List.mem_map] at he
  rcases he with (((((he | he) | he) | he) | he) | he) | he
  · obtain ⟨l, ⟨p, hp, rfl⟩, hel⟩ := he
    exact free_printer_is_free p (h p hp) e hel
  · obtain ⟨l, ⟨cl, _, rfl⟩, hel⟩ := he
    simp at hel
    rcases hel with rfl | rfl <;> trivial
  · obtain ⟨l, ⟨a, _, rfl⟩, hel⟩ := he
    simp at hel
    rcases hel with rfl | rfl <;> trivial
  · obtain ⟨g, _, rfl⟩ := he
    trivial
  · simp at he
    rcases he with rfl | rfl | rfl | rfl | rfl <;> trivial
  · exact free_opt_is_free _ e he
  · exact free_opt_is_free _ e he

theorem empty_config_fresh : ∀ p ∈ empty_config.printers, fresh_printer p := by
  intro p hp
  simp [empty_config] at hp

theorem read_arches_fresh (lines : List (List Char)) :
    ∀ p ∈ (read_arches empty_config lines).1.printers, fresh_printer p := by
  rw [read_arches_printers]
  exact empty_config_fresh

theorem fresh_closed {l : List printer} (h : ∀ p ∈ l, fresh_printer p) :
    ∀ p ∈ l, p.s = -1 ∧ p.timer = none :=
  fun p hp => ⟨(h p hp).2.2.1, (h p hp).2.2.2⟩

theorem read_config_failure_is_free (x : Env) (configfile : List Char) (released : List Effect)
    (h : read_config x configfile = ParseResult.failure released) :
    ∀ e ∈ released, e.is_free := by
  unfold read_config at h
  split at h
  · simp at h; subst h; simp
  · next fp hfp =>
    simp only at h
    split at h
    · simp at h; subst h
      exact freeconfig_is_free _ (fresh_closed (read_arches_fresh _))
    · split at h
      · next c i hc =>
        split at h
        · simp at h; subst h
          exact freeconfig_is_free _ (fresh_closed
            (body_loop_fresh x _ _ _ c (by rw [hc]; rfl) (read_arches_fresh _)))
        · simp at h
      · next c hc =>
        simp at h; subst h
        exact freeconfig_is_free _ (fresh_closed
          (body_loop_fresh x _ _ _ c (by rw [hc]; rfl) (read_arches_fresh _)))
      · simp at h

theorem read_config_success_fresh (x : Env) (configfile : List Char) (c : config)
    (h : read_config x configfile = ParseResult.success c) :
    ∀ p ∈ c.printers, fresh_printer p := by
  unfold read_config at h
  split at h
  · simp at h
  · next fp hfp =>
    simp only at h
    split at h
    · simp at h
    · split at h
      · next c1 i hc =>
        split at h
        · simp at h
        · simp at h; subst h
          exact body_loop_fresh x _ _ _ c1 (by rw [hc]; rfl) (read_arches_fresh _)
      · simp at h
      · simp at h

/-- C1: whenever `read_config` fails on the candidate (the file cannot be
opened, the line source reports an error, or a line is rejected),
`reread_config` returns with the server state it was given, configuration and
resolver channel included, and its only effects are those of the failed
`read_config` itself, which release memory of the candidate and nothing
else: no channel is destroyed or created, no descriptor closed, no timer
released. -/
theorem reread_config_failure_keeps_state (x : Env) (state : serverstate)
    (released : List Effect)
    (h : read_config x state.configfile = ParseResult.failure released) :
    reread_config x state = (Outcome.returned state, released) ∧
      ∀ e ∈ released, e.is_free := by
  refine ⟨?_, read_config_failure_is_free x _ released h⟩
  simp [reread_config, h]

theorem reread_config_failure_keeps_state_witness :
    reread_config (sample_env (some sample_bad_reload)) sample_state
        = (Outcome.returned sample_state,
           [Effect.free_string "sun4".toList, Effect.free_string "Sun".toList,
            Effect.free_array Buffer.clusters, Effect.free_array Buffer.arches,
            Effect.free_array Buffer.machines, Effect.free_array Buffer.printers,
            Effect.free_array Buffer.cgroups]) ∧
      ∀ e ∈ [Effect.free_string "sun4".toList, Effect.free_string "Sun".toList,
            Effect.free_array Buffer.clusters, Effect.free_array Buffer.arches,
            Effect.free_array Buffer.machines, Effect.free_array Buffer.printers,
            Effect.free_array Buffer.cgroups], e.is_free :=
  reread_config_failure_keeps_state (sample_env (some sample_bad_reload)) sample_state _
    (by decide)

/-! ## The merge of `reread_config` -/

theorem merge_machine_printers (x : Env) (old nc nc1 : config) (m : machine)
    (h : merge_machine x old nc m = some nc1) :
    nc1.printers = nc.printers := by
  unfold merge_machine at h
  split at h
  · simp at h; rw [← h]
  · split at h
    · simp at h
    · simp at h; rw [← h]

theorem merge_machines_printers (x : Env) (old : config) (ms : List machine) (nc nc1 : config)
    (h : merge_machines x old ms nc = some nc1) :
    nc1.printers = nc.printers := by
  induction ms generalizing nc with
  | nil => simp [merge_machines] at h; rw [← h]
  | cons m ms ih =>
    simp only [merge_machines] at h
    split at h
    · simp at h
    · next nc2 h2 => rw [ih nc2 h, merge_machine_printers x old nc nc2 m h2]

theorem merge_printers_eq_map (olds news : List printer) :
    merge_printers olds news = news.map (copy_all olds) := by
  induction olds generalizing news with
  | nil => simp [merge_printers, copy_all]
  | cons o os ih =>
    simp only [merge_printers, ih, List.map_map]
    rfl

theorem copy_printer_frame (o p : printer) :
    (copy_printer o p).name = p.name ∧ (copy_printer o p).cluster = p.cluster ∧
      (copy_printer o p).s = p.s ∧ (copy_printer o p).timer = p.timer := by
  unfold copy_printer
  split <;> simp

theorem copy_all_frame (olds : List printer) (p : printer) :
    (copy_all olds p).name = p.name ∧ (copy_all olds p).cluster = p.cluster ∧
      (copy_all olds p).s = p.s ∧ (copy_all olds p).timer = p.timer := by
  induction olds generalizing p with
  | nil => simp [copy_all]
  | cons o os ih =>
    simp only [copy_all]
    obtain ⟨h1, h2, h3, h4⟩ := ih (copy_printer o p)
    obtain ⟨g1, g2, g3, g4⟩ := copy_printer_frame o p
    exact ⟨h1.trans g1, h2.trans g2, h3.trans g3, h4.trans g4⟩

theorem copy_all_no_match (olds : List printer) (p : printer)
    (h : ∀ o ∈ olds, o.name ≠ p.name) : copy_all olds p = p := by
  induction olds generalizing p with
  | nil => rfl
  | cons o os ih =>
    have ho : o.name ≠ p.name := h o (List.mem_cons_self _ _)
    have hcp : copy_printer o p = p := by simp [copy_printer, strcmp_eq, ho]
    simp only [copy_all, hcp]
    exact ih p (fun o2 ho2 => h o2 (List.mem_cons_of_mem _ ho2))

theorem copy_all_append (l1 l2 : List printer) (p : printer) :
    copy_all (l1 ++ l2) p = copy_all l2 (copy_all l1 p) := by
  induction l1 generalizing p with
  | nil => rfl
  | cons o os ih => exact ih (copy_printer o p)

theorem copy_all_last_match (front : List printer) (old : printer) (back : List printer)
    (p : printer) (hn : old.name = p.name) (hback : ∀ o ∈ back, o.name ≠ p.name) :
    (copy_all (front ++ old :: back) p).up = old.up ∧
      (copy_all (front ++ old :: back) p).jobs = old.jobs := by
  rw [copy_all_append]
  simp only [copy_all]
  have hname : (copy_all front p).name = p.name := (copy_all_frame front p).1
  have hcp : copy_printer old (copy_all front p)
      = { copy_all front p with up := old.up, jobs := old.jobs } := by
    simp [copy_printer, strcmp_eq, hn, hname]
  rw [hcp, copy_all_no_match]
  · simp
  · intro o ho
    simpa [hname] using hback o ho

theorem reread_config_success (x : Env) (state st1 : serverstate) (newconf : config)
    (eff : List Effect)
    (hread : read_config x state.configfile = ParseResult.success newconf)
    (h : reread_config x state = (Outcome.returned st1, eff)) :
    ∃ nc ch, merge_machines x state.config state.config.machines newconf = some nc ∧
      x.ares_init = some ch ∧
      st1 = { state with
              config := { nc with printers := merge_printers state.config.printers nc.printers },
              channel := ch } ∧
      eff = [Effect.ares_destroy state.channel, Effect.ares_init] ++ freeconfig state.config := by
  unfold reread_config at h
  rw [hread] at h
  simp only at h
  split at h
  · simp at h
  · next nc hnc =>
    split at h
    · simp at h
    · next ch hch =>
      simp only [Prod.mk.injEq, Outcome.returned.injEq] at h
      exact ⟨nc, ch, hnc, hch, h.1.symm, h.2.symm⟩

/-- C7: after every `reread_config` that read its candidate successfully and
returned, every printer of the active configuration has connection handle
`s = -1` and a null `timer`, whatever the old printers held. -/
theorem reread_config_printers_closed (x : Env) (state st1 : serverstate) (newconf : config)
    (eff : List Effect)
    (hread : read_config x state.configfile = ParseResult.success newconf)
    (h : reread_config x state = (Outcome.returned st1, eff)) :
    ∀ p ∈ st1.config.printers, p.s = -1 ∧ p.timer = none := by
  obtain ⟨nc, ch, hnc, _, hst, _⟩ := reread_config_success x state st1 newconf eff hread h
  have hpr : nc.printers = newconf.printers := merge_machines_printers x _ _ _ _ hnc
  have hfresh := read_config_success_fresh x _ newconf hread
  intro p hp
  rw [hst] at hp
  simp only [merge_printers_eq_map, hpr, List.mem_map] at hp
  obtain ⟨q, hq, rfl⟩ := hp
  obtain ⟨_, _, h3, h4⟩ := copy_all_frame state.config.printers q
  rw [h3, h4]
  exact ⟨(hfresh q hq).2.2.1, (hfresh q hq).2.2.2⟩

theorem reread_config_printers_closed_witness :
    read_config (sample_env (some sample_reload)) sample_state.configfile
        = ParseResult.success sample_parsed ∧
      reread_config (sample_env (some sample_reload)) sample_state
        = (Outcome.returned sample_reloaded, sample_reload_effects) ∧
      ∀ p ∈ sample_reloaded.config.printers, p.s = -1 ∧ p.timer = none :=
  ⟨by decide, by decide,
    reread_config_printers_closed (sample_env (some sample_reload)) sample_state sample_reloaded
      sample_parsed sample_reload_effects (by decide) (by decide)⟩

theorem modify_at_getElem? {α : Type} (f : α → α) (l : List α) (j k : Nat) :
    (modify_at f l j)[k]? = if k = j then l[k]?.map f else l[k]? := by
  induction l generalizing j k with
  | nil => cases j <;> simp [modify_at]
  | cons a as ih =>
    cases j with
    | zero =>
      cases k with
      | zero => simp [modify_at]
      | succ k => simp [modify_at]
    | succ j =>
      cases k with
      | zero => simp [modify_at]
      | succ k => simp [modify_at, ih]

theorem modify_at_map {α β : Type} (f : α → α) (g : α → β) (l : List α) (j : Nat)
    (h : ∀ a, g (f a) = g a) : (modify_at f l j).map g = l.map g := by
  induction l generalizing j with
  | nil => cases j <;> simp [modify_at]
  | cons a as ih =>
    cases j with
    | zero => simp [modify_at, h]
    | succ j => simp [modify_at, ih]

theorem merge_machine_cases (x : Env) (old nc nc1 : config) (m : machine)
    (h : merge_machine x old nc m = some nc1) :
    (x.ws_find nc.machines m.name = none ∧ nc1 = nc) ∨
    ∃ j a, x.ws_find nc.machines m.name = some j ∧
      nc1.machines = modify_at (copy_machine m a) nc.machines j := by
  unfold merge_machine at h
  split at h
  · next hf => simp at h; exact Or.inl ⟨hf, h.symm⟩
  · next j hf =>
    split at h
    · simp at h
    · next a _ =>
      simp at h
      exact Or.inr ⟨j, a, hf, by rw [← h]⟩

theorem merge_machine_names (x : Env) (old nc nc1 : config) (m : machine)
    (h : merge_machine x old nc m = some nc1) :
    nc1.machines.map machine.name = nc.machines.map machine.name := by
  rcases merge_machine_cases x old nc nc1 m h with ⟨_, rfl⟩ | ⟨j, a, _, hm⟩
  · rfl
  · rw [hm]
    exact modify_at_map _ _ _ _ (fun _ => rfl)

theorem merge_machines_append (x : Env) (old : config) (l1 l2 : List machine) (nc : config) :
    merge_machines x old (l1 ++ l2) nc
      = (merge_machines x old l1 nc).bind (merge_machines x old l2) := by
  induction l1 generalizing nc with
  | nil => simp [merge_machines]
  | cons m ms ih =>
    simp only [List.cons_append, merge_machines]
    split
    · simp
    · next nc2 _ => exact ih nc2

theorem merge_machines_others (x : Env) (old : config) (n : List Char) (j : Nat)
    (hname : ∀ ms nm k, x.ws_find ms nm = some k → (ms.map machine.name)[k]? = some nm)
    (ms : List machine) (hms : ∀ m ∈ ms, m.name ≠ n) (nc nc1 : config)
    (hj : (nc.machines.map machine.name)[j]? = some n)
    (h : merge_machines x old ms nc = some nc1) :
    nc1.machines.map machine.name = nc.machines.map machine.name ∧
      nc1.machines[j]? = nc.machines[j]? := by
  induction ms generalizing nc with
  | nil => simp [merge_machines] at h; subst h; exact ⟨rfl, rfl⟩
  | cons m ms ih =>
    simp only [merge_machines] at h
    split at h
    · simp at h
    · next nc2 h2 =>
      have hn2 := merge_machine_names x old nc nc2 m h2
      have hm : m.name ≠ n := hms m (List.mem_cons_self _ _)
      have hj2 : nc2.machines[j]? = nc.machines[j]? := by
        rcases merge_machine_cases x old nc nc2 m h2 with ⟨_, rfl⟩ | ⟨k, a, hk, hmod⟩
        · rfl
        · have hkn := hname _ _ _ hk
          have hne : j ≠ k := by
            intro hjk
            rw [hjk, hkn] at hj
            exact hm (Option.some.inj hj)
          rw [hmod, modify_at_getElem?, if_neg hne]
      obtain ⟨r1, r2⟩ := ih (fun m2 hm2 => hms m2 (List.mem_cons_of_mem _ hm2)) nc2
        (by rw [hn2]; exact hj) h
      exact ⟨r1.trans hn2, r2.trans hj2⟩

theorem merge_machines_once (x : Env) (old : config) (m : machine) (j : Nat)
    (hname : ∀ ms nm k, x.ws_find ms nm = some k → (ms.map machine.name)[k]? = some nm)
    (hkey : ∀ ms1 ms2 nm, ms1.map machine.name = ms2.map machine.name →
      x.ws_find ms1 nm = x.ws_find ms2 nm)
    (front back : List machine)
    (hfront : ∀ m2 ∈ front, m2.name ≠ m.name) (hback : ∀ m2 ∈ back, m2.name ≠ m.name)
    (nc ncF : config) (hfind : x.ws_find nc.machines m.name = some j)
    (h : merge_machines x old (front ++ m :: back) nc = some ncF) :
    ∃ nm, ncF.machines[j]? = some nm ∧ nm.name = m.name ∧ nm.busy = m.busy ∧
      nm.laststatus = m.laststatus ∧ nm.lastpoll = m.lastpoll ∧ nm.numpolls = m.numpolls := by
  have hj : (nc.machines.map machine.name)[j]? = some m.name := hname _ _ _ hfind
  rw [merge_machines_append] at h
  cases h1 : merge_machines x old front nc with
  | none => rw [h1] at h; simp at h
  | some nc1 =>
    rw [h1] at h
    simp only [Option.some_bind, merge_machines] at h
    obtain ⟨hn1, hj1⟩ := merge_machines_others x old m.name j hname front hfront nc nc1 hj h1
    split at h
    · simp at h
    · next nc2 h2 =>
      have hn2 := merge_machine_names x old nc1 nc2 m h2
      have hfind1 : x.ws_find nc1.machines m.name = some j := by
        rw [hkey nc1.machines nc.machines m.name hn1]; exact hfind
      obtain ⟨_, hjF⟩ := merge_machines_others x old m.name j hname back hback nc2 ncF
        (by rw [hn2, hn1]; exact hj) h
      rcases merge_machine_cases x old nc1 nc2 m h2 with ⟨hnone, _⟩ | ⟨k, a, hk, hmod⟩
      · rw [hfind1] at hnone; simp at hnone
      · rw [hfind1] at hk
        have hkj : j = k := Option.some.inj hk
        subst hkj
        rw [List.getElem?_map] at hj
        cases hnm : nc.machines[j]? with
        | none => rw [hnm] at hj; simp at hj
        | some nm0 =>
          rw [hnm] at hj
          simp at hj
          refine ⟨copy_machine m a nm0, ?_, hj, rfl, rfl, rfl, rfl⟩
          rw [hjF, hmod, modify_at_getElem?, if_pos rfl, hj1, hnm]
          rfl

/-- C2: let `ws_find` be a lookup by name (the machine it returns has the name
asked for, and its answer depends on the names in the list only).  If the
old machine `m` is the only one of its name in the active configuration, the
candidate is read successfully, `ws_find` finds `m.name` in it at position
`j`, and `reread_config` returns, then the machine at position `j` of the
newly active configuration has that name and the `busy`, `laststatus`,
`lastpoll` and `numpolls` of `m`. -/
theorem reread_config_machine_state (x : Env) (state st1 : serverstate) (newconf : config)
    (eff : List Effect) (m : machine) (i j : Nat)
    (hname : ∀ ms nm k, x.ws_find ms nm = some k → (ms.map machine.name)[k]? = some nm)
    (hkey : ∀ ms1 ms2 nm, ms1.map machine.name = ms2.map machine.name →
      x.ws_find ms1 nm = x.ws_find ms2 nm)
    (hi : state.config.machines[i]? = some m)
    (honce : ∀ k m2, state.config.machines[k]? = some m2 → m2.name = m.name → k = i)
    (hread : read_config x state.configfile = ParseResult.success newconf)
    (hfind : x.ws_find newconf.machines m.name = some j)
    (h : reread_config x state = (Outcome.returned st1, eff)) :
    ∃ nm, st1.config.machines[j]? = some nm ∧ nm.name = m.name ∧ nm.busy = m.busy ∧
      nm.laststatus = m.laststatus ∧ nm.lastpoll = m.lastpoll ∧ nm.numpolls = m.numpolls := by
  obtain ⟨nc, ch, hnc, _, hst, _⟩ := reread_config_success x state st1 newconf eff hread h
  have hilt : i < state.config.machines.length := by
    by_contra hge
    rw [List.getElem?_eq_none (by omega)] at hi
    simp at hi
  have hsplit : state.config.machines
      = state.config.machines.take i ++ m :: state.config.machines.drop (i + 1) := by
    have hget : state.config.machines[i] = m := by
      rw [List.getElem?_eq_getElem hilt] at hi
      exact Option.some.inj hi
    rw [← hget, List.getElem_cons_drop _ _ hilt, List.take_append_drop]
  have hfront : ∀ m2 ∈ state.config.machines.take i, m2.name ≠ m.name := by
    intro m2 hm2 hn
    obtain ⟨k, hk, hkm⟩ := List.getElem_of_mem hm2
    rw [List.length_take] at hk
    have hk2 : state.config.machines[k]? = some m2 := by
      rw [List.getElem_take] at hkm
      rw [List.getElem?_eq_getElem (by omega), hkm]
    have := honce k m2 hk2 hn
    omega
  have hback : ∀ m2 ∈ state.config.machines.drop (i + 1), m2.name ≠ m.name := by
    intro m2 hm2 hn
    obtain ⟨k, hk, hkm⟩ := List.getElem_of_mem hm2
    rw [List.length_drop] at hk
    have hk2 : state.config.machines[i + 1 + k]? = some m2 := by
      rw [List.getElem_drop] at hkm
      rw [List.getElem?_eq_getElem (by omega), hkm]
    have := honce (i + 1 + k) m2 hk2 hn
    omega
  rw [hsplit] at hnc
  have hres := merge_machines_once x state.config m j hname hkey _ _ hfront hback newconf nc
    hfind hnc
  rw [hst]
  exact hres

theorem sample_ws_find_name (ms : List machine) (nm : List Char) (k : Nat)
    (h : sample_ws_find ms nm = some k) : (ms.map machine.name)[k]? = some nm := by
  induction ms generalizing k with
  | nil => simp [sample_ws_find] at h
  | cons m ms ih =>
    simp only [sample_ws_find] at h
    split at h
    · next hm => simp at h; subst h; simp [hm]
    · simp only [Option.map_eq_some'] at h
      obtain ⟨k2, hk2, rfl⟩ := h
      simpa using ih k2 hk2

theorem sample_ws_find_key (ms1 ms2 : List machine) (nm : List Char)
    (h : ms1.map machine.name = ms2.map machine.name) :
    sample_ws_find ms1 nm = sample_ws_find ms2 nm := by
  induction ms1 generalizing ms2 with
  | nil =>
    cases ms2 with
    | nil => rfl
    | cons b bs => simp at h
  | cons a as ih =>
    cases ms2 with
    | nil => simp at h
    | cons b bs =>
      simp only [List.map_cons, List.cons.injEq] at h
      simp only [sample_ws_find, h.1, ih bs h.2]

theorem reread_config_machine_state_witness :
    ∃ nm, sample_reloaded.config.machines[0]? = some nm ∧ nm.name = "foo".toList ∧
      nm.busy = 0 ∧ nm.laststatus = 100 ∧ nm.lastpoll = 200 ∧ nm.numpolls = 7 :=
  reread_config_machine_state (sample_env (some sample_reload)) sample_state sample_reloaded
    sample_parsed sample_reload_effects
    { name := "foo".toList, cluster := 0, busy := 0, arch := 2, laststatus := 100,
      lastpoll := 200, numpolls := 7 } 1 0
    sample_ws_find_name sample_ws_find_key (by decide)
    (by
      intro k m2 hk hn
      match k, hk with
      | 0, hk =>
        simp [sample_state, sample_config] at hk
        subst hk
        exact absurd hn (by decide)
      | 1, _ => rfl
      | k + 2, hk => simp [sample_state, sample_config] at hk)
    (by decide) (by decide) (by decide)

/-- C6, as stated, fails: the active configuration has one printer `lp` (up,
3 jobs) and the reload file declares two printers named `lp`; after
`reread_config` the later of the two, at index 1, also has `up = 1` and
`jobs = 3` instead of the defaults 0 and 0. -/
theorem reread_config_printer_later_match :
    sample_state.config.printers.map (fun p => (p.name, p.up, p.jobs))
        = [("lp".toList, 1, 3)] ∧
      read_config (sample_env (some sample_reload)) sample_state.configfile
        = ParseResult.success sample_parsed ∧
      sample_parsed.printers.map (fun p => (p.name, p.up, p.jobs))
        = [("lp".toList, 0, 0), ("lp".toList, 0, 0)] ∧
      reread_config (sample_env (some sample_reload)) sample_state
        = (Outcome.returned sample_reloaded, sample_reload_effects) ∧
      sample_reloaded.config.printers.map (fun p => (p.name, p.up, p.jobs))
        = [("lp".toList, 1, 3), ("lp".toList, 1, 3)] := by
  decide

/-- C6, amended: after a `reread_config` that read its candidate successfully
and returned, the active printers are the candidate's printers, position by
position, with name, cluster, handle and timer as parsed; each of them whose
name an old printer has carries the `up` and `jobs` of the last old printer
of that name (every printer of that name does, not only the first), and each
whose name no old printer has keeps the defaults `up = 0`, `jobs = 0`. -/
theorem reread_config_printer_merge (x : Env) (state st1 : serverstate) (newconf : config)
    (eff : List Effect)
    (hread : read_config x state.configfile = ParseResult.success newconf)
    (h : reread_config x state = (Outcome.returned st1, eff)) :
    st1.config.printers.length = newconf.printers.length ∧
    ∀ (j : Nat) (np : printer), newconf.printers[j]? = some np →
      ∃ mp : printer, st1.config.printers[j]? = some mp ∧ mp.name = np.name ∧
        mp.cluster = np.cluster ∧ mp.s = np.s ∧ mp.timer = np.timer ∧
        (∀ (front : List printer) (old : printer) (back : List printer), state.config.printers = front ++ old :: back →
          old.name = np.name → (∀ o ∈ back, o.name ≠ np.name) →
          mp.up = old.up ∧ mp.jobs = old.jobs) ∧
        ((∀ o ∈ state.config.printers, o.name ≠ np.name) → mp.up = 0 ∧ mp.jobs = 0) := by
  obtain ⟨nc, ch, hnc, _, hst, _⟩ := reread_config_success x state st1 newconf eff hread h
  have hpr : nc.printers = newconf.printers := merge_machines_printers x _ _ _ _ hnc
  have hfresh := read_config_success_fresh x _ newconf hread
  have hps : st1.config.printers = newconf.printers.map (copy_all state.config.printers) := by
    rw [hst]
    simp only [merge_printers_eq_map, hpr]
  refine ⟨by rw [hps, List.length_map], ?_⟩
  intro j np hj
  have hmem : np ∈ newconf.printers := List.getElem?_mem hj
  obtain ⟨f1, f2, f3, f4⟩ := copy_all_frame state.config.printers np
  refine ⟨copy_all state.config.printers np, ?_, f1, f2, f3, f4, ?_, ?_⟩
  · rw [hps, List.getElem?_map, hj]; rfl
  · intro front old back hsplit hn hback
    rw [hsplit]
    exact copy_all_last_match front old back np hn hback
  · intro hno
    rw [copy_all_no_match _ _ hno]
    exact ⟨(hfresh np hmem).1, (hfresh np hmem).2.1⟩

theorem reread_config_printer_merge_witness :
    sample_reloaded.config.printers.length = sample_parsed.printers.length ∧
    ∀ (j : Nat) (np : printer), sample_parsed.printers[j]? = some np →
      ∃ mp : printer, sample_reloaded.config.printers[j]? = some mp ∧ mp.name = np.name ∧
        mp.cluster = np.cluster ∧ mp.s = np.s ∧ mp.timer = np.timer ∧
        (∀ (front : List printer) (old : printer) (back : List printer), sample_state.config.printers = front ++ old :: back →
          old.name = np.name → (∀ o ∈ back, o.name ≠ np.name) →
          mp.up = old.up ∧ mp.jobs = old.jobs) ∧
        ((∀ o ∈ sample_state.config.printers, o.name ≠ np.name) → mp.up = 0 ∧ mp.jobs = 0) :=
  reread_config_printer_merge (sample_env (some sample_reload)) sample_state sample_reloaded
    sample_parsed sample_reload_effects (by decide) (by decide)

/-! ## Decimal output and `strtol` -/

theorem toDigitsCore_acc (fuel n : Nat) (acc : List Char) :
    Nat.toDigitsCore 10 fuel n acc = Nat.toDigitsCore 10 fuel n [] ++ acc := by
  induction fuel generalizing n acc with
  | zero => simp [Nat.toDigitsCore]
  | succ fuel ih =>
    simp only [Nat.toDigitsCore]
    split
    · simp
    · rw [ih (n / 10) (Nat.digitChar (n % 10) :: acc), ih (n / 10) [Nat.digitChar (n % 10)]]
      simp

theorem toDigitsCore_fuel (f1 f2 n : Nat) (h1 : n < f1) (h2 : n < f2) (acc : List Char) :
    Nat.toDigitsCore 10 f1 n acc = Nat.toDigitsCore 10 f2 n acc := by
  induction n using Nat.strong_induction_on generalizing f1 f2 acc with
  | _ n ih =>
    cases f1 with
    | zero => omega
    | succ f1 =>
      cases f2 with
      | zero => omega
      | succ f2 =>
        simp only [Nat.toDigitsCore]
        split
        · rfl
        · next hne =>
          have hpos : 0 < n := by
            rcases Nat.eq_zero_or_pos n with h0 | h0
            · subst h0; simp at hne
            · exact h0
          exact ih (n / 10) (Nat.div_lt_self hpos (by decide)) f1 f2 (by omega) (by omega) _

theorem toDigits_small (n : Nat) (h : n < 10) : Nat.toDigits 10 n = [Nat.digitChar n] := by
  have h0 : n / 10 = 0 := Nat.div_eq_of_lt h
  simp [Nat.toDigits, Nat.toDigitsCore, h0, Nat.mod_eq_of_lt h]

theorem toDigits_step (n : Nat) (h : 10 ≤ n) :
    Nat.toDigits 10 n = Nat.toDigits 10 (n / 10) ++ [Nat.digitChar (n % 10)] := by
  have h0 : n / 10 ≠ 0 := by omega
  have e : Nat.toDigits 10 n = Nat.toDigitsCore 10 n (n / 10) [Nat.digitChar (n % 10)] := by
    simp only [Nat.toDigits, Nat.toDigitsCore, h0, if_false]
  rw [e, toDigitsCore_acc, toDigitsCore_fuel n (n / 10 + 1) (n / 10) (by omega) (by omega)]
  rfl

theorem digit_value_digitChar (d : Nat) (h : d < 10) :
    digit_value (Nat.digitChar d) = some d := by
  interval_cases d <;> decide

theorem digitChar_ne_zero (d : Nat) (h : d < 10) (h0 : d ≠ 0) : Nat.digitChar d ≠ '0' := by
  interval_cases d <;> first | (exact absurd rfl h0) | decide

theorem isdigit_digitChar (d : Nat) (h : d < 10) : isdigit (Nat.digitChar d) = true := by
  interval_cases d <;> decide

theorem toDigits_ne_nil (n : Nat) : Nat.toDigits 10 n ≠ [] := by
  rcases Nat.lt_or_ge n 10 with h | h
  · rw [toDigits_small n h]; simp
  · rw [toDigits_step n h]; simp

theorem toDigits_head (n : Nat) :
    ∃ d t, Nat.toDigits 10 n = Nat.digitChar d :: t ∧ d < 10 ∧ (n ≠ 0 → d ≠ 0) ∧
      (n = 0 → t = []) := by
  induction n using Nat.strong_induction_on with
  | _ n ih =>
    rcases Nat.lt_or_ge n 10 with h | h
    · exact ⟨n, [], toDigits_small n h, h, fun h0 => h0, fun _ => rfl⟩
    · obtain ⟨d, t, hd, hlt, hne, _⟩ := ih (n / 10) (by omega)
      refine ⟨d, t ++ [Nat.digitChar (n % 10)], ?_, hlt, fun _ => hne (by omega), fun h0 => by omega⟩
      rw [toDigits_step n h, hd]; rfl

theorem toDigits_all_digits (n : Nat) : ∀ ch ∈ Nat.toDigits 10 n, isdigit ch = true := by
  induction n using Nat.strong_induction_on with
  | _ n ih =>
    rcases Nat.lt_or_ge n 10 with h | h
    · rw [toDigits_small n h]
      intro ch hch
      simp at hch
      rw [hch]
      exact isdigit_digitChar n h
    · rw [toDigits_step n h]
      intro ch hch
      rcases List.mem_append.mp hch with hch | hch
      · exact ih (n / 10) (by omega) ch hch
      · simp at hch
        rw [hch]
        exact isdigit_digitChar _ (Nat.mod_lt _ (by decide))

theorem scan_digits_toDigits (n acc : Nat) (rest : List Char) :
    scan_digits 10 acc (Nat.toDigits 10 n ++ rest)
      = scan_digits 10 (acc * 10 ^ (Nat.toDigits 10 n).length + n) rest := by
  induction n using Nat.strong_induction_on generalizing acc rest with
  | _ n ih =>
    rcases Nat.lt_or_ge n 10 with h | h
    · rw [toDigits_small n h]
      simp [scan_digits, digit_value_digitChar n h, h]
    · rw [toDigits_step n h, List.append_assoc, ih (n / 10) (by omega)]
      have hm : n % 10 < 10 := Nat.mod_lt _ (by decide)
      simp only [List.singleton_append, scan_digits, digit_value_digitChar _ hm, hm, if_true,
        List.length_append, List.length_singleton, pow_succ]
      congr 1
      have := Nat.div_add_mod n 10
      nlinarith [this]

theorem to_int_small (v : Int) (h0 : 0 ≤ v) (h1 : v < 2147483648) : to_int v = v := by
  unfold to_int
  omega

theorem scan_digits_stop (b acc : Nat) (c : Char) (r : List Char)
    (hc : digit_value c = none) : scan_digits b acc (c :: r) = (acc, c :: r) := by
  simp [scan_digits, hc]

theorem skip_spaces_nonspace (c : Char) (r : List Char) (h : isspace c = false) :
    skip_spaces (c :: r) = c :: r := by
  simp [skip_spaces, h]

theorem isspace_digitChar (d : Nat) (h : d < 10) : isspace (Nat.digitChar d) = false := by
  interval_cases d <;> decide

theorem digitChar_ne (d : Nat) (h : d < 10) (c : Char)
    (hc : c = '-' ∨ c = '+' ∨ c = '[' ∨ c = ']' ∨ c = '#') : Nat.digitChar d ≠ c := by
  rcases hc with rfl | rfl | rfl | rfl | rfl <;> interval_cases d <;> decide

theorem hex_marker_second (a b : Char) (r : List Char)
    (hb : (b == 'x') = false ∧ (b == 'X') = false) : hex_marker (a :: b :: r) = false := by
  cases r <;> simp [hex_marker, hb.1, hb.2]

theorem hex_marker_first (a : Char) (r : List Char) (ha : (a == '0') = false) :
    hex_marker (a :: r) = false := by
  cases r with
  | nil => simp [hex_marker]
  | cons b r2 => cases r2 <;> simp [hex_marker, ha]

theorem strtol_unfold (s : List Char) (hsp : skip_spaces s = s)
    (hm : (deref s == '-') = false) (hp : (deref s == '+') = false)
    (hhex : hex_marker s = false) :
    strtol s 0 =
      if (scan_digits (if deref s == '0' then 8 else 10) 0 s).2.length = s.length then (0, s)
      else (max LONG_MIN (min LONG_MAX
              ((scan_digits (if deref s == '0' then 8 else 10) 0 s).1 : Int)),
            (scan_digits (if deref s == '0' then 8 else 10) 0 s).2) := by
  simp [strtol, hsp, hm, hp, hhex]

theorem strtol_decimal (n : Nat) (c : Char) (r : List Char) (hc : c = '-' ∨ c = ']')
    (hn : n < 2147483648) :
    strtol (Nat.toDigits 10 n ++ c :: r) 0 = ((n : Int), c :: r) := by
  have hdv : digit_value c = none := by rcases hc with rfl | rfl <;> decide
  have hcx : (c == 'x') = false ∧ (c == 'X') = false := by
    rcases hc with rfl | rfl <;> decide
  obtain ⟨d, t, hd, hlt, hne, hnil⟩ := toDigits_head n
  have hsp : skip_spaces (Nat.toDigits 10 n ++ c :: r) = Nat.toDigits 10 n ++ c :: r := by
    rw [hd]; exact skip_spaces_nonspace _ _ (isspace_digitChar d hlt)
  have hderef : deref (Nat.toDigits 10 n ++ c :: r) = Nat.digitChar d := by
    rw [hd]; rfl
  have hm : (deref (Nat.toDigits 10 n ++ c :: r) == '-') = false := by
    rw [hderef]; simpa using digitChar_ne d hlt '-' (Or.inl rfl)
  have hp : (deref (Nat.toDigits 10 n ++ c :: r) == '+') = false := by
    rw [hderef]; simpa using digitChar_ne d hlt '+' (Or.inr (Or.inl rfl))
  have hpos : 0 < (Nat.toDigits 10 n).length := List.length_pos.mpr (toDigits_ne_nil n)
  have hlen : ¬ (c :: r).length = (Nat.toDigits 10 n ++ c :: r).length := by
    rw [List.length_append]; omega
  by_cases h0 : n = 0
  · subst h0
    have ht : Nat.toDigits 10 0 = ['0'] := by decide
    have hhex : hex_marker (Nat.toDigits 10 0 ++ c :: r) = false := by
      rw [ht]; exact hex_marker_second _ _ _ hcx
    rw [strtol_unfold _ hsp hm hp hhex]
    have hz : (deref (Nat.toDigits 10 0 ++ c :: r) == '0') = true := by rw [ht]; rfl
    have hscan : scan_digits 8 0 (Nat.toDigits 10 0 ++ c :: r) = (0, c :: r) := by
      rw [ht]
      have h00 : digit_value '0' = some 0 := by decide
      simp [scan_digits, h00, hdv]
    simp only [hz, if_true, hscan]
    rw [if_neg hlen]
    simp [LONG_MIN, LONG_MAX]
  · have hz : (deref (Nat.toDigits 10 n ++ c :: r) == '0') = false := by
      rw [hderef]; simpa using digitChar_ne_zero d hlt (hne h0)
    have hhex : hex_marker (Nat.toDigits 10 n ++ c :: r) = false := by
      rw [hd]
      exact hex_marker_first _ _ (by rw [hderef] at hz; exact hz)
    have hscan : scan_digits 10 0 (Nat.toDigits 10 n ++ c :: r) = (n, c :: r) := by
      rw [scan_digits_toDigits, scan_digits_stop _ _ _ _ hdv]; simp
    rw [strtol_unfold _ hsp hm hp hhex]
    simp only [hz, Bool.false_eq_true, if_false, hscan]
    rw [if_neg hlen]
    simp only [LONG_MIN, LONG_MAX]
    congr 1
    omega

/-! ## Range expansion -/

theorem strchr_none (s : List Char) (c : Char) (h : ∀ ch ∈ s, ch ≠ c) : strchr s c = none := by
  induction s with
  | nil => rfl
  | cons a as ih =>
    have ha : a ≠ c := h a (List.mem_cons_self _ _)
    simp [strchr, ha, ih (fun ch hch => h ch (List.mem_cons_of_mem _ hch))]

theorem strchr_append (a b : List Char) (c : Char) (h : ∀ ch ∈ a, ch ≠ c) :
    strchr (a ++ c :: b) c = some (c :: b) := by
  induction a with
  | nil => simp [strchr]
  | cons a0 as ih =>
    have ha : a0 ≠ c := h a0 (List.mem_cons_self _ _)
    simp [strchr, ha, ih (fun ch hch => h ch (List.mem_cons_of_mem _ hch))]

theorem skip_nonspaces_append (a b : List Char) (h : ∀ ch ∈ a, isspace ch = false) :
    skip_nonspaces (a ++ b) = skip_nonspaces b := by
  induction a with
  | nil => rfl
  | cons a0 as ih =>
    have ha : isspace a0 = false := h a0 (List.mem_cons_self _ _)
    simp [skip_nonspaces, ha, ih (fun ch hch => h ch (List.mem_cons_of_mem _ hch))]

theorem skip_nonspaces_all (a : List Char) (h : ∀ ch ∈ a, isspace ch = false) :
    skip_nonspaces a = [] := by
  have := skip_nonspaces_append a [] h
  simpa [skip_nonspaces] using this

theorem strip_trailing_end (a : List Char) (c : Char) (h : isspace c = false) :
    strip_trailing (a ++ [c]) = a ++ [c] := by
  simp [strip_trailing, List.dropWhile, h]

theorem strip_trailing_token (a t : List Char) (ht : t ≠ [])
    (h : ∀ ch ∈ t, isspace ch = false) : strip_trailing (a ++ t) = a ++ t := by
  rcases List.eq_nil_or_concat t with h0 | ⟨t1, c, rfl⟩
  · exact absurd h0 ht
  · have hc : isspace c = false := h c (by simp)
    have := strip_trailing_end (a ++ t1) c hc
    simpa [List.append_assoc] using this

theorem find_numeric_range_decimal (pre suf : List Char) (low high : Nat)
    (hpre : ∀ ch ∈ pre, ch ≠ '[') (hl : low < 2147483648) (hh : high < 2147483648) :
    find_numeric_range
        (pre ++ '[' :: (Nat.toDigits 10 low ++ '-' :: (Nat.toDigits 10 high ++ ']' :: suf)))
      = some ('[' :: (Nat.toDigits 10 low ++ '-' :: (Nat.toDigits 10 high ++ ']' :: suf)),
              suf, (low : Int), (high : Int)) := by
  obtain ⟨d1, t1, hd1, hlt1, _, _⟩ := toDigits_head low
  obtain ⟨d2, t2, hd2, hlt2, _, _⟩ := toDigits_head high
  have e1 : isdigit (deref (Nat.toDigits 10 low ++ '-' :: (Nat.toDigits 10 high ++ ']' :: suf)))
      = true := by
    rw [hd1]; exact isdigit_digitChar d1 hlt1
  have e2 : isdigit (deref (Nat.toDigits 10 high ++ ']' :: suf)) = true := by
    rw [hd2]; exact isdigit_digitChar d2 hlt2
  have e1b : isdigit ((Nat.toDigits 10 low ++ '-' :: (Nat.toDigits 10 high ++ ']' :: suf)).headD
      (Char.ofNat 0)) = true := e1
  have e2b : isdigit ((Nat.toDigits 10 high ++ ']' :: suf).headD (Char.ofNat 0)) = true := e2
  unfold find_numeric_range
  rw [strchr_append pre _ '[' hpre]
  simp only [List.tail_cons, e1b, e2b, Bool.not_true, Bool.false_eq_true, if_false,
    strtol_decimal low '-' _ (Or.inl rfl) hl, deref, List.headD_cons, bne_self_eq_false,
    strtol_decimal high ']' _ (Or.inr rfl) hh]
  rw [to_int_small _ (by omega) (by omega), to_int_small _ (by omega) (by omega)]

theorem fmt_d_nat (n : Nat) : fmt_d (n : Int) = Nat.toDigits 10 n := by
  simp [fmt_d]

theorem ws_range_loop_ok (x : Env) (name range_end : List Char) (ci last : Int) (n i : Nat)
    (c : config) (hlast : last < INT_MAX) (hn : (last + 1 - (i : Int)).toNat = n) :
    ws_range_loop x name range_end ci last n i c
      = some { c with machines := c.machines ++ (List.range n).map (fun k =>
          { name := name ++ Nat.toDigits 10 (i + k) ++ range_end, cluster := ci,
            busy := x.UNKNOWN_BUSYSTATE, arch := x.UNKNOWN_ARCH, laststatus := 0,
            lastpoll := 0, numpolls := 0 }) } := by
  induction n generalizing i c with
  | zero =>
    have h : ¬ ((i : Int) ≤ last) := by omega
    simp [ws_range_loop, h]
  | succ n ih =>
    have h1 : (i : Int) ≤ last := by omega
    have h2 : ¬ ((i : Int) = INT_MAX) := by omega
    simp only [ws_range_loop, h1, if_true, h2, if_false]
    have h3 : ((i : Int) + 1) = ((i + 1 : Nat) : Int) := by push_cast; rfl
    rw [h3, ih (i + 1) _ (by push_cast; omega)]
    simp only [add_machine, fmt_d_nat, List.range_succ_eq_map, List.map_cons, List.map_map,
      List.append_assoc, List.singleton_append, Nat.add_zero]
    congr 3
    refine congrArg _ ?_
    apply List.map_congr_left
    intro k _
    simp only [Function.comp, Nat.succ_eq_add_one]
    have e : i + 1 + k = i + (k + 1) := by omega
    rw [e]

theorem isspace_of_digit (ch : Char) (h : isdigit ch = true) : isspace ch = false := by
  simp only [isdigit, Bool.and_eq_true, decide_eq_true_eq] at h
  simp only [isspace, Bool.or_eq_false_iff, beq_eq_false_iff_ne, Bool.and_eq_false_iff,
    decide_eq_false_iff_not]
  omega

theorem ne_hash_of_digit (ch : Char) (h : isdigit ch = true) : ch ≠ '#' := by
  intro he
  subst he
  exact absurd h (by decide)

theorem range_token_clean (pre suf : List Char) (low high : Nat)
    (hpre : ∀ ch ∈ pre, ch ≠ '#' ∧ isspace ch = false)
    (hsuf : ∀ ch ∈ suf, ch ≠ '#' ∧ isspace ch = false) :
    ∀ ch ∈ pre ++ '[' :: (Nat.toDigits 10 low ++ '-' :: (Nat.toDigits 10 high ++ ']' :: suf)),
      ch ≠ '#' ∧ isspace ch = false := by
  intro ch hch
  simp only [List.mem_append, List.mem_cons] at hch
  rcases hch with h | rfl | h | rfl | h | rfl | h
  · exact hpre ch h
  · decide
  · exact ⟨ne_hash_of_digit ch (toDigits_all_digits low ch h),
      isspace_of_digit ch (toDigits_all_digits low ch h)⟩
  · decide
  · exact ⟨ne_hash_of_digit ch (toDigits_all_digits high ch h),
      isspace_of_digit ch (toDigits_all_digits high ch h)⟩
  · decide
  · exact hsuf ch h

theorem body_line_ws (x : Env) (c : config) (ci : Int) (tok : List Char) (htok : tok ≠ [])
    (hclean : ∀ ch ∈ tok, ch ≠ '#' ∧ isspace ch = false) :
    body_line x c ci ('w' :: 's' :: ' ' :: tok) = ws_line x c ci ('w' :: 's' :: ' ' :: tok) := by
  have hhash : strchr ('w' :: 's' :: ' ' :: tok) '#' = none := by
    apply strchr_none
    intro ch hch
    simp only [List.mem_cons] at hch
    rcases hch with rfl | rfl | rfl | h
    · decide
    · decide
    · decide
    · exact (hclean ch h).1
  have hchop : chop_trailing ('w' :: 's' :: ' ' :: tok) = 'w' :: 's' :: ' ' :: tok := by
    have := strip_trailing_token ['s', ' '] tok htok (fun ch h => (hclean ch h).2)
    simp only [chop_trailing]
    rw [show 's' :: ' ' :: tok = ['s', ' '] ++ tok from rfl, this]
  have hsk : skip_spaces ('w' :: 's' :: ' ' :: tok) = 'w' :: 's' :: ' ' :: tok :=
    skip_spaces_nonspace _ _ (by decide)
  unfold body_line
  simp only [hhash, hsk, hchop]
  have hd : (deref ('w' :: 's' :: ' ' :: tok) == NUL) = false := by rfl
  have hc4 : isspace (char_at ('w' :: 's' :: ' ' :: tok) 2) = true := by rfl
  simp [hd, hc4, strncmp_eq]

theorem ws_line_token (x : Env) (c : config) (ci : Int) (tok : List Char) (htok : tok ≠ [])
    (hclean : ∀ ch ∈ tok, isspace ch = false) (hci : ci ≠ -1) :
    ws_line x c ci ('w' :: 's' :: ' ' :: tok) =
      match find_numeric_range tok with
      | some (range_start, range_end, range_first, range_last) =>
        match ws_range_loop x (tok.take (ptrdiff range_start tok)) range_end ci range_last
            (range_last + 1 - range_first).toNat range_first c with
        | some c => LineResult.next c ci
        | none => LineResult.undefined
      | none => LineResult.next (add_machine x c tok ci) ci := by
  obtain ⟨t0, t1, rfl⟩ := List.exists_cons_of_ne_nil htok
  have h0 : isspace t0 = false := hclean t0 (List.mem_cons_self _ _)
  have hs : isspace ' ' = true := by decide
  have hsk : skip_spaces (List.drop 2 ('w' :: 's' :: ' ' :: t0 :: t1)) = t0 :: t1 := by
    show skip_spaces (' ' :: t0 :: t1) = t0 :: t1
    simp only [skip_spaces, hs, h0, if_true]
    simp
  have hns : skip_nonspaces (t0 :: t1) = [] := skip_nonspaces_all _ hclean
  have hne : ¬ ((ci == -1) = true) := by simpa using hci
  unfold ws_line
  rw [if_neg hne]
  simp only [hsk, hns, ptrdiff, List.length_nil, Nat.sub_zero, List.take_length]

/-- C8, as stated, fails in two ways.  With `high = 2147483647` the counter of
the range loop overflows after the first machine, so the line `ws
a[2147483647-2147483647]` does not end with exactly one machine appended;
and a `#` in the suffix starts a comment, so the line `ws a[1-2]#x` yields
the machines `a1` and `a2`, not `a1#x` and `a2#x`. -/
theorem ws_range_overflow_and_comment :
    body_line (sample_env none) empty_config 0 "ws a[2147483647-2147483647]".toList
        = LineResult.undefined ∧
      body_line (sample_env none) empty_config 0 "ws a[1-2]#x".toList
        = LineResult.next
            { empty_config with machines :=
                [{ name := "a1".toList, cluster := 0, busy := 2, arch := -1, laststatus := 0,
                   lastpoll := 0, numpolls := 0 },
                 { name := "a2".toList, cluster := 0, busy := 2, arch := -1, laststatus := 0,
                   lastpoll := 0, numpolls := 0 }] } 0 := by
  decide

/-- C8, amended: for a prefix without `[`, `#` and white space, a suffix
without `#` and white space, and naturals `low ≤ high < 2147483647` written
in decimal without leading zeros, the line `ws prefix[low-high]suffix` under
a current cluster `ci` appends exactly `high - low + 1` machines, in
ascending order of `i` from `low` to `high`, named
`prefix ++ decimal(i) ++ suffix`, each with cluster `ci` and the default
runtime state, changes nothing else, and parsing goes on with the same
current cluster. -/
theorem ws_range_expansion (x : Env) (c : config) (ci : Int) (pre suf : List Char)
    (low high : Nat) (hci : ci ≠ -1)
    (hpre : ∀ ch ∈ pre, ch ≠ '[' ∧ ch ≠ '#' ∧ isspace ch = false)
    (hsuf : ∀ ch ∈ suf, ch ≠ '#' ∧ isspace ch = false)
    (hle : low ≤ high) (hhigh : high < 2147483647) :
    body_line x c ci
        ("ws ".toList ++ pre ++ "[".toList ++ Nat.toDigits 10 low ++ "-".toList
          ++ Nat.toDigits 10 high ++ "]".toList ++ suf)
      = LineResult.next
          { c with machines := c.machines ++ (List.range (high - low + 1)).map (fun k =>
              { name := pre ++ Nat.toDigits 10 (low + k) ++ suf, cluster := ci,
                busy := x.UNKNOWN_BUSYSTATE, arch := x.UNKNOWN_ARCH, laststatus := 0,
                lastpoll := 0, numpolls := 0 }) }
          ci := by
  have hline : "ws ".toList ++ pre ++ "[".toList ++ Nat.toDigits 10 low ++ "-".toList
        ++ Nat.toDigits 10 high ++ "]".toList ++ suf
      = 'w' :: 's' :: ' ' ::
          (pre ++ '[' :: (Nat.toDigits 10 low ++ '-' :: (Nat.toDigits 10 high ++ ']' :: suf))) := by
    simp [String.toList, List.append_assoc]
  have hclean := range_token_clean pre suf low high (fun ch h => (hpre ch h).2) hsuf
  have hne : pre ++ '[' :: (Nat.toDigits 10 low ++ '-' :: (Nat.toDigits 10 high ++ ']' :: suf))
      ≠ [] := by simp
  rw [hline, body_line_ws x c ci _ hne hclean,
    ws_line_token x c ci _ hne (fun ch h => (hclean ch h).2) hci,
    find_numeric_range_decimal pre suf low high (fun ch h => (hpre ch h).1) (by omega)
      (by omega)]
  have hfuel : ((high : Int) + 1 - (low : Int)).toNat = high - low + 1 := by omega
  have htake : List.take (ptrdiff
        ('[' :: (Nat.toDigits 10 low ++ '-' :: (Nat.toDigits 10 high ++ ']' :: suf)))
        (pre ++ '[' :: (Nat.toDigits 10 low ++ '-' :: (Nat.toDigits 10 high ++ ']' :: suf))))
      (pre ++ '[' :: (Nat.toDigits 10 low ++ '-' :: (Nat.toDigits 10 high ++ ']' :: suf)))
      = pre := by
    simp [ptrdiff]
  simp only [hfuel, htake]
  rw [ws_range_loop_ok x pre suf ci high (high - low + 1) low c (by simp [INT_MAX]; omega)
    (by omega)]

theorem ws_range_expansion_witness :
    body_line (sample_env none) sample_parsed 1
        ("ws ".toList ++ "host".toList ++ "[".toList ++ Nat.toDigits 10 1 ++ "-".toList
          ++ Nat.toDigits 10 3 ++ "]".toList ++ [])
      = LineResult.next
          { sample_parsed with machines := sample_parsed.machines ++
              (List.range (3 - 1 + 1)).map (fun k =>
                { name := "host".toList ++ Nat.toDigits 10 (1 + k) ++ [],
                  cluster := 1, busy := (sample_env none).UNKNOWN_BUSYSTATE,
                  arch := (sample_env none).UNKNOWN_ARCH, laststatus := 0,
                  lastpoll := 0, numpolls := 0 }) }
          1 :=
  ws_range_expansion (sample_env none) sample_parsed 1 "host".toList [] 1 3
    (by decide) (by decide) (by decide) (by decide) (by decide)

theorem range_token_nonspace (pre suf : List Char) (low high : Nat)
    (hpre : ∀ ch ∈ pre, isspace ch = false) (hsuf : ∀ ch ∈ suf, isspace ch = false) :
    ∀ ch ∈ pre ++ '[' :: (Nat.toDigits 10 low ++ '-' :: (Nat.toDigits 10 high ++ ']' :: suf)),
      isspace ch = false := by
  intro ch hch
  simp only [List.mem_append, List.mem_cons] at hch
  rcases hch with h | rfl | h | rfl | h | rfl | h
  · exact hpre ch h
  · decide
  · exact isspace_of_digit ch (toDigits_all_digits low ch h)
  · decide
  · exact isspace_of_digit ch (toDigits_all_digits high ch h)
  · decide
  · exact hsuf ch h

/-- C9, as stated, fails.  Only the first `[` of a token is examined, so for
`a[[1-2]` no range is reported; the bounds are stored in `int`s, so for
`m[4294967297-4294967298]` the bounds stored are 1 and 2; and the bounds are
read with base 0, so for `m[010-012]` the bounds stored are 8 and 10 and for
`m[01-09]` no range is reported. -/
theorem find_numeric_range_not_decimal :
    find_numeric_range "a[[1-2]".toList = none ∧
      find_numeric_range "m[4294967297-4294967298]".toList
        = some ("[4294967297-4294967298]".toList, [], 1, 2) ∧
      find_numeric_range "m[010-012]".toList = some ("[010-012]".toList, [], 8, 10) ∧
      find_numeric_range "m[01-09]".toList = none :=
  ⟨by decide, by decide, by decide, by decide⟩

/-- C9, amended: for a token `prefix[D1-D2]suffix` whose prefix has no `[` and
whose `D1` and `D2` are the decimal numerals, without leading zeros, of
naturals `low` and `high` below `2^31`, `find_numeric_range` reports a range
with `start` at the `[`, `end` after the `]`, `first = low` and
`last = high`; and if moreover the token has no white space, a cluster is
current and `high < 2147483647`, the `ws` branch appends the machines
`prefix ++ decimal(i) ++ suffix` for `i` from `low` to `high` in order (none
when `low > high`). -/
theorem find_numeric_range_decimal_bounds (x : Env) (c : config) (ci : Int)
    (pre suf : List Char) (low high : Nat)
    (hpre : ∀ ch ∈ pre, ch ≠ '[') (hl : low < 2147483648) (hh : high < 2147483648) :
    find_numeric_range
        (pre ++ "[".toList ++ Nat.toDigits 10 low ++ "-".toList ++ Nat.toDigits 10 high
          ++ "]".toList ++ suf)
      = some ("[".toList ++ Nat.toDigits 10 low ++ "-".toList ++ Nat.toDigits 10 high
                ++ "]".toList ++ suf, suf, (low : Int), (high : Int)) ∧
    (ci ≠ -1 → (∀ ch ∈ pre, isspace ch = false) → (∀ ch ∈ suf, isspace ch = false) →
      high < 2147483647 →
      ws_line x c ci
          ("ws ".toList ++ pre ++ "[".toList ++ Nat.toDigits 10 low ++ "-".toList
            ++ Nat.toDigits 10 high ++ "]".toList ++ suf)
        = LineResult.next
            { c with machines := c.machines ++ (List.range (high + 1 - low)).map (fun k =>
                { name := pre ++ Nat.toDigits 10 (low + k) ++ suf, cluster := ci,
                  busy := x.UNKNOWN_BUSYSTATE, arch := x.UNKNOWN_ARCH, laststatus := 0,
                  lastpoll := 0, numpolls := 0 }) }
            ci) := by
  have htok : pre ++ "[".toList ++ Nat.toDigits 10 low ++ "-".toList ++ Nat.toDigits 10 high
        ++ "]".toList ++ suf
      = pre ++ '[' :: (Nat.toDigits 10 low ++ '-' :: (Nat.toDigits 10 high ++ ']' :: suf)) := by
    simp [String.toList, List.append_assoc]
  have hstart : "[".toList ++ Nat.toDigits 10 low ++ "-".toList ++ Nat.toDigits 10 high
        ++ "]".toList ++ suf
      = '[' :: (Nat.toDigits 10 low ++ '-' :: (Nat.toDigits 10 high ++ ']' :: suf)) := by
    simp [String.toList, List.append_assoc]
  have hline : "ws ".toList ++ pre ++ "[".toList ++ Nat.toDigits 10 low ++ "-".toList
        ++ Nat.toDigits 10 high ++ "]".toList ++ suf
      = 'w' :: 's' :: ' ' ::
          (pre ++ '[' :: (Nat.toDigits 10 low ++ '-' :: (Nat.toDigits 10 high ++ ']' :: suf))) := by
    simp [String.toList, List.append_assoc]
  have hfind := find_numeric_range_decimal pre suf low high hpre hl hh
  refine ⟨by rw [htok, hstart]; exact hfind, ?_⟩
  intro hci hpsp hssp hmax
  have hne : pre ++ '[' :: (Nat.toDigits 10 low ++ '-' :: (Nat.toDigits 10 high ++ ']' :: suf))
      ≠ [] := by simp
  rw [hline, ws_line_token x c ci _ hne (range_token_nonspace pre suf low high hpsp hssp) hci,
    hfind]
  have hfuel : ((high : Int) + 1 - (low : Int)).toNat = high + 1 - low := by omega
  have htake : List.take (ptrdiff
        ('[' :: (Nat.toDigits 10 low ++ '-' :: (Nat.toDigits 10 high ++ ']' :: suf)))
        (pre ++ '[' :: (Nat.toDigits 10 low ++ '-' :: (Nat.toDigits 10 high ++ ']' :: suf))))
      (pre ++ '[' :: (Nat.toDigits 10 low ++ '-' :: (Nat.toDigits 10 high ++ ']' :: suf)))
      = pre := by
    simp [ptrdiff]
  simp only [hfuel, htake]
  rw [ws_range_loop_ok x pre suf ci high (high + 1 - low) low c (by simp [INT_MAX]; omega)
    (by omega)]

theorem find_numeric_range_decimal_bounds_witness :
    find_numeric_range
        ("host".toList ++ "[".toList ++ Nat.toDigits 10 1 ++ "-".toList ++ Nat.toDigits 10 5
          ++ "]".toList ++ ".mit.edu".toList)
      = some ("[".toList ++ Nat.toDigits 10 1 ++ "-".toList ++ Nat.toDigits 10 5
                ++ "]".toList ++ ".mit.edu".toList, ".mit.edu".toList, (1 : Int), (5 : Int)) ∧
      ws_line (sample_env none) sample_parsed 0
          ("ws ".toList ++ "host".toList ++ "[".toList ++ Nat.toDigits 10 1 ++ "-".toList
            ++ Nat.toDigits 10 5 ++ "]".toList ++ ".mit.edu".toList)
        = LineResult.next
            { sample_parsed with machines := sample_parsed.machines ++
                (List.range (5 + 1 - 1)).map (fun k =>
                  { name := "host".toList ++ Nat.toDigits 10 (1 + k) ++ ".mit.edu".toList,
                    cluster := 0, busy := (sample_env none).UNKNOWN_BUSYSTATE,
                    arch := (sample_env none).UNKNOWN_ARCH, laststatus := 0,
                    lastpoll := 0, numpolls := 0 }) }
            0 :=
  ⟨(find_numeric_range_decimal_bounds (sample_env none) sample_parsed 0 "host".toList
      ".mit.edu".toList 1 5 (by decide) (by decide) (by decide)).1,
    (find_numeric_range_decimal_bounds (sample_env none) sample_parsed 0 "host".toList
      ".mit.edu".toList 1 5 (by decide) (by decide) (by decide)).2
      (by decide) (by decide) (by decide) (by decide)⟩

/-- C10 at the failing input: the token `h[0x1-0x2]` has no bracket with
decimal digits on both sides of a hyphen, yet a range is reported, with
`first = 1` and `last = 2`, and the line `ws h[0x1-0x2]` appends the machines
`h1` and `h2` instead of one machine named `h[0x1-0x2]`. -/
theorem find_numeric_range_hex_bounds :
    find_numeric_range "h[0x1-0x2]".toList = some ("[0x1-0x2]".toList, [], 1, 2) ∧
      body_line (sample_env none) empty_config 0 "ws h[0x1-0x2]".toList
        = LineResult.next
            { empty_config with machines :=
                [{ name := "h1".toList, cluster := 0, busy := 2, arch := -1, laststatus := 0,
                   lastpoll := 0, numpolls := 0 },
                 { name := "h2".toList, cluster := 0, busy := 2, arch := -1, laststatus := 0,
                   lastpoll := 0, numpolls := 0 }] } 0 := by
  decide

/-! ## Tokens and keyword dispatch -/

theorem skip_spaces_eq (s : List Char) : skip_spaces s = s.dropWhile isspace := by
  induction s with
  | nil => rfl
  | cons c cs ih =>
    by_cases h : isspace c = true
    · simp [skip_spaces, List.dropWhile, h, ih]
    · simp [skip_spaces, List.dropWhile, h]

theorem skip_nonspaces_eq (s : List Char) :
    skip_nonspaces s = s.dropWhile (fun ch => !isspace ch) := by
  induction s with
  | nil => rfl
  | cons c cs ih =>
    by_cases h : isspace c = true
    · simp [skip_nonspaces, List.dropWhile, h]
    · simp [skip_nonspaces, List.dropWhile, h, ih]

theorem token_eq (p : List Char) :
    estrndup p (ptrdiff (skip_nonspaces p) p) = p.takeWhile (fun ch => !isspace ch) := by
  induction p with
  | nil => rfl
  | cons c cs ih =>
    by_cases h : isspace c = true
    · simp [estrndup, ptrdiff, skip_nonspaces, List.takeWhile, h]
    · have hle : (skip_nonspaces cs).length ≤ cs.length := by
        rw [skip_nonspaces_eq]
        exact (List.dropWhile_suffix _).length_le
      simp only [estrndup, ptrdiff] at ih
      have hs : skip_nonspaces (c :: cs) = skip_nonspaces cs := by simp [skip_nonspaces, h]
      have ht : List.takeWhile (fun ch => !isspace ch) (c :: cs)
          = c :: List.takeWhile (fun ch => !isspace ch) cs := by simp [List.takeWhile, h]
      simp only [estrndup, ptrdiff, hs, ht, List.length_cons]
      rw [show cs.length + 1 - (skip_nonspaces cs).length
          = (cs.length - (skip_nonspaces cs).length) + 1 by omega]
      simp [ih]

theorem first_token_eq (s : List Char) :
    estrndup (skip_spaces s) (ptrdiff (skip_nonspaces (skip_spaces s)) (skip_spaces s))
      = first_token s := by
  rw [token_eq, skip_spaces_eq]; rfl

theorem after_token_eq (s : List Char) : skip_nonspaces (skip_spaces s) = after_token s := by
  rw [skip_nonspaces_eq, skip_spaces_eq]; rfl

theorem body_line_eq (x : Env) (c : config) (ci : Int) (line : List Char) :
    body_line x c ci line =
      if blank_line line then LineResult.next c ci
      else if keyword_test "cluster" line then cluster_line c (line_text line)
      else if keyword_test "printer" line then printer_line c ci (line_text line)
      else if keyword_test "ws" line then ws_line x c ci (line_text line)
      else if keyword_test "cgroup" line then cgroup_line c ci (line_text line)
      else if keyword_test "option" line then option_line c ci (line_text line)
      else LineResult.cleanup c := by
  have h1 : body_line x c ci line =
      if deref (skip_spaces (cut_comment line)) == NUL then LineResult.next c ci
      else if strncmp_eq (line_text line) "cluster".toList 7
          && isspace (char_at (line_text line) 7) then cluster_line c (line_text line)
      else if strncmp_eq (line_text line) "printer".toList 7
          && isspace (char_at (line_text line) 7) then printer_line c ci (line_text line)
      else if strncmp_eq (line_text line) "ws".toList 2
          && isspace (char_at (line_text line) 2) then ws_line x c ci (line_text line)
      else if strncmp_eq (line_text line) "cgroup".toList 6
          && isspace (char_at (line_text line) 6) then cgroup_line c ci (line_text line)
      else if strncmp_eq (line_text line) "option".toList 6
          && isspace (char_at (line_text line) 6) then option_line c ci (line_text line)
      else LineResult.cleanup c := rfl
  rw [h1]
  cases hd : blank_line line
  · have hd2 : (deref (skip_spaces (cut_comment line)) == NUL) = false := hd
    simp only [keyword_test, hd, hd2, Bool.false_eq_true, if_false, Bool.not_false,
      Bool.true_and]
    rfl
  · have hd2 : (deref (skip_spaces (cut_comment line)) == NUL) = true := hd
    simp only [hd2, if_true]

theorem skip_spaces_head (s : List Char) (c : Char) (cs : List Char)
    (h : skip_spaces s = c :: cs) : isspace c = false := by
  induction s with
  | nil => simp [skip_spaces] at h
  | cons a as ih =>
    by_cases ha : isspace a = true
    · simp only [skip_spaces, ha, if_true] at h
      exact ih h
    · simp only [skip_spaces, ha, Bool.false_eq_true, if_false, List.cons.injEq] at h
      rw [← h.1]
      simpa using ha

theorem line_text_head (line : List Char) (h : blank_line line = false) :
    ∃ c cs, line_text line = c :: cs ∧ isspace c = false := by
  unfold blank_line at h
  unfold line_text
  cases hp : skip_spaces (cut_comment line) with
  | nil => rw [hp] at h; simp [deref, NUL] at h
  | cons c cs => exact ⟨c, strip_trailing cs, rfl, skip_spaces_head _ c cs hp⟩

theorem isspace_deref (r : List Char) (h : isspace (deref r) = true) :
    ∃ s t, r = s :: t ∧ isspace s = true := by
  cases r with
  | nil => exact absurd h (by decide)
  | cons s t => exact ⟨s, t, rfl, h⟩

theorem keyword_shape (kw p : List Char) (c : Char) (cs : List Char) (hp : p = c :: cs)
    (hc : isspace c = false) (hkw : ∀ ch ∈ kw, isspace ch = false) :
    (strncmp_eq p kw kw.length && isspace (char_at p kw.length)) = true
      ↔ first_token p = kw ∧ p ≠ kw := by
  have hdw : p.dropWhile isspace = p := by
    rw [hp]; simp [List.dropWhile, hc]
  have hkw2 : ∀ ch ∈ kw, (fun ch => !isspace ch) ch = true := by
    intro ch hch; simp [hkw ch hch]
  constructor
  · intro h
    simp only [Bool.and_eq_true, strncmp_eq, List.take_length, beq_iff_eq, char_at] at h
    obtain ⟨h1, h2⟩ := h
    obtain ⟨s, t, hr, hs⟩ := isspace_deref _ h2
    have hsplit : p = kw ++ s :: t := by
      rw [← List.take_append_drop kw.length p, h1, hr]
    refine ⟨?_, ?_⟩
    · unfold first_token
      rw [hdw, hsplit, List.takeWhile_append_of_pos hkw2]
      simp [List.takeWhile, hs]
    · intro he
      have := congrArg List.length hsplit
      rw [he] at this
      simp at this
  · rintro ⟨h1, h2⟩
    unfold first_token at h1
    rw [hdw] at h1
    have hsplit : p = kw ++ p.dropWhile (fun ch => !isspace ch) := by
      conv_lhs => rw [← List.takeWhile_append_dropWhile (fun ch => !isspace ch) p]
      rw [h1]
    have hne : p.dropWhile (fun ch => !isspace ch) ≠ [] := by
      intro he
      rw [he, List.append_nil] at hsplit
      exact h2 hsplit
    have hhead := List.head_dropWhile_not (fun ch => !isspace ch) p hne
    obtain ⟨s, t, hst⟩ := List.exists_cons_of_ne_nil hne
    have hs : isspace s = true := by
      simp only [hst, List.head_cons] at hhead
      simpa using hhead
    rw [hst] at hsplit
    simp only [Bool.and_eq_true, strncmp_eq, List.take_length, beq_iff_eq, char_at]
    constructor
    · rw [hsplit]; simp
    · rw [hsplit]; simp [deref, hs]

theorem keyword_test_iff (kw : String) (line : List Char)
    (hkw : ∀ ch ∈ kw.toList, isspace ch = false) :
    keyword_test kw line = true
      ↔ blank_line line = false ∧ first_token (line_text line) = kw.toList
          ∧ line_text line ≠ kw.toList := by
  unfold keyword_test
  cases hb : blank_line line
  · obtain ⟨c, cs, hp, hc⟩ := line_text_head line hb
    have := keyword_shape kw.toList (line_text line) c cs hp hc hkw
    have e : kw.length = kw.toList.length := rfl
    simp only [Bool.not_false, Bool.true_and, true_and, e]
    exact this
  · simp

/-! ## Fatal lines -/

theorem body_loop_append (x : Env) (c : config) (ci : Int) (l1 l2 : List (List Char)) :
    body_loop x c ci (l1 ++ l2) =
      match body_loop x c ci l1 with
      | LineResult.next c1 i1 => body_loop x c1 i1 l2
      | r => r := by
  induction l1 generalizing c ci with
  | nil => simp [body_loop]
  | cons l ls ih =>
    simp only [List.cons_append, body_loop]
    cases hl : body_line x c ci l with
    | next c1 i1 => exact ih c1 i1
    | cleanup c1 => rfl
    | undefined => rfl

theorem body_loop_fatal (x : Env) (c c1 c2 : config) (ci i1 : Int)
    (pre post : List (List Char)) (line : List Char)
    (hpre : body_loop x c ci pre = LineResult.next c1 i1)
    (hline : body_line x c1 i1 line = LineResult.cleanup c2) :
    body_loop x c ci (pre ++ line :: post) = LineResult.cleanup c2 := by
  rw [body_loop_append, hpre]
  simp only [body_loop, hline]

theorem read_config_fatal (x : Env) (f : List Char) (fp : LineSource) (c0 c2 : config)
    (body : List (List Char)) (hopen : x.fopen f = some fp)
    (harch : read_arches empty_config fp.lines = (c0, some body))
    (hbody : body_loop x c0 (-1) body = LineResult.cleanup c2) :
    read_config x f = ParseResult.failure (freeconfig c2) := by
  unfold read_config
  simp only [hopen, harch, Option.isNone_some, Bool.false_and, Bool.false_eq_true, if_false,
    Option.getD_some, hbody]

theorem ws_line_index (x : Env) (c c1 : config) (ci i1 : Int) (p : List Char)
    (h : ws_line x c ci p = LineResult.next c1 i1) : i1 = ci := by
  unfold ws_line at h
  split at h
  · simp at h
  · simp only at h
    split at h
    · split at h
      · simp only [LineResult.next.injEq] at h; exact h.2.symm
      · simp at h
    · simp only [LineResult.next.injEq] at h; exact h.2.symm

theorem cgroup_members_index (ci : Int) (n : Nat) (c c1 : config) (i1 : Int) (q : List Char)
    (h : cgroup_members ci n c q = LineResult.next c1 i1) : i1 = ci := by
  induction n generalizing c q with
  | zero => simp only [cgroup_members, LineResult.next.injEq] at h; exact h.2.symm
  | succ n ih =>
    simp only [cgroup_members] at h
    split at h
    · simp only [LineResult.next.injEq] at h; exact h.2.symm
    · split at h
      · simp at h
      · split at h
        · simp at h
        · exact ih _ _ h

theorem body_line_index (x : Env) (c c1 : config) (ci i1 : Int) (line : List Char)
    (h : body_line x c ci line = LineResult.next c1 i1)
    (hk : keyword_test "cluster" line = false) : i1 = ci := by
  rw [body_line_eq] at h
  simp only [hk, Bool.false_eq_true, if_false] at h
  split at h
  · simp only [LineResult.next.injEq] at h; exact h.2.symm
  · split at h
    · unfold printer_line at h
      split at h
      · simp at h
      · simp only [LineResult.next.injEq] at h; exact h.2.symm
    · split at h
      · exact ws_line_index x c c1 ci i1 _ h
      · split at h
        · unfold cgroup_line at h
          exact cgroup_members_index _ _ _ _ _ _ h
        · split at h
          · unfold option_line at h
            simp only at h
            split at h
            · simp only [LineResult.next.injEq] at h; exact h.2.symm
            · split at h
              · simp only [LineResult.next.injEq] at h; exact h.2.symm
              · simp at h
          · simp at h

theorem body_loop_index (x : Env) (c c1 : config) (ci i1 : Int) (pre : List (List Char))
    (hk : ∀ l ∈ pre, keyword_test "cluster" l = false)
    (h : body_loop x c ci pre = LineResult.next c1 i1) : i1 = ci := by
  induction pre generalizing c ci with
  | nil => simp only [body_loop, LineResult.next.injEq] at h; exact h.2.symm
  | cons l ls ih =>
    simp only [body_loop] at h
    cases hl : body_line x c ci l with
    | next c2 i2 =>
      rw [hl] at h
      have e := body_line_index x c c2 ci i2 l hl (hk l (List.mem_cons_self _ _))
      rw [ih c2 i2 (fun l2 h2 => hk l2 (List.mem_cons_of_mem _ h2)) h, e]
    | cleanup c2 => rw [hl] at h; simp at h
    | undefined => rw [hl] at h; simp at h

theorem first_token_nonblank (line : List Char) (ch : Char) (t : List Char)
    (h : first_token (line_text line) = ch :: t) (hch : ch ≠ NUL) : blank_line line = false := by
  unfold blank_line
  unfold line_text at h
  cases hp : skip_spaces (cut_comment line) with
  | nil => rw [hp] at h; simp [chop_trailing, first_token] at h
  | cons c cs =>
    have hc := skip_spaces_head _ c cs hp
    rw [hp] at h
    simp only [chop_trailing, first_token, List.dropWhile, hc, List.takeWhile, Bool.not_false,
      List.cons.injEq] at h
    simp only [deref, List.headD_cons, h.1]
    simpa using hch

theorem keyword_test_of_token (kw kw2 : String) (line : List Char)
    (hkw2 : ∀ ch ∈ kw2.toList, isspace ch = false)
    (h : first_token (line_text line) = kw.toList) (hne : kw.toList ≠ kw2.toList) :
    keyword_test kw2 line = false := by
  cases ht : keyword_test kw2 line with
  | false => rfl
  | true =>
    have := ((keyword_test_iff kw2 line hkw2).mp ht).2.1
    rw [h] at this
    exact absurd this hne

theorem member_before_cluster (x : Env) (c : config) (line : List Char)
    (h : first_token (line_text line) = "printer".toList
      ∨ first_token (line_text line) = "ws".toList) :
    body_line x c (-1) line = LineResult.cleanup c := by
  rw [body_line_eq]
  rcases h with h | h
  · have hb := first_token_nonblank line 'p' "rinter".toList h (by decide)
    have h1 := keyword_test_of_token "printer" "cluster" line (by decide) h (by decide)
    have h3 := keyword_test_of_token "printer" "ws" line (by decide) h (by decide)
    have h4 := keyword_test_of_token "printer" "cgroup" line (by decide) h (by decide)
    have h5 := keyword_test_of_token "printer" "option" line (by decide) h (by decide)
    simp only [hb, h1, h3, h4, h5, Bool.false_eq_true, if_false]
    split
    · simp [printer_line]
    · rfl
  · have hb := first_token_nonblank line 'w' "s".toList h (by decide)
    have h1 := keyword_test_of_token "ws" "cluster" line (by decide) h (by decide)
    have h2 := keyword_test_of_token "ws" "printer" line (by decide) h (by decide)
    have h4 := keyword_test_of_token "ws" "cgroup" line (by decide) h (by decide)
    have h5 := keyword_test_of_token "ws" "option" line (by decide) h (by decide)
    simp only [hb, h1, h2, h4, h5, Bool.false_eq_true, if_false]
    split
    · simp [ws_line]
    · rfl

/-- C11: if the body of the configuration file has a line whose first token
is `printer` or `ws`, no line before it has `cluster` as its first token, and
the lines before it are processed without a fatal condition, then
`read_config` returns -1, whatever follows that line; no configuration is
produced (the candidate has been released). -/
theorem members_need_cluster (x : Env) (f : List Char) (fp : LineSource) (c0 : config)
    (pre post : List (List Char)) (line : List Char)
    (hopen : x.fopen f = some fp)
    (harch : read_arches empty_config fp.lines = (c0, some (pre ++ line :: post)))
    (hpre : ∀ l ∈ pre, first_token (line_text l) ≠ "cluster".toList)
    (hok : ∃ c1 i1, body_loop x c0 (-1) pre = LineResult.next c1 i1)
    (hline : first_token (line_text line) = "printer".toList
      ∨ first_token (line_text line) = "ws".toList) :
    ∃ released, read_config x f = ParseResult.failure released := by
  obtain ⟨c1, i1, hc1⟩ := hok
  have hk : ∀ l ∈ pre, keyword_test "cluster" l = false := by
    intro l hl
    cases ht : keyword_test "cluster" l with
    | false => rfl
    | true =>
      exact absurd ((keyword_test_iff "cluster" l (by decide)).mp ht).2.1 (hpre l hl)
  have hi : i1 = -1 := body_loop_index x c0 c1 (-1) i1 pre hk hc1
  subst hi
  exact ⟨freeconfig c1, read_config_fatal x f fp c0 c1 _ hopen harch
    (body_loop_fatal x c0 c1 c1 (-1) (-1) pre post line hc1
      (member_before_cluster x c1 line hline))⟩

theorem members_need_cluster_witness :
    ∃ released, read_config (sample_env (some sample_orphan)) "larvnetd.conf".toList
      = ParseResult.failure released :=
  members_need_cluster (sample_env (some sample_orphan)) "larvnetd.conf".toList sample_orphan
    { empty_config with arches := [{ netname := "sun4".toList, reportname := "Sun".toList }] }
    ["option report-other misc".toList] ["cluster m1 x3-0000".toList] "printer lp".toList
    rfl (by decide) (by decide)
    ⟨{ empty_config with
        arches := [{ netname := "sun4".toList, reportname := "Sun".toList }],
        report_other := some "misc".toList }, -1, by decide⟩
    (Or.inl (by decide))

theorem keyword_test_of_shape (kw : String) (line : List Char)
    (hkw : ∀ ch ∈ kw.toList, isspace ch = false) (hb : blank_line line = false)
    (h : first_token (line_text line) = kw.toList ∧ line_text line ≠ kw.toList) :
    keyword_test kw line = true :=
  (keyword_test_iff kw line hkw).mpr ⟨hb, h.1, h.2⟩

theorem keyword_test_false_iff (kw : String) (line : List Char)
    (hkw : ∀ ch ∈ kw.toList, isspace ch = false) (hb : blank_line line = false) :
    keyword_test kw line = false
      ↔ first_token (line_text line) ≠ kw.toList ∨ line_text line = kw.toList := by
  rw [← Bool.not_eq_true, keyword_test_iff kw line hkw]
  simp only [hb, true_and, not_and_or, not_not]

/-- C17, as stated, fails: the first token of the line `cluster` is the
keyword `cluster`, and the first token of the line `ws` is the keyword `ws`,
yet both lines end in the final `else` (unrecognized line) and are not
handled by the keyword's production. -/
theorem bare_keyword_unrecognized :
    first_token (line_text "cluster".toList) = "cluster".toList ∧
      unrecognized "cluster".toList = true ∧
      body_line (sample_env none) sample_parsed 1 "cluster".toList
        = LineResult.cleanup sample_parsed ∧
      first_token (line_text "ws".toList) = "ws".toList ∧
      unrecognized "ws".toList = true ∧
      body_line (sample_env none) sample_parsed 1 "ws".toList
        = LineResult.cleanup sample_parsed ∧
      ws_line (sample_env none) sample_parsed 1 "ws".toList
        ≠ LineResult.cleanup sample_parsed :=
  ⟨by decide, by decide, by decide, by decide, by decide, by decide, by decide⟩

/-- C17, amended: for every body line that is non-empty after cutting at the
first `#` and trimming white space, the final `else` (unrecognized line) is
reached, and the parse aborted, if and only if for each of the five keywords
the first token of the line is not the keyword or the line consists of the
keyword alone; a line whose first token is one of the five keywords and
which has text after it is handled by that keyword's production. -/
theorem keyword_dispatch (x : Env) (c : config) (ci : Int) (line : List Char)
    (hb : blank_line line = false) :
    (unrecognized line = true ↔
      ∀ kw ∈ ["cluster", "printer", "ws", "cgroup", "option"],
        first_token (line_text line) ≠ String.toList kw ∨ line_text line = String.toList kw) ∧
    (unrecognized line = true → body_line x c ci line = LineResult.cleanup c) ∧
    (first_token (line_text line) = "cluster".toList ∧ line_text line ≠ "cluster".toList →
      body_line x c ci line = cluster_line c (line_text line)) ∧
    (first_token (line_text line) = "printer".toList ∧ line_text line ≠ "printer".toList →
      body_line x c ci line = printer_line c ci (line_text line)) ∧
    (first_token (line_text line) = "ws".toList ∧ line_text line ≠ "ws".toList →
      body_line x c ci line = ws_line x c ci (line_text line)) ∧
    (first_token (line_text line) = "cgroup".toList ∧ line_text line ≠ "cgroup".toList →
      body_line x c ci line = cgroup_line c ci (line_text line)) ∧
    (first_token (line_text line) = "option".toList ∧ line_text line ≠ "option".toList →
      body_line x c ci line = option_line c ci (line_text line)) := by
  have k1 := keyword_test_false_iff "cluster" line (by decide) hb
  have k2 := keyword_test_false_iff "printer" line (by decide) hb
  have k3 := keyword_test_false_iff "ws" line (by decide) hb
  have k4 := keyword_test_false_iff "cgroup" line (by decide) hb
  have k5 := keyword_test_false_iff "option" line (by decide) hb
  refine ⟨?_, ?_, ?_, ?_, ?_, ?_, ?_⟩
  · simp only [unrecognized, hb, Bool.not_false, Bool.true_and, Bool.and_eq_true,
      Bool.not_eq_true', k1, k2, k3, k4, k5, List.mem_cons, List.mem_singleton, forall_eq_or_imp,
      forall_eq, List.not_mem_nil, false_implies, implies_true, and_true, and_assoc]
  · intro hu
    simp only [unrecognized, hb, Bool.not_false, Bool.true_and, Bool.and_eq_true,
      Bool.not_eq_true'] at hu
    obtain ⟨⟨⟨⟨h1, h2⟩, h3⟩, h4⟩, h5⟩ := hu
    rw [body_line_eq]
    simp only [hb, h1, h2, h3, h4, h5, Bool.false_eq_true, if_false]
  · intro h
    rw [body_line_eq]
    simp only [hb, keyword_test_of_shape "cluster" line (by decide) hb h, Bool.false_eq_true,
      if_false, if_true]
  · intro h
    rw [body_line_eq]
    simp only [hb, keyword_test_of_shape "printer" line (by decide) hb h,
      keyword_test_of_token "printer" "cluster" line (by decide) h.1 (by decide),
      Bool.false_eq_true, if_false, if_true]
  · intro h
    rw [body_line_eq]
    simp only [hb, keyword_test_of_shape "ws" line (by decide) hb h,
      keyword_test_of_token "ws" "cluster" line (by decide) h.1 (by decide),
      keyword_test_of_token "ws" "printer" line (by decide) h.1 (by decide),
      Bool.false_eq_true, if_false, if_true]
  · intro h
    rw [body_line_eq]
    simp only [hb, keyword_test_of_shape "cgroup" line (by decide) hb h,
      keyword_test_of_token "cgroup" "cluster" line (by decide) h.1 (by decide),
      keyword_test_of_token "cgroup" "printer" line (by decide) h.1 (by decide),
      keyword_test_of_token "cgroup" "ws" line (by decide) h.1 (by decide),
      Bool.false_eq_true, if_false, if_true]
  · intro h
    rw [body_line_eq]
    simp only [hb, keyword_test_of_shape "option" line (by decide) hb h,
      keyword_test_of_token "option" "cluster" line (by decide) h.1 (by decide),
      keyword_test_of_token "option" "printer" line (by decide) h.1 (by decide),
      keyword_test_of_token "option" "ws" line (by decide) h.1 (by decide),
      keyword_test_of_token "option" "cgroup" line (by decide) h.1 (by decide),
      Bool.false_eq_true, if_false, if_true]

theorem keyword_dispatch_witness :
    body_line (sample_env none) sample_parsed 1 "  printer lp   # front desk".toList
      = printer_line sample_parsed 1 "printer lp".toList :=
  (keyword_dispatch (sample_env none) sample_parsed 1 "  printer lp   # front desk".toList
    (by decide)).2.2.2.1 ⟨by decide, by decide⟩

/-! ## What each production does -/

theorem keyword_split (kw : String) (line : List Char)
    (hkw : ∀ ch ∈ kw.toList, isspace ch = false) (h : keyword_test kw line = true) :
    ∃ s r, line_text line = kw.toList ++ s :: r ∧ isspace s = true ∧
      after_token (line_text line) = s :: r := by
  have hb : blank_line line = false := ((keyword_test_iff kw line hkw).mp h).1
  obtain ⟨c, cs, hp, hc⟩ := line_text_head line hb
  have e : kw.length = kw.toList.length := rfl
  simp only [keyword_test, hb, Bool.not_false, Bool.true_and, Bool.and_eq_true, strncmp_eq, e,
    List.take_length, beq_iff_eq, char_at] at h
  obtain ⟨h1, h2⟩ := h
  obtain ⟨s, t, hr, hs⟩ := isspace_deref _ h2
  have hsplit : line_text line = kw.toList ++ s :: t := by
    rw [← List.take_append_drop kw.toList.length (line_text line), h1, hr]
  refine ⟨s, t, hsplit, hs, ?_⟩
  have hdw : (line_text line).dropWhile isspace = line_text line := by
    rw [hp]; simp [List.dropWhile, hc]
  have hkw2 : ∀ ch ∈ kw.toList, (fun ch => !isspace ch) ch = true := by
    intro ch hch; simp [hkw ch hch]
  unfold after_token
  rw [hdw, hsplit, List.dropWhile_append_of_pos hkw2]
  simp [List.dropWhile, hs]

theorem first_token_space (s : Char) (r : List Char) (hs : isspace s = true) :
    first_token (s :: r) = first_token r := by
  simp [first_token, List.dropWhile, hs]

theorem after_token_space (s : Char) (r : List Char) (hs : isspace s = true) :
    after_token (s :: r) = after_token r := by
  simp [after_token, List.dropWhile, hs]

theorem skip_spaces_space (s : Char) (r : List Char) (hs : isspace s = true) :
    skip_spaces (s :: r) = skip_spaces r := by
  simp [skip_spaces, hs]

theorem first_token_eq2 (s : List Char) :
    estrndup (skip_spaces s) (ptrdiff (after_token s) (skip_spaces s)) = first_token s := by
  rw [← after_token_eq, first_token_eq]

theorem cluster_line_eq (c : config) (line : List Char)
    (h : keyword_test "cluster" line = true) :
    cluster_line c (line_text line) =
      LineResult.next
        { c with clusters := c.clusters ++
            [{ name := nth_token 1 (line_text line), phone := nth_token 2 (line_text line),
               cgroup := -1 }] }
        c.nclusters := by
  obtain ⟨s, r, hsplit, hs, hafter⟩ := keyword_split "cluster" line (by decide) h
  have hd : (line_text line).drop 8 = r := by
    rw [hsplit]; rfl
  unfold cluster_line
  simp only [hd, first_token_eq2, after_token_eq, nth_token, hafter,
    first_token_space s r hs, after_token_space s r hs]

theorem printer_line_eq (c : config) (ci : Int) (line : List Char)
    (h : keyword_test "printer" line = true) (hci : ci ≠ -1) :
    printer_line c ci (line_text line) =
      LineResult.next
        { c with printers := c.printers ++
            [{ name := nth_token 1 (line_text line), cluster := ci, up := 0, jobs := 0,
               s := -1, timer := none }] }
        ci := by
  obtain ⟨s, r, hsplit, hs, hafter⟩ := keyword_split "printer" line (by decide) h
  have hd : (line_text line).drop 7 = s :: r := by
    rw [hsplit]; rfl
  have hne : ¬ ((ci == -1) = true) := by simpa using hci
  unfold printer_line
  rw [if_neg hne]
  simp only [hd, first_token_eq2, after_token_eq, nth_token, hafter]

theorem option_line_eq (c : config) (ci : Int) (p : List Char) (c1 : config) (i1 : Int)
    (h : option_line c ci p = LineResult.next c1 i1) :
    i1 = ci ∧ c1.clusters = c.clusters ∧ c1.arches = c.arches ∧ c1.machines = c.machines ∧
      c1.printers = c.printers ∧ c1.cgroups = c.cgroups := by
  unfold option_line at h
  simp only at h
  split at h
  · simp only [LineResult.next.injEq] at h
    obtain ⟨h1, h2⟩ := h
    subst h1
    exact ⟨h2.symm, rfl, rfl, rfl, rfl, rfl⟩
  · split at h
    · simp only [LineResult.next.injEq] at h
      obtain ⟨h1, h2⟩ := h
      subst h1
      exact ⟨h2.symm, rfl, rfl, rfl, rfl, rfl⟩
    · simp at h

theorem ws_range_loop_effect (x : Env) (name range_end : List Char) (ci last : Int) (n : Nat)
    (i : Int) (c c1 : config) (hn : (last + 1 - i).toNat = n)
    (h : ws_range_loop x name range_end ci last n i c = some c1) :
    ∃ ms, c1 = { c with machines := c.machines ++ ms } ∧ ms.length = n ∧
      ∀ m ∈ ms, fresh_machine x ci m := by
  induction n generalizing i c with
  | zero =>
    have hi : ¬ (i ≤ last) := by omega
    simp only [ws_range_loop, hi, if_false, Option.some.injEq] at h
    exact ⟨[], by simp [← h], rfl, by simp⟩
  | succ n ih =>
    have hi : i ≤ last := by omega
    simp only [ws_range_loop, hi, if_true] at h
    split at h
    · simp at h
    · obtain ⟨ms, hc1, hlen, hms⟩ := ih (i + 1) _ (by omega) h
      refine ⟨{ name := name ++ fmt_d i ++ range_end, cluster := ci,
                busy := x.UNKNOWN_BUSYSTATE, arch := x.UNKNOWN_ARCH, laststatus := 0,
                lastpoll := 0, numpolls := 0 } :: ms, ?_, by simp [hlen], ?_⟩
      · rw [hc1]
        simp only [add_machine, List.append_assoc, List.singleton_append]
      · intro m hm
        rcases List.mem_cons.mp hm with rfl | hm
        · simp [fresh_machine]
        · exact hms m hm

theorem ws_line_eq (x : Env) (c : config) (ci : Int) (line : List Char) (c1 : config)
    (i1 : Int) (hk : keyword_test "ws" line = true)
    (h : ws_line x c ci (line_text line) = LineResult.next c1 i1) :
    i1 = ci ∧ ci ≠ -1 ∧ ∃ ms, c1 = { c with machines := c.machines ++ ms } ∧
      ms.length = range_count (nth_token 1 (line_text line)) ∧
      ∀ m ∈ ms, fresh_machine x ci m := by
  obtain ⟨s, r, hsplit, hs, hafter⟩ := keyword_split "ws" line (by decide) hk
  have hd : (line_text line).drop 2 = s :: r := by
    rw [hsplit]; rfl
  have htok : List.take (ptrdiff (skip_nonspaces (skip_spaces (s :: r))) (skip_spaces (s :: r)))
      (skip_spaces (s :: r)) = nth_token 1 (line_text line) := by
    have := first_token_eq (s :: r)
    simp only [estrndup] at this
    rw [this]
    simp only [nth_token, hafter]
  unfold ws_line at h
  split at h
  · simp at h
  · next hci =>
    simp only [hd, htok] at h
    have hci2 : ci ≠ -1 := by simpa using hci
    unfold range_count
    split at h
    · next rs re rf rl hf =>
      split at h
      · next c2 hc2 =>
        simp only [LineResult.next.injEq] at h
        obtain ⟨h1, h2⟩ := h
        subst h1
        obtain ⟨ms, e1, e2, e3⟩ := ws_range_loop_effect x _ re ci rl _ rf c c2 rfl hc2
        exact ⟨h2.symm, hci2, ms, e1, by rw [e2, hf], e3⟩
      · simp at h
    · next hf =>
      simp only [LineResult.next.injEq] at h
      obtain ⟨h1, h2⟩ := h
      subst h1
      refine ⟨h2.symm, hci2, [_], rfl, by rw [hf]; rfl, ?_⟩
      intro m hm
      simp only [List.mem_singleton] at hm
      subst hm
      simp [fresh_machine]

/-! ## Cluster groups -/

theorem name_test_eq (a p : List Char) (n : Nat) (hn : n ≤ p.length) :
    (a.length == n && strncmp_eq a p n) = (a == p.take n) := by
  by_cases h : a = p.take n
  · have hl : a.length = n := by rw [h, List.length_take]; omega
    have ht : a.take n = a := by rw [← hl, List.take_length]
    simp only [strncmp_eq, hl, ht, beq_self_eq_true, Bool.true_and]
  · have hne : (a == p.take n) = false := by simpa using h
    rw [hne]
    by_cases hl : a.length = n
    · have ht : a.take n = a := by rw [← hl, List.take_length]
      simp only [strncmp_eq, ht, Bool.and_eq_false_iff]
      right
      simpa using h
    · simp [hl]

theorem cgroup_of_cons (cl : cluster) (rest : List cluster) (t : List Char) :
    cgroup_of (cl :: rest) t = if cl.name = t then some cl.cgroup else cgroup_of rest t := by
  by_cases h : cl.name = t
  · simp [cgroup_of, List.find?, h]
  · have hb : (cl.name == t) = false := by simpa using h
    simp [cgroup_of, List.find?, h, hb]

theorem find_cluster_cases (p : List Char) (n : Nat) (hn : n ≤ p.length) (g : Int)
    (cls : List cluster) (i : Nat) :
    (cgroup_of cls (p.take n) = none ∧ find_cluster p n cls i = i + cls.length) ∨
    ∃ k v, cgroup_of cls (p.take n) = some v ∧ find_cluster p n cls i = i + k ∧
      k < cls.length ∧ (cls.map cluster.cgroup).getD k 0 = v ∧
      ∀ t, cgroup_of (modify_at (fun cl => { cl with cgroup := g }) cls k) t
        = if t = p.take n then some g else cgroup_of cls t := by
  induction cls generalizing i with
  | nil => left; exact ⟨rfl, rfl⟩
  | cons cl rest ih =>
    by_cases h : cl.name = p.take n
    · right
      refine ⟨0, cl.cgroup, ?_, ?_, by simp, by simp, ?_⟩
      · rw [cgroup_of_cons, if_pos h]
      · have : (cl.name.length == n && strncmp_eq cl.name p n) = true := by
          rw [name_test_eq _ _ _ hn]; simpa using h
        simp [find_cluster, this]
      · intro t
        simp only [modify_at, cgroup_of_cons]
        by_cases ht : t = p.take n
        · simp [ht, h]
        · have : ¬ cl.name = t := fun e => ht (e ▸ h)
          simp [ht, this]
    · have htest : (cl.name.length == n && strncmp_eq cl.name p n) = false := by
        rw [name_test_eq _ _ _ hn]; simpa using h
      rcases ih (i + 1) with ⟨h1, h2⟩ | ⟨k, v, h1, h2, h3, h4, h5⟩
      · left
        refine ⟨by rw [cgroup_of_cons, if_neg h]; exact h1, ?_⟩
        simp only [find_cluster, htest, Bool.false_eq_true, if_false, h2, List.length_cons]
        omega
      · right
        refine ⟨k + 1, v, by rw [cgroup_of_cons, if_neg h]; exact h1, ?_, by simp; omega, ?_, ?_⟩
        · simp only [find_cluster, htest, Bool.false_eq_true, if_false, h2]
          omega
        · simpa using h4
        · intro t
          simp only [modify_at, cgroup_of_cons, h5]
          by_cases ht : t = p.take n
          · have : ¬ cl.name = t := fun e => h (e.trans ht)
            simp [ht, this, h]
          · simp [ht]

theorem after_token_suffix (s : List Char) : after_token s <:+ s :=
  (List.dropWhile_suffix _).trans (List.dropWhile_suffix _)

theorem after_token_length (s : List Char) (h : s.dropWhile isspace ≠ []) :
    (after_token s).length < s.length := by
  obtain ⟨a, t, hat⟩ := List.exists_cons_of_ne_nil h
  have ha : isspace a = false := by
    have := List.head_dropWhile_not isspace s h
    simp only [hat, List.head_cons] at this
    simpa using this
  have h1 : (after_token s).length ≤ t.length := by
    unfold after_token
    rw [hat]
    simp only [List.dropWhile, ha, Bool.not_false]
    exact (List.dropWhile_suffix _).length_le
  have h2 : (s.dropWhile isspace).length ≤ s.length := (List.dropWhile_suffix _).length_le
  rw [hat, List.length_cons] at h2
  omega

theorem deref_nul (q : List Char) (h0 : ∀ ch ∈ q, ch ≠ NUL) :
    (deref q == NUL) = true ↔ q = [] := by
  cases q with
  | nil => simp [deref, NUL]
  | cons a t =>
    have : a ≠ NUL := h0 a (List.mem_cons_self _ _)
    simp [deref, this]

theorem cgroup_members_spec (ci : Int) (n : Nat) (c : config) (q : List Char)
    (hg : c.cgroups ≠ []) (hlen : q.length ≤ n) (h0 : ∀ ch ∈ q, ch ≠ NUL)
    (htr : ∀ s, s <:+ q → s ≠ [] → s.dropWhile isspace ≠ []) :
    (((tokens_upto n q).Nodup ∧ ∀ t ∈ tokens_upto n q, cgroup_of c.clusters t = some (-1)) ∧
      ∃ cls1, cgroup_members ci n c q = LineResult.next { c with clusters := cls1 } ci ∧
        cls1.map (fun cl => (cl.name, cl.phone)) = c.clusters.map (fun cl => (cl.name, cl.phone)) ∧
        ∀ t, cgroup_of cls1 t
          = if t ∈ tokens_upto n q then some (c.ncgroups - 1) else cgroup_of c.clusters t) ∨
    (¬ ((tokens_upto n q).Nodup ∧ ∀ t ∈ tokens_upto n q, cgroup_of c.clusters t = some (-1)) ∧
      ∃ c1, cgroup_members ci n c q = LineResult.cleanup c1) := by
  induction n generalizing c q with
  | zero =>
    left
    refine ⟨by simp [tokens_upto], c.clusters, by simp [cgroup_members], rfl, by simp [tokens_upto]⟩
  | succ n ih =>
    by_cases hq : q = []
    · subst hq
      left
      refine ⟨by simp [tokens_upto], c.clusters, ?_, rfl, by simp [tokens_upto]⟩
      simp [cgroup_members, deref, NUL]
    · have hd : ¬ ((deref q == NUL) = true) := fun h => hq ((deref_nul q h0).mp h)
      have hdw : q.dropWhile isspace ≠ [] := htr q (List.suffix_refl q) hq
      have htoks : tokens_upto (n + 1) q = first_token q :: tokens_upto n (after_token q) := by
        simp [tokens_upto, hdw]
      have hgpos : c.ncgroups - 1 ≠ -1 := by
        have : 0 < c.cgroups.length := List.length_pos.mpr hg
        simp only [config.ncgroups]; omega
      have hn : ptrdiff (skip_nonspaces (skip_spaces q)) (skip_spaces q)
          ≤ (skip_spaces q).length := by
        unfold ptrdiff; omega
      have htok : (skip_spaces q).take (ptrdiff (skip_nonspaces (skip_spaces q)) (skip_spaces q))
          = first_token q := first_token_eq q
      have hsuf := after_token_suffix q
      have hlen2 : (after_token q).length ≤ n := by
        have := after_token_length q hdw; omega
      have h02 : ∀ ch ∈ after_token q, ch ≠ NUL := fun ch hch => h0 ch (hsuf.subset hch)
      have htr2 : ∀ s, s <:+ after_token q → s ≠ [] → s.dropWhile isspace ≠ [] :=
        fun s hs => htr s (hs.trans hsuf)
      rw [htoks]
      simp only [cgroup_members, hd, if_false]
      rcases find_cluster_cases (skip_spaces q) _ hn (c.ncgroups - 1) c.clusters 0 with
        ⟨h1, h2⟩ | ⟨k, v, h1, h2, h3, h4, h5⟩
      · right
        rw [htok] at h1
        refine ⟨?_, c, ?_⟩
        · rintro ⟨_, hall⟩
          have := hall (first_token q) (List.mem_cons_self _ _)
          rw [h1] at this
          simp at this
        · simp [h2]
      · rw [htok] at h1 h5
        have hk : ¬ ((k == c.clusters.length) = true) := by
          simp only [beq_iff_eq]; omega
        simp only [h2, Nat.zero_add, hk, if_false, h4]
        by_cases hv : v = -1
        · subst hv
          simp only [bne_self_eq_false, Bool.false_eq_true, if_false, after_token_eq]
          rcases ih ⟨modify_at (fun cl => { cl with cgroup := c.ncgroups - 1 }) c.clusters k,
              c.arches, c.machines, c.printers, c.cgroups, c.report_other, c.report_unknown⟩
            (after_token q) hg hlen2 h02 htr2 with
            ⟨⟨hnd, hall⟩, cls1, e1, e2, e3⟩ | ⟨hbad, c1, e1⟩
          · left
            have hnotin : first_token q ∉ tokens_upto n (after_token q) := by
              intro hin
              have := hall _ hin
              simp only [h5, if_true, Option.some.injEq] at this
              exact hgpos this
            refine ⟨⟨List.nodup_cons.mpr ⟨hnotin, hnd⟩, ?_⟩, cls1, e1, ?_, ?_⟩
            · intro t ht
              rcases List.mem_cons.mp ht with rfl | ht
              · exact h1
              · have hne : t ≠ first_token q := fun e => hnotin (e ▸ ht)
                have := hall t ht
                simpa only [h5, if_neg hne] using this
            · rw [e2]
              exact modify_at_map _ _ _ _ (fun _ => rfl)
            · intro t
              rw [e3 t]
              show (if t ∈ tokens_upto n (after_token q) then some (c.ncgroups - 1)
                else cgroup_of (modify_at (fun cl => { cl with cgroup := c.ncgroups - 1 })
                  c.clusters k) t) = _
              rw [h5 t]
              by_cases ht : t = first_token q
              · simp [ht]
              · simp [ht]
          · right
            refine ⟨?_, c1, e1⟩
            rintro ⟨hnd, hall⟩
            apply hbad
            have hnd2 := List.nodup_cons.mp hnd
            refine ⟨hnd2.2, ?_⟩
            intro t ht
            have hne : t ≠ first_token q := fun e => hnd2.1 (e ▸ ht)
            simp only [h5, if_neg hne]
            exact hall t (List.mem_cons_of_mem _ ht)
        · right
          refine ⟨?_, c, ?_⟩
          · rintro ⟨_, hall⟩
            have := hall (first_token q) (List.mem_cons_self _ _)
            rw [h1] at this
            exact hv (Option.some.inj this)
          · have : (v != -1) = true := by simpa using hv
            simp [this]

theorem cgroup_members_frame (ci : Int) (n : Nat) (c : config) (q : List Char) (c1 : config)
    (i1 : Int) (hg : c.cgroups ≠ []) (h : cgroup_members ci n c q = LineResult.next c1 i1) :
    i1 = ci ∧ ∃ cls1, c1 = { c with clusters := cls1 } ∧
      cls1.map (fun cl => (cl.name, cl.phone)) = c.clusters.map (fun cl => (cl.name, cl.phone)) ∧
      ∀ t, (∃ v, cgroup_of c.clusters t = some v ∧ v ≠ -1) →
        ∃ v, cgroup_of cls1 t = some v ∧ v ≠ -1 := by
  induction n generalizing c q with
  | zero =>
    simp only [cgroup_members, LineResult.next.injEq] at h
    exact ⟨h.2.symm, c.clusters, h.1.symm, rfl, fun t ht => ht⟩
  | succ n ih =>
    simp only [cgroup_members] at h
    split at h
    · simp only [LineResult.next.injEq] at h
      exact ⟨h.2.symm, c.clusters, h.1.symm, rfl, fun t ht => ht⟩
    · have hn : ptrdiff (skip_nonspaces (skip_spaces q)) (skip_spaces q)
          ≤ (skip_spaces q).length := by
        unfold ptrdiff; omega
      have hgpos : c.ncgroups - 1 ≠ -1 := by
        have : 0 < c.cgroups.length := List.length_pos.mpr hg
        simp only [config.ncgroups]; omega
      rcases find_cluster_cases (skip_spaces q) _ hn (c.ncgroups - 1) c.clusters 0 with
        ⟨_, h2⟩ | ⟨k, v, _, h2, _, _, h5⟩
      · rw [h2] at h
        simp at h
      · rw [h2, Nat.zero_add] at h
        split at h
        · simp at h
        · split at h
          · simp at h
          · obtain ⟨e1, cls1, e2, e3, e4⟩ := (fun hg2 => ih _ _ hg2 h) hg
            refine ⟨e1, cls1, e2, ?_, ?_⟩
            · rw [e3]
              exact modify_at_map _ _ _ _ (fun _ => rfl)
            · intro t ht
              apply e4
              show ∃ v, cgroup_of (modify_at (fun cl => { cl with cgroup := c.ncgroups - 1 })
                c.clusters k) t = some v ∧ v ≠ -1
              rw [h5 t]
              by_cases htt : t = List.take
                  (ptrdiff (skip_nonspaces (skip_spaces q)) (skip_spaces q)) (skip_spaces q)
              · rw [if_pos htt]; exact ⟨_, rfl, hgpos⟩
              · rw [if_neg htt]; exact ht

theorem line_text_subset (line : List Char) : ∀ ch ∈ line_text line, ch ∈ line := by
  intro ch hch
  have h1 : ∀ s : List Char, ∀ ch ∈ chop_trailing s, ch ∈ s := by
    intro s ch hch
    cases s with
    | nil => simp [chop_trailing] at hch
    | cons a t =>
      simp only [chop_trailing, List.mem_cons] at hch
      rcases hch with rfl | hch
      · exact List.mem_cons_self _ _
      · apply List.mem_cons_of_mem
        simp only [strip_trailing, List.mem_reverse] at hch
        have := (List.dropWhile_suffix isspace).subset hch
        simpa using this
  have h2 : ∀ ch ∈ skip_spaces (cut_comment line), ch ∈ cut_comment line := by
    intro ch hch
    rw [skip_spaces_eq] at hch
    exact (List.dropWhile_suffix isspace).subset hch
  have h3 : ∀ ch ∈ cut_comment line, ch ∈ line := by
    intro ch hch
    unfold cut_comment at hch
    split at hch
    · exact List.mem_of_mem_take hch
    · exact hch
  exact h3 ch (h2 ch (h1 _ ch hch))

theorem line_text_last (line : List Char) (hb : blank_line line = false) :
    ∃ init w, line_text line = init ++ [w] ∧ isspace w = false := by
  unfold blank_line at hb
  unfold line_text
  cases hp : skip_spaces (cut_comment line) with
  | nil => rw [hp] at hb; simp [deref, NUL] at hb
  | cons c cs =>
    have hc := skip_spaces_head _ c cs hp
    simp only [chop_trailing, strip_trailing]
    cases hd : List.dropWhile isspace cs.reverse with
    | nil => exact ⟨[], c, by simp, hc⟩
    | cons w u =>
      have hne : List.dropWhile isspace cs.reverse ≠ [] := by rw [hd]; simp
      have hw := List.head_dropWhile_not isspace cs.reverse hne
      simp only [hd, List.head_cons] at hw
      exact ⟨c :: u.reverse, w, by simp, by simpa using hw⟩

theorem suffix_nonspace (L init : List Char) (w : Char) (hL : L = init ++ [w])
    (hw : isspace w = false) :
    ∀ s, s <:+ L → s ≠ [] → s.dropWhile isspace ≠ [] := by
  intro s hs hne hd
  obtain ⟨t, ht⟩ := hs
  rcases List.eq_nil_or_concat s with h | ⟨s1, z, rfl⟩
  · exact hne h
  · have hz : z = w := by
      have : (t ++ s1) ++ [z] = init ++ [w] := by
        rw [← hL, ← ht, List.concat_eq_append, List.append_assoc]
      exact List.singleton_inj.mp (List.append_inj' this rfl).2
    have hall := List.dropWhile_eq_nil_iff.mp hd z (by simp)
    rw [hz, hw] at hall
    exact absurd hall (by decide)

theorem after_tokens_suffix (n : Nat) (s : List Char) : after_tokens n s <:+ s := by
  induction n generalizing s with
  | zero => exact List.suffix_refl s
  | succ n ih => exact (ih (after_token s)).trans (after_token_suffix s)

theorem cgroup_line_eq (c : config) (ci : Int) (line : List Char)
    (h : keyword_test "cgroup" line = true) :
    cgroup_line c ci (line_text line) =
      cgroup_members ci (after_tokens 4 (line_text line)).length
        { c with cgroups := c.cgroups ++
            [{ name := nth_token 1 (line_text line),
               x := atoi (skip_spaces (after_tokens 2 (line_text line))),
               y := atoi (skip_spaces (after_tokens 3 (line_text line))) }] }
        (after_tokens 4 (line_text line)) := by
  obtain ⟨s, r, hsplit, hs, hafter⟩ := keyword_split "cgroup" line (by decide) h
  have hd : (line_text line).drop 6 = s :: r := by
    rw [hsplit]; rfl
  unfold cgroup_line
  simp only [hd, first_token_eq2, after_token_eq, nth_token, after_tokens, hafter]

/-! ## The architecture list -/

theorem dropWhile_head_nul (s : List Char) (h0 : ∀ ch ∈ s, ch ≠ NUL) :
    (deref (s.dropWhile isspace) == NUL) = ((s.dropWhile isspace).head? == none) := by
  have hsub : ∀ ch ∈ s.dropWhile isspace, ch ≠ NUL :=
    fun ch hch => h0 ch ((List.dropWhile_suffix isspace).subset hch)
  cases hd : s.dropWhile isspace with
  | nil => simp [deref, NUL]
  | cons a t =>
    have : a ≠ NUL := hsub a (by rw [hd]; exact List.mem_cons_self _ _)
    simp [deref, this]

theorem deref_head (s : List Char) (c : Char) (hc : c ≠ NUL) :
    (deref s == c) = (s.head? == some c) := by
  cases s with
  | nil =>
    have : (NUL == c) = false := by simpa using fun h => hc h.symm
    simpa [deref] using this
  | cons a t => simp [deref]

theorem second_token_nil (line : List Char) :
    nth_token 1 line = [] ↔ (after_token line).dropWhile isspace = [] := by
  simp only [nth_token, first_token]
  constructor
  · intro h
    by_contra hne
    obtain ⟨a, t, hat⟩ := List.exists_cons_of_ne_nil hne
    have ha := List.head_dropWhile_not isspace (after_token line) hne
    simp only [hat, List.head_cons] at ha
    rw [hat] at h
    simp [List.takeWhile, ha] at h
  · intro h
    rw [h]; rfl

theorem read_arches_step (c : config) (line : List Char) (rest : List (List Char))
    (h0 : ∀ ch ∈ line, ch ≠ NUL) :
    read_arches c (line :: rest) =
      if arch_skipped line then read_arches c rest
      else if arch_end line then (c, some rest)
      else read_arches { c with arches := c.arches ++ [arch_entry line] } rest := by
  have hsub : ∀ ch ∈ after_token line, ch ≠ NUL :=
    fun ch hch => h0 ch ((after_token_suffix line).subset hch)
  have e1 : (deref (skip_spaces line) == '#' || deref (skip_spaces line) == NUL)
      = arch_skipped line := by
    rw [skip_spaces_eq, dropWhile_head_nul line h0, deref_head _ '#' (by decide)]
    unfold arch_skipped
    rw [Bool.or_comm]
  have e2 : (deref (skip_spaces line) == '-') = arch_end line := by
    rw [skip_spaces_eq, deref_head _ '-' (by decide)]
    rfl
  have e3 : estrndup (skip_spaces line)
      (ptrdiff (skip_nonspaces (skip_spaces line)) (skip_spaces line)) = nth_token 0 line :=
    first_token_eq line
  have e4 : estrndup (skip_spaces (skip_nonspaces (skip_spaces line)))
      (ptrdiff (skip_nonspaces (skip_spaces (skip_nonspaces (skip_spaces line))))
        (skip_spaces (skip_nonspaces (skip_spaces line)))) = nth_token 1 line := by
    rw [first_token_eq, after_token_eq]; rfl
  have e5 : (deref (skip_spaces (skip_nonspaces (skip_spaces line))) != NUL)
      = !decide (nth_token 1 line = []) := by
    rw [after_token_eq, skip_spaces_eq, bne, dropWhile_head_nul _ hsub]
    congr 1
    by_cases ht : nth_token 1 line = []
    · have := (second_token_nil line).mp ht
      simp [ht, this]
    · have : (after_token line).dropWhile isspace ≠ [] :=
        fun h => ht ((second_token_nil line).mpr h)
      obtain ⟨a, t, hat⟩ := List.exists_cons_of_ne_nil this
      simp [ht, hat]
  simp only [read_arches, e1, e2, e3, e4, e5, arch_entry]
  by_cases hs : arch_skipped line = true
  · simp [hs]
  · by_cases he : arch_end line = true
    · simp [hs, he]
    · by_cases ht : nth_token 1 line = []
      · simp [hs, he, ht]
      · simp [hs, he, ht]

theorem arch_end_not_skipped (line : List Char) (h : arch_end line = true) :
    arch_skipped line = false := by
  unfold arch_end at h
  unfold arch_skipped
  cases hd : (line.dropWhile isspace).head? with
  | none => rw [hd] at h; simp at h
  | some a =>
    rw [hd] at h
    simp only [beq_iff_eq, Option.some.injEq] at h
    subst h
    decide

theorem read_arches_spec (c : config) (lines : List (List Char))
    (h0 : ∀ l ∈ lines, ∀ ch ∈ l, ch ≠ NUL) :
    (read_arches c lines).1 = { c with arches := c.arches ++ arch_list lines } ∧
      (read_arches c lines).2
        = if lines.all (fun l => !arch_end l) then none else some (body_of lines) := by
  induction lines generalizing c with
  | nil => simp [read_arches, arch_list, body_of]
  | cons line rest ih =>
    have hl : ∀ ch ∈ line, ch ≠ NUL := h0 line (List.mem_cons_self _ _)
    have hr : ∀ l ∈ rest, ∀ ch ∈ l, ch ≠ NUL := fun l h => h0 l (List.mem_cons_of_mem _ h)
    rw [read_arches_step c line rest hl]
    by_cases hs : arch_skipped line = true
    · have he : arch_end line = false := by
        cases h : arch_end line with
        | false => rfl
        | true => rw [arch_end_not_skipped line h] at hs; simp at hs
      obtain ⟨i1, i2⟩ := ih c hr
      simp only [hs, if_true, i1, i2]
      simp [arch_list, body_of, List.takeWhile, List.dropWhile, he, hs, List.filter]
    · simp only [hs, Bool.false_eq_true, if_false]
      by_cases he : arch_end line = true
      · simp [he, arch_list, body_of, List.takeWhile, List.dropWhile]
      · obtain ⟨i1, i2⟩ := ih { c with arches := c.arches ++ [arch_entry line] } hr
        simp only [he, Bool.false_eq_true, if_false, i1, i2]
        simp [arch_list, body_of, List.takeWhile, List.dropWhile, he, hs, List.filter]

/-! ## `atoi` on a field -/

theorem digit_value_space (c : Char) (h : isspace c = true) : digit_value c = none := by
  simp only [isspace, Bool.or_eq_true, beq_iff_eq, Bool.and_eq_true, decide_eq_true_eq] at h
  have h1 : isdigit c = false := by
    simp only [isdigit, Bool.and_eq_false_iff, decide_eq_false_iff_not]
    omega
  simp only [digit_value, h1, Bool.false_eq_true, if_false]
  rw [if_neg (by omega), if_neg (by omega)]

theorem scan_digits_append (b acc : Nat) (a rest : List Char)
    (hr : rest = [] ∨ ∃ sp r, rest = sp :: r ∧ isspace sp = true) :
    scan_digits b acc (a ++ rest)
      = ((scan_digits b acc a).1, (scan_digits b acc a).2 ++ rest) := by
  induction a generalizing acc with
  | nil =>
    rcases hr with rfl | ⟨sp, r, rfl, hsp⟩
    · simp [scan_digits]
    · simp [scan_digits, digit_value_space sp hsp]
  | cons c cs ih =>
    simp only [List.cons_append, scan_digits]
    cases hd : digit_value c with
    | none => simp
    | some d =>
      simp only
      split
      · exact ih _
      · simp

theorem strtol_token (tok rest : List Char)
    (hr : rest = [] ∨ ∃ sp r, rest = sp :: r ∧ isspace sp = true)
    (ht : tok = [] → rest = [])
    (hh : ∀ a t, tok = a :: t → isspace a = false) :
    (strtol (tok ++ rest) 10).1 = (strtol tok 10).1 := by
  cases tok with
  | nil => rw [ht rfl]; rfl
  | cons a t =>
    have ha := hh a t rfl
    have hs1 : skip_spaces (a :: t ++ rest) = a :: t ++ rest := skip_spaces_nonspace _ _ ha
    have hs2 : skip_spaces (a :: t) = a :: t := skip_spaces_nonspace _ _ ha
    have hb16 : ((10 : Nat) == 16) = false := by decide
    have hb0 : ((10 : Nat) == 0) = false := by decide
    simp only [strtol, hs1, hs2, hb16, hb0, Bool.or_false, Bool.false_and, Bool.false_eq_true,
      if_false]
    have hd1 : deref (a :: t ++ rest) = a := rfl
    have hd2 : deref (a :: t) = a := rfl
    simp only [hd1, hd2]
    by_cases hsign : (a == '-' || a == '+') = true
    · simp only [hsign, if_true, List.cons_append, List.tail_cons]
      rw [scan_digits_append 10 0 t rest hr]
      simp only [List.length_append, Nat.add_right_cancel_iff]
      split <;> rfl
    · simp only [hsign, Bool.false_eq_true, if_false]
      rw [scan_digits_append 10 0 (a :: t) rest hr]
      simp only [List.length_append, Nat.add_right_cancel_iff]
      split <;> rfl

theorem atoi_field (s : List Char) : atoi (skip_spaces s) = atoi (first_token s) := by
  have hsplit : skip_spaces s = first_token s ++ after_token s := by
    rw [skip_spaces_eq]
    exact (List.takeWhile_append_dropWhile _ _).symm
  have hr : after_token s = [] ∨ ∃ sp r, after_token s = sp :: r ∧ isspace sp = true := by
    cases hd : after_token s with
    | nil => left; rfl
    | cons sp r =>
      right
      have hne : (s.dropWhile isspace).dropWhile (fun ch => !isspace ch) ≠ [] := by
        show after_token s ≠ []
        rw [hd]; simp
      have := List.head_dropWhile_not (fun ch => !isspace ch) _ hne
      have hd2 : (s.dropWhile isspace).dropWhile (fun ch => !isspace ch) = sp :: r := hd
      simp only [hd2, List.head_cons] at this
      exact ⟨sp, r, rfl, by simpa using this⟩
  have hh : ∀ a t, first_token s = a :: t → isspace a = false := by
    intro a t hat
    have : a ∈ first_token s := by rw [hat]; exact List.mem_cons_self _ _
    have := List.mem_takeWhile_imp this
    simpa using this
  have ht : first_token s = [] → after_token s = [] := by
    intro h
    unfold first_token at h
    unfold after_token
    cases hd : s.dropWhile isspace with
    | nil => rfl
    | cons a t =>
      have hne : s.dropWhile isspace ≠ [] := by rw [hd]; simp
      have ha := List.head_dropWhile_not isspace s hne
      simp only [hd, List.head_cons] at ha
      rw [hd] at h
      simp [List.takeWhile, ha] at h
  unfold atoi
  rw [hsplit, strtol_token _ _ hr ht hh]

theorem nth_token_eq (n : Nat) (s : List Char) :
    nth_token n s = first_token (after_tokens n s) := by
  induction n generalizing s with
  | zero => rfl
  | succ n ih => simp only [nth_token, after_tokens, ih]

/-! ## The effect of one body line -/

theorem keyword_excl (kw kw2 : String) (line : List Char)
    (hkw : ∀ ch ∈ kw.toList, isspace ch = false) (hkw2 : ∀ ch ∈ kw2.toList, isspace ch = false)
    (h : keyword_test kw line = true) (hne : kw.toList ≠ kw2.toList) :
    keyword_test kw2 line = false :=
  keyword_test_of_token kw kw2 line hkw2 ((keyword_test_iff kw line hkw).mp h).2.1 hne

theorem has_cgroup_append (cls : List cluster) (cl : cluster) (t : List Char)
    (h : has_cgroup cls t) : has_cgroup (cls ++ [cl]) t := by
  obtain ⟨v, hv, hne⟩ := h
  refine ⟨v, ?_, hne⟩
  unfold cgroup_of at hv ⊢
  cases hf : cls.find? (fun cl => cl.name == t) with
  | none => rw [hf] at hv; simp at hv
  | some a =>
    rw [hf] at hv
    rw [List.find?_append, hf]
    exact hv

theorem body_line_effect (x : Env) (c : config) (ci : Int) (line : List Char) (c1 : config)
    (i1 : Int) (h : body_line x c ci line = LineResult.next c1 i1) :
    LineEffect x c ci line c1 i1 := by
  rw [body_line_eq] at h
  by_cases hb : blank_line line = true
  · simp only [hb, if_true, LineResult.next.injEq] at h
    obtain ⟨rfl, rfl⟩ := h
    have hk : ∀ kw, keyword_test kw line = false := by
      intro kw; simp [keyword_test, hb]
    exact ⟨Or.inl hb, rfl, by simp [hk], by simp [hk], by simp [hk],
      ⟨[], by simp, by simp, by simp [hk]⟩, by simp [hk], by simp [hk], fun t ht => ht⟩
  simp only [hb, Bool.false_eq_true, if_false] at h
  by_cases h1 : keyword_test "cluster" line = true
  · have k2 := keyword_excl "cluster" "printer" line (by decide) (by decide) h1 (by decide)
    have k3 := keyword_excl "cluster" "ws" line (by decide) (by decide) h1 (by decide)
    have k4 := keyword_excl "cluster" "cgroup" line (by decide) (by decide) h1 (by decide)
    simp only [h1, if_true, cluster_line_eq c line h1, LineResult.next.injEq] at h
    obtain ⟨rfl, rfl⟩ := h
    exact ⟨Or.inr (Or.inl h1), rfl, by simp [h1], by simp [k2], by simp [k4],
      ⟨[], by simp, by simp, by simp [k3]⟩, by simp [h1], by simp [k2, k3],
      fun t ht => has_cgroup_append _ _ t ht⟩
  simp only [h1, Bool.false_eq_true, if_false] at h
  have h1f : keyword_test "cluster" line = false := by simpa using h1
  by_cases h2 : keyword_test "printer" line = true
  · have k3 := keyword_excl "printer" "ws" line (by decide) (by decide) h2 (by decide)
    have k4 := keyword_excl "printer" "cgroup" line (by decide) (by decide) h2 (by decide)
    simp only [h2, if_true] at h
    have hci : ci ≠ -1 := by
      intro e
      subst e
      simp [printer_line] at h
    simp only [printer_line_eq c ci line h2 hci, LineResult.next.injEq] at h
    obtain ⟨rfl, rfl⟩ := h
    exact ⟨Or.inr (Or.inr (Or.inl h2)), rfl, by simp [h1f], by simp [h2], by simp [k4],
      ⟨[], by simp, by simp, by simp [k3]⟩, by simp [h1f], fun _ => hci, fun t ht => ht⟩
  simp only [h2, Bool.false_eq_true, if_false] at h
  have h2f : keyword_test "printer" line = false := by simpa using h2
  by_cases h3 : keyword_test "ws" line = true
  · have k4 := keyword_excl "ws" "cgroup" line (by decide) (by decide) h3 (by decide)
    simp only [h3, if_true] at h
    obtain ⟨e1, hci, ms, e2, e3, e4⟩ := ws_line_eq x c ci line c1 i1 h3 h
    subst e1 e2
    exact ⟨Or.inr (Or.inr (Or.inr (Or.inl h3))), rfl, by simp [h1f], by simp [h2f],
      by simp [k4], ⟨ms, rfl, e4, by simp [h3, e3]⟩, by simp [h1f], fun _ => hci,
      fun t ht => ht⟩
  simp only [h3, Bool.false_eq_true, if_false] at h
  have h3f : keyword_test "ws" line = false := by simpa using h3
  by_cases h4 : keyword_test "cgroup" line = true
  · simp only [h4, if_true, cgroup_line_eq c ci line h4] at h
    obtain ⟨e1, cls1, e2, e3, e4⟩ := cgroup_members_frame ci _ _ _ c1 i1 (by simp) h
    subst e1 e2
    refine ⟨Or.inr (Or.inr (Or.inr (Or.inr (Or.inl h4)))), rfl, by simp [h1f, e3],
      by simp [h2f], ?_, ⟨[], by simp, by simp, by simp [h3f]⟩, by simp [h1f],
      by simp [h2f, h3f], e4⟩
    simp only [h4, if_true, atoi_field, nth_token_eq]
  simp only [h4, Bool.false_eq_true, if_false] at h
  have h4f : keyword_test "cgroup" line = false := by simpa using h4
  by_cases h5 : keyword_test "option" line = true
  · simp only [h5, if_true] at h
    obtain ⟨e1, e2, e3, e4, e5, e6⟩ := option_line_eq c ci _ c1 i1 h
    subst e1
    exact ⟨Or.inr (Or.inr (Or.inr (Or.inr (Or.inr h5)))), e3, by simp [h1f, e2],
      by simp [h2f, e5], by simp [h4f, e6], ⟨[], by simp [e4], by simp, by simp [h3f]⟩,
      by simp [h1f], by simp [h2f, h3f], fun t ht => by rw [e2]; exact ht⟩
  · simp [h5] at h

/-! ## Cluster groups across lines -/

theorem body_loop_next_append (x : Env) (c c2 : config) (ci i2 : Int)
    (l1 l2 : List (List Char)) (h : body_loop x c ci (l1 ++ l2) = LineResult.next c2 i2) :
    ∃ c1 i1, body_loop x c ci l1 = LineResult.next c1 i1 ∧
      body_loop x c1 i1 l2 = LineResult.next c2 i2 := by
  rw [body_loop_append] at h
  cases h1 : body_loop x c ci l1 with
  | next c1 i1 => rw [h1] at h; exact ⟨c1, i1, rfl, h⟩
  | cleanup c1 => rw [h1] at h; simp at h
  | undefined => rw [h1] at h; simp at h

theorem body_loop_next_cons (x : Env) (c c2 : config) (ci i2 : Int) (l : List Char)
    (ls : List (List Char)) (h : body_loop x c ci (l :: ls) = LineResult.next c2 i2) :
    ∃ c1 i1, body_line x c ci l = LineResult.next c1 i1 ∧
      body_loop x c1 i1 ls = LineResult.next c2 i2 := by
  simp only [body_loop] at h
  cases h1 : body_line x c ci l with
  | next c1 i1 => rw [h1] at h; exact ⟨c1, i1, rfl, h⟩
  | cleanup c1 => rw [h1] at h; simp at h
  | undefined => rw [h1] at h; simp at h

theorem body_loop_taken (x : Env) (c c1 : config) (ci i1 : Int) (ls : List (List Char))
    (h : body_loop x c ci ls = LineResult.next c1 i1) (t : List Char)
    (ht : has_cgroup c.clusters t) : has_cgroup c1.clusters t := by
  induction ls generalizing c ci with
  | nil =>
    simp only [body_loop, LineResult.next.injEq] at h
    rw [← h.1]; exact ht
  | cons l ls ih =>
    obtain ⟨c2, i2, h1, h2⟩ := body_loop_next_cons x c c1 ci i1 l ls h
    exact ih c2 i2 h2 ((body_line_effect x c ci l c2 i2 h1).taken t ht)

theorem body_line_cgroup (x : Env) (c : config) (ci : Int) (line : List Char)
    (hk : keyword_test "cgroup" line = true) :
    body_line x c ci line =
      cgroup_members ci (after_tokens 4 (line_text line)).length
        { c with cgroups := c.cgroups ++
            [{ name := nth_token 1 (line_text line),
               x := atoi (skip_spaces (after_tokens 2 (line_text line))),
               y := atoi (skip_spaces (after_tokens 3 (line_text line))) }] }
        (after_tokens 4 (line_text line)) := by
  have hb : blank_line line = false := ((keyword_test_iff "cgroup" line (by decide)).mp hk).1
  have k1 := keyword_excl "cgroup" "cluster" line (by decide) (by decide) hk (by decide)
  have k2 := keyword_excl "cgroup" "printer" line (by decide) (by decide) hk (by decide)
  have k3 := keyword_excl "cgroup" "ws" line (by decide) (by decide) hk (by decide)
  rw [body_line_eq]
  simp only [hb, k1, k2, k3, hk, Bool.false_eq_true, if_false, if_true]
  exact cgroup_line_eq c ci line hk

theorem cgroup_line_spec (x : Env) (c : config) (ci : Int) (line : List Char)
    (h0 : ∀ ch ∈ line, ch ≠ NUL) (hk : keyword_test "cgroup" line = true) :
    ((∃ c2, body_line x c ci line = LineResult.cleanup c2) ↔
      (¬ (listed_clusters line).Nodup ∨
        ∃ t ∈ listed_clusters line, cgroup_of c.clusters t ≠ some (-1))) ∧
    ((∃ c2, body_line x c ci line = LineResult.cleanup c2) ∨
      ∃ c2, body_line x c ci line = LineResult.next c2 ci ∧
        ∀ t ∈ listed_clusters line, has_cgroup c2.clusters t) := by
  have hb : blank_line line = false := ((keyword_test_iff "cgroup" line (by decide)).mp hk).1
  obtain ⟨init, w, hL, hw⟩ := line_text_last line hb
  have hsuf := after_tokens_suffix 4 (line_text line)
  have hq0 : ∀ ch ∈ after_tokens 4 (line_text line), ch ≠ NUL :=
    fun ch hch => h0 ch (line_text_subset line ch (hsuf.subset hch))
  have htr : ∀ s, s <:+ after_tokens 4 (line_text line) → s ≠ [] → s.dropWhile isspace ≠ [] :=
    fun s hs => suffix_nonspace _ init w hL hw s (hs.trans hsuf)
  rw [body_line_cgroup x c ci line hk]
  have hgpos : (c.cgroups.length : Int) + 1 - 1 ≠ -1 := by omega
  rcases cgroup_members_spec ci _
      ⟨c.clusters, c.arches, c.machines, c.printers,
        c.cgroups ++ [{ name := nth_token 1 (line_text line),
                        x := atoi (skip_spaces (after_tokens 2 (line_text line))),
                        y := atoi (skip_spaces (after_tokens 3 (line_text line))) }],
        c.report_other, c.report_unknown⟩
      (after_tokens 4 (line_text line)) (by simp) (le_refl _) hq0 htr with
    ⟨⟨hnd, hall⟩, cls1, e1, _, e3⟩ | ⟨hbad, c1, e1⟩
  · have e1b := e1
    refine ⟨?_, Or.inr ⟨_, e1, ?_⟩⟩
    · constructor
      · rintro ⟨c2, hc2⟩
        rw [e1b] at hc2
        simp at hc2
      · rintro (h | ⟨t, ht, hne⟩)
        · exact absurd hnd h
        · exact absurd (hall t ht) hne
    · intro t ht
      refine ⟨_, ?_, hgpos⟩
      have ht2 : t ∈ tokens_upto (after_tokens 4 (line_text line)).length
          (after_tokens 4 (line_text line)) := ht
      show cgroup_of cls1 t = _
      rw [e3 t, if_pos ht2]
      simp [config.ncgroups]
  · refine ⟨?_, Or.inl ⟨c1, e1⟩⟩
    constructor
    · intro _
      by_contra hcon
      apply hbad
      simp only [not_or, not_not, not_exists, not_and] at hcon
      exact ⟨hcon.1, fun t ht => hcon.2 t ht⟩
    · intro _
      exact ⟨c1, e1⟩

/-- C12: let a line that starts with the keyword `cgroup` and white space be
reached in the body without an earlier fatal condition.  Processing it ends
in `goto cleanup` if and only if some cluster name listed on it is listed
there twice, is the name of no cluster declared so far, or is the name of a
cluster that is in a cluster group already; in that case `read_config`
returns -1, and otherwise the loop goes on with the next line.  Hence if an
earlier `cgroup` line lists a cluster name that this line lists too,
`read_config` returns -1. -/
theorem cgroup_membership (x : Env) (f : List Char) (fp : LineSource) (c0 c1 : config)
    (i1 : Int) (pre post : List (List Char)) (line : List Char)
    (hopen : x.fopen f = some fp)
    (harch : read_arches empty_config fp.lines = (c0, some (pre ++ line :: post)))
    (hok : body_loop x c0 (-1) pre = LineResult.next c1 i1)
    (h0 : ∀ ch ∈ line, ch ≠ NUL) (hk : keyword_test "cgroup" line = true) :
    ((∃ c2, body_line x c1 i1 line = LineResult.cleanup c2) ↔
      (¬ (listed_clusters line).Nodup ∨
        ∃ t ∈ listed_clusters line, cgroup_of c1.clusters t = none ∨
          ∃ v, cgroup_of c1.clusters t = some v ∧ v ≠ -1)) ∧
    ((∃ c2, body_line x c1 i1 line = LineResult.cleanup c2) →
      ∃ released, read_config x f = ParseResult.failure released) ∧
    ((∃ c2, body_line x c1 i1 line = LineResult.cleanup c2) ∨
      ∃ c2, body_line x c1 i1 line = LineResult.next c2 i1) ∧
    (∀ (pre1 pre2 : List (List Char)) (g1 t : List Char), pre = pre1 ++ g1 :: pre2 →
      keyword_test "cgroup" g1 = true → (∀ ch ∈ g1, ch ≠ NUL) →
      t ∈ listed_clusters g1 → t ∈ listed_clusters line →
      ∃ released, read_config x f = ParseResult.failure released) := by
  obtain ⟨hiff, hcases⟩ := cgroup_line_spec x c1 i1 line h0 hk
  have hfail : (∃ c2, body_line x c1 i1 line = LineResult.cleanup c2) →
      ∃ released, read_config x f = ParseResult.failure released := by
    rintro ⟨c2, hc2⟩
    exact ⟨freeconfig c2, read_config_fatal x f fp c0 c2 _ hopen harch
      (body_loop_fatal x c0 c1 c2 (-1) i1 pre post line hok hc2)⟩
  refine ⟨?_, hfail, ?_, ?_⟩
  · rw [hiff]
    constructor
    · rintro (h | ⟨t, ht, hne⟩)
      · exact Or.inl h
      · right
        refine ⟨t, ht, ?_⟩
        cases hc : cgroup_of c1.clusters t with
        | none => exact Or.inl rfl
        | some v =>
          right
          refine ⟨v, rfl, ?_⟩
          rintro rfl
          exact hne hc
    · rintro (h | ⟨t, ht, hn | ⟨v, hv, hne⟩⟩)
      · exact Or.inl h
      · exact Or.inr ⟨t, ht, by rw [hn]; simp⟩
      · right
        refine ⟨t, ht, ?_⟩
        rw [hv]
        intro e
        exact hne (Option.some.inj e)
  · rcases hcases with h | ⟨c2, h, _⟩
    · exact Or.inl h
    · exact Or.inr ⟨c2, h⟩
  · intro pre1 pre2 g1 t hpre hk1 h01 ht1 ht
    apply hfail
    rw [hiff]
    right
    refine ⟨t, ht, ?_⟩
    rw [hpre] at hok
    obtain ⟨ca, ia, ha, hrest⟩ := body_loop_next_append x c0 c1 (-1) i1 pre1 (g1 :: pre2) hok
    obtain ⟨cb, ib, hb, hc⟩ := body_loop_next_cons x ca c1 ia i1 g1 pre2 hrest
    have htaken : has_cgroup cb.clusters t := by
      rcases (cgroup_line_spec x ca ia g1 h01 hk1).2 with ⟨c2, h2⟩ | ⟨c2, h2, h3⟩
      · rw [hb] at h2; simp at h2
      · rw [hb] at h2
        simp only [LineResult.next.injEq] at h2
        rw [h2.1]
        exact h3 t ht1
    obtain ⟨v, hv, hne⟩ := body_loop_taken x cb c1 ib i1 pre2 hc t htaken
    rw [hv]
    intro e
    exact hne (Option.some.inj e)

theorem cgroup_membership_witness :
    ∃ released, read_config (sample_env (some sample_cgroups)) "larvnetd.conf".toList
      = ParseResult.failure released :=
  (cgroup_membership (sample_env (some sample_cgroups)) "larvnetd.conf".toList sample_cgroups
    empty_config sample_cgroups_before 1
    ["cluster a x3-1".toList, "cluster b x3-2".toList, "cgroup west 0 0 a".toList]
    ["ws late".toList] "cgroup east 5 7 b a".toList rfl (by decide) (by decide) (by decide)
    (by decide)).2.2.2
    ["cluster a x3-1".toList, "cluster b x3-2".toList] [] "cgroup west 0 0 a".toList "a".toList
    rfl (by decide) (by decide) (by decide) (by decide)

/-! ## The effect of the body -/

theorem keyword_test_congr (kw kw2 : String) (line : List Char)
    (h : kw.toList = kw2.toList) : keyword_test kw line = keyword_test kw2 line := by
  have : kw = kw2 := String.ext h
  rw [this]

theorem is_line_eq (kw : String) (line : List Char)
    (hkw : ∀ ch ∈ kw.toList, isspace ch = false)
    (hhead : ∃ ch t, kw.toList = ch :: t ∧ ch ≠ NUL)
    (hrec : blank_line line = true ∨ keyword_test "cluster" line = true ∨
      keyword_test "printer" line = true ∨ keyword_test "ws" line = true ∨
      keyword_test "cgroup" line = true ∨ keyword_test "option" line = true) :
    is_line kw line = keyword_test kw line := by
  have key : ∀ kw2 : String, (∀ ch ∈ kw2.toList, isspace ch = false) →
      keyword_test kw2 line = true → is_line kw line = keyword_test kw line := by
    intro kw2 hkw2 h2
    have hft := ((keyword_test_iff kw2 line hkw2).mp h2).2.1
    by_cases he : kw.toList = kw2.toList
    · rw [keyword_test_congr kw kw2 line he, h2]
      simp only [is_line, hft, he, beq_self_eq_true]
    · rw [keyword_excl kw2 kw line hkw2 hkw h2 (fun e => he e.symm)]
      simp only [is_line, hft, beq_eq_false_iff_ne, ne_eq]
      exact fun e => he e.symm
  rcases hrec with hb | h | h | h | h | h
  · have hk : keyword_test kw line = false := by simp [keyword_test, hb]
    rw [hk]
    obtain ⟨ch, t, hct, hch⟩ := hhead
    simp only [is_line, beq_eq_false_iff_ne, ne_eq]
    intro e
    have := first_token_nonblank line ch t (e.trans hct) hch
    rw [hb] at this
    simp at this
  · exact key "cluster" (by decide) h
  · exact key "printer" (by decide) h
  · exact key "ws" (by decide) h
  · exact key "cgroup" (by decide) h
  · exact key "option" (by decide) h

theorem keyword_pattern (line : List Char) :
    (keyword_test "cluster" line = true ∧ keyword_test "printer" line = false ∧
      keyword_test "ws" line = false ∧ keyword_test "cgroup" line = false) ∨
    (keyword_test "cluster" line = false ∧ keyword_test "printer" line = true ∧
      keyword_test "ws" line = false ∧ keyword_test "cgroup" line = false) ∨
    (keyword_test "cluster" line = false ∧ keyword_test "printer" line = false ∧
      keyword_test "ws" line = true ∧ keyword_test "cgroup" line = false) ∨
    (keyword_test "cluster" line = false ∧ keyword_test "printer" line = false ∧
      keyword_test "ws" line = false ∧ keyword_test "cgroup" line = true) ∨
    (keyword_test "cluster" line = false ∧ keyword_test "printer" line = false ∧
      keyword_test "ws" line = false ∧ keyword_test "cgroup" line = false) := by
  by_cases h1 : keyword_test "cluster" line = true
  · exact Or.inl ⟨h1,
      keyword_excl "cluster" "printer" line (by decide) (by decide) h1 (by decide),
      keyword_excl "cluster" "ws" line (by decide) (by decide) h1 (by decide),
      keyword_excl "cluster" "cgroup" line (by decide) (by decide) h1 (by decide)⟩
  · have f1 : keyword_test "cluster" line = false := by simpa using h1
    by_cases h2 : keyword_test "printer" line = true
    · exact Or.inr (Or.inl ⟨f1, h2,
        keyword_excl "printer" "ws" line (by decide) (by decide) h2 (by decide),
        keyword_excl "printer" "cgroup" line (by decide) (by decide) h2 (by decide)⟩)
    · have f2 : keyword_test "printer" line = false := by simpa using h2
      by_cases h3 : keyword_test "ws" line = true
      · exact Or.inr (Or.inr (Or.inl ⟨f1, f2, h3,
          keyword_excl "ws" "cgroup" line (by decide) (by decide) h3 (by decide)⟩))
      · have f3 : keyword_test "ws" line = false := by simpa using h3
        by_cases h4 : keyword_test "cgroup" line = true
        · exact Or.inr (Or.inr (Or.inr (Or.inl ⟨f1, f2, f3, h4⟩)))
        · exact Or.inr (Or.inr (Or.inr (Or.inr ⟨f1, f2, f3, by simpa using h4⟩)))

theorem loop_effect_nil (x : Env) (c : config) (ci : Int)
    (hci : ci = (c.clusters.length : Int) - 1) : LoopEffect x c ci [] c ci :=
  ⟨rfl, by simp, by simp, by simp [printer_ordinals], by simp,
    ⟨[], by simp, by simp [machine_ordinals], by simp⟩, hci,
    by simp [printer_ordinals], by simp [machine_ordinals]⟩

theorem map_eq_replicate {α β : Type} (f : α → β) (a : β) (ms : List α)
    (h : ∀ m ∈ ms, f m = a) : ms.map f = List.replicate ms.length a := by
  induction ms with
  | nil => rfl
  | cons m ms ih =>
    simp only [List.map_cons, List.length_cons, List.replicate_succ]
    rw [h m (List.mem_cons_self _ _), ih (fun m2 h2 => h m2 (List.mem_cons_of_mem _ h2))]

theorem loop_effect_cons (x : Env) (c c2 c1 : config) (ci i2 i1 : Int) (l : List Char)
    (ls : List (List Char)) (hci : ci = (c.clusters.length : Int) - 1)
    (E : LineEffect x c ci l c2 i2) (L : LoopEffect x c2 i2 ls c1 i1) :
    LoopEffect x c ci (l :: ls) c1 i1 := by
  have q1 : is_line "cluster" l = keyword_test "cluster" l :=
    is_line_eq "cluster" l (by decide) ⟨'c', "luster".toList, rfl, by decide⟩ E.recognized
  have q2 : is_line "printer" l = keyword_test "printer" l :=
    is_line_eq "printer" l (by decide) ⟨'p', "rinter".toList, rfl, by decide⟩ E.recognized
  have q3 : is_line "ws" l = keyword_test "ws" l :=
    is_line_eq "ws" l (by decide) ⟨'w', "s".toList, rfl, by decide⟩ E.recognized
  have q4 : is_line "cgroup" l = keyword_test "cgroup" l :=
    is_line_eq "cgroup" l (by decide) ⟨'c', "group".toList, rfl, by decide⟩ E.recognized
  have hlen : c2.clusters.length
      = c.clusters.length + (if keyword_test "cluster" l then 1 else 0) := by
    have := congrArg List.length E.clusters
    simp only [List.length_map, List.length_append] at this
    rw [this]; split <;> rfl
  obtain ⟨ms1, hm1, hf1, hl1⟩ := E.machines
  obtain ⟨ms2, hm2, ho2, hf2⟩ := L.machines
  have hcl : ms1.map machine.cluster = List.replicate ms1.length ci :=
    map_eq_replicate machine.cluster ci ms1 (fun m hm => (hf1 m hm).1)
  have hfr : ∀ m ∈ ms1 ++ ms2, m.busy = x.UNKNOWN_BUSYSTATE ∧ m.arch = x.UNKNOWN_ARCH ∧
      m.laststatus = 0 ∧ m.lastpoll = 0 ∧ m.numpolls = 0 := by
    intro m hm
    rcases List.mem_append.mp hm with h | h
    · exact (hf1 m h).2
    · exact hf2 m h
  have hmem := E.member
  have hLc := L.clusters
  have hLpn := L.printer_names
  have hLpc := L.printer_clusters
  have hLg := L.cgroups
  have hLpl := L.printer_lower
  have hLml := L.machine_lower
  have hEc := E.clusters
  have hEp := E.printers
  have hEg := E.cgroups
  have hpos : ci ≠ -1 → (0 : Int) ≤ (c.clusters.length : Int) - 1 := by
    intro h; omega
  rcases keyword_pattern l with ⟨k1, k2, k3, k4⟩ | ⟨k1, k2, k3, k4⟩ | ⟨k1, k2, k3, k4⟩ |
    ⟨k1, k2, k3, k4⟩ | ⟨k1, k2, k3, k4⟩
  all_goals
    simp only [k1, k2, k3, k4, if_true, if_false, Bool.false_eq_true, List.append_nil,
      Nat.add_zero, false_or, or_false, true_or, or_true, forall_true_left, false_implies]
      at hlen hl1 hEc hEp hEg hmem
    rw [hlen] at hLpc ho2 hLpl hLml
    refine ⟨L.arches.trans E.arches, ?_, ?_, ?_, ?_, ⟨ms1 ++ ms2, ?_, ?_, hfr⟩, L.index, ?_, ?_⟩
    · rw [hLc, hEc]
      simp [List.filter_cons, q1, k1]
    · rw [hLpn, hEp]
      simp [List.filter_cons, q2, k2]
    · rw [hLpc, hEp]
      simp [printer_ordinals, q1, q2, k1, k2, hci]
    · rw [hLg, hEg]
      simp [List.filter_cons, q4, k4]
    · rw [hm2, hm1, List.append_assoc]
    · rw [List.map_append, ho2, hcl, hl1]
      simp [machine_ordinals, q1, q3, k1, k3, hci]
    · simp only [printer_ordinals, q1, q2, k1, k2, if_true, if_false, Bool.false_eq_true,
        List.mem_cons]
      first
        | exact hLpl
        | (intro o ho
           rcases ho with rfl | ho
           · exact hpos hmem
           · exact hLpl o ho)
    · simp only [machine_ordinals, q1, q3, k1, k3, if_true, if_false, Bool.false_eq_true,
        List.mem_append]
      first
        | exact hLml
        | (intro o ho
           rcases ho with ho | ho
           · rw [(List.mem_replicate.mp ho).2]; exact hpos hmem
           · exact hLml o ho)

theorem body_loop_effect (x : Env) (c : config) (ci : Int) (body : List (List Char))
    (c1 : config) (i1 : Int) (hci : ci = (c.clusters.length : Int) - 1)
    (h : body_loop x c ci body = LineResult.next c1 i1) : LoopEffect x c ci body c1 i1 := by
  induction body generalizing c ci with
  | nil =>
    simp only [body_loop, LineResult.next.injEq] at h
    obtain ⟨rfl, rfl⟩ := h
    exact loop_effect_nil x c ci hci
  | cons l ls ih =>
    obtain ⟨c2, i2, h1, h2⟩ := body_loop_next_cons x c c1 ci i1 l ls h
    have E := body_line_effect x c ci l c2 i2 h1
    have hlen : c2.clusters.length
        = c.clusters.length + (if keyword_test "cluster" l then 1 else 0) := by
      have := congrArg List.length E.clusters
      simp only [List.length_map, List.length_append] at this
      rw [this]; split <;> rfl
    have hi2 : i2 = (c2.clusters.length : Int) - 1 := by
      rw [E.index, hlen]
      by_cases k : keyword_test "cluster" l = true
      · simp [k, config.nclusters]
      · simp [k, hci]
    exact loop_effect_cons x c c2 c1 ci i2 i1 l ls hci E (ih c2 i2 hi2 h2)

theorem body_of_eq (lines : List (List Char)) :
    (if lines.all (fun l => !arch_end l) then none else some (body_of lines)).getD []
      = body_of lines := by
  by_cases h : lines.all (fun l => !arch_end l) = true
  · rw [if_pos h]
    have : lines.dropWhile (fun l => !arch_end l) = [] := by
      rw [List.dropWhile_eq_nil_iff]
      exact fun l hl => List.all_eq_true.mp h l hl
    simp [body_of, this]
  · rw [if_neg h]; rfl

theorem read_config_parse (x : Env) (f : List Char) (fp : LineSource) (c : config)
    (hopen : x.fopen f = some fp) (h0 : ∀ l ∈ fp.lines, ∀ ch ∈ l, ch ≠ NUL)
    (h : read_config x f = ParseResult.success c) :
    ∃ c1 i1, body_loop x { empty_config with arches := arch_list fp.lines } (-1)
        (body_of fp.lines) = LineResult.next c1 i1 ∧
      c = { c1 with machines := x.ws_sort c1.machines } := by
  obtain ⟨e1, e2⟩ := read_arches_spec empty_config fp.lines h0
  have e1b : (read_arches empty_config fp.lines).1
      = { empty_config with arches := arch_list fp.lines } := by
    rw [e1]; simp [empty_config]
  unfold read_config at h
  simp only [hopen] at h
  split at h
  · simp at h
  · rw [e1b, e2, body_of_eq] at h
    cases hb : body_loop x { empty_config with arches := arch_list fp.lines } (-1)
        (body_of fp.lines) with
    | next c1 i1 =>
      rw [hb] at h
      simp only at h
      split at h
      · simp at h
      · exact ⟨c1, i1, rfl, (ParseResult.success.inj h).symm⟩
    | cleanup c1 => rw [hb] at h; simp at h
    | undefined => rw [hb] at h; simp at h

theorem read_config_effect (x : Env) (f : List Char) (fp : LineSource) (c : config)
    (hopen : x.fopen f = some fp) (h0 : ∀ l ∈ fp.lines, ∀ ch ∈ l, ch ≠ NUL)
    (h : read_config x f = ParseResult.success c) :
    ∃ c1 i1, LoopEffect x { empty_config with arches := arch_list fp.lines } (-1)
        (body_of fp.lines) c1 i1 ∧
      c = { c1 with machines := x.ws_sort c1.machines } := by
  obtain ⟨c1, i1, hb, hc⟩ := read_config_parse x f fp c hopen h0 h
  exact ⟨c1, i1, body_loop_effect x _ (-1) _ c1 i1 (by simp [empty_config]) hb, hc⟩

theorem printer_ordinals_upper (seen : Nat) (body : List (List Char)) :
    ∀ o ∈ printer_ordinals seen body,
      o < (seen : Int) + ((body.filter (is_line "cluster")).length : Int) := by
  induction body generalizing seen with
  | nil => simp [printer_ordinals]
  | cons l ls ih =>
    intro o ho
    simp only [printer_ordinals] at ho
    by_cases k1 : is_line "cluster" l = true
    · simp only [k1, if_true] at ho
      have := ih (seen + 1) o ho
      simp only [List.filter_cons, k1, if_true, List.length_cons]
      push_cast at this ⊢
      omega
    · simp only [k1, if_false, Bool.false_eq_true] at ho
      simp only [List.filter_cons, k1, if_false, Bool.false_eq_true]
      by_cases k2 : is_line "printer" l = true
      · simp only [k2, if_true, List.mem_cons] at ho
        rcases ho with rfl | ho
        · omega
        · exact ih seen o ho
      · simp only [k2, if_false, Bool.false_eq_true] at ho
        exact ih seen o ho

theorem machine_ordinals_upper (seen : Nat) (body : List (List Char)) :
    ∀ o ∈ machine_ordinals seen body,
      o < (seen : Int) + ((body.filter (is_line "cluster")).length : Int) := by
  induction body generalizing seen with
  | nil => simp [machine_ordinals]
  | cons l ls ih =>
    intro o ho
    simp only [machine_ordinals] at ho
    by_cases k1 : is_line "cluster" l = true
    · simp only [k1, if_true] at ho
      have := ih (seen + 1) o ho
      simp only [List.filter_cons, k1, if_true, List.length_cons]
      push_cast at this ⊢
      omega
    · simp only [k1, if_false, Bool.false_eq_true] at ho
      simp only [List.filter_cons, k1, if_false, Bool.false_eq_true]
      by_cases k2 : is_line "ws" l = true
      · simp only [k2, if_true, List.mem_append] at ho
        rcases ho with ho | ho
        · rw [(List.mem_replicate.mp ho).2]; omega
        · exact ih seen o ho
      · simp only [k2, if_false, Bool.false_eq_true] at ho
        exact ih seen o ho

theorem loop_effect_count (x : Env) (c : config) (ci : Int) (body : List (List Char))
    (c1 : config) (i1 : Int) (L : LoopEffect x c ci body c1 i1) :
    c1.clusters.length = c.clusters.length + (body.filter (is_line "cluster")).length := by
  have := congrArg List.length L.clusters
  simpa only [List.length_map, List.length_append] using this

/-- C13: when `read_config` succeeds on a file of C strings, the `cluster`
fields of the printers are, in file order, the 0-based ordinals of the nearest
`cluster` line before each `printer` line; the machines are `ws_sort` of a list
whose `cluster` fields are, in file order, the ordinals of the nearest
`cluster` line before each `ws` line; and, `ws_sort` permuting its argument,
every printer and machine has `0 ≤ cluster < nclusters`. -/
theorem cluster_context (x : Env) (f : List Char) (fp : LineSource) (c : config)
    (hperm : ∀ ms, (x.ws_sort ms).Perm ms)
    (hopen : x.fopen f = some fp) (h0 : ∀ l ∈ fp.lines, ∀ ch ∈ l, ch ≠ NUL)
    (h : read_config x f = ParseResult.success c) :
    c.printers.map printer.cluster = printer_ordinals 0 (body_of fp.lines) ∧
    (∃ ms, c.machines = x.ws_sort ms ∧
      ms.map machine.cluster = machine_ordinals 0 (body_of fp.lines)) ∧
    (∀ p ∈ c.printers, 0 ≤ p.cluster ∧ p.cluster < c.nclusters) ∧
    (∀ m ∈ c.machines, 0 ≤ m.cluster ∧ m.cluster < c.nclusters) := by
  obtain ⟨c1, i1, L, rfl⟩ := read_config_effect x f fp c hopen h0 h
  have hn := loop_effect_count x _ _ _ c1 i1 L
  have hp := L.printer_clusters
  obtain ⟨ms, hm, ho, _⟩ := L.machines
  simp only [empty_config, List.map_nil, List.nil_append, List.length_nil, Nat.zero_add]
    at hn hp hm ho
  have hpl := L.printer_lower
  have hml := L.machine_lower
  simp only [empty_config, List.length_nil] at hpl hml
  refine ⟨hp, ⟨ms, by rw [hm], ho⟩, ?_, ?_⟩
  · intro p hpm
    have hmem : p.cluster ∈ printer_ordinals 0 (body_of fp.lines) := by
      rw [← hp]; exact List.mem_map_of_mem _ hpm
    have hu := printer_ordinals_upper 0 (body_of fp.lines) _ hmem
    refine ⟨hpl _ hmem, ?_⟩
    simp only [config.nclusters, hn]
    simpa using hu
  · intro m hmm
    have h1 : m ∈ ms := by
      have : m ∈ x.ws_sort c1.machines := hmm
      rw [hm] at this
      exact (hperm ms).mem_iff.mp this
    have hmem : m.cluster ∈ machine_ordinals 0 (body_of fp.lines) := by
      rw [← ho]; exact List.mem_map_of_mem _ h1
    have hu := machine_ordinals_upper 0 (body_of fp.lines) _ hmem
    refine ⟨hml _ hmem, ?_⟩
    simp only [config.nclusters, hn]
    simpa using hu

theorem cluster_context_witness :
    sample_parsed.printers.map printer.cluster = printer_ordinals 0 (body_of sample_reload.lines) ∧
    (∃ ms, sample_parsed.machines = ms ∧
      ms.map machine.cluster = machine_ordinals 0 (body_of sample_reload.lines)) ∧
    (∀ p ∈ sample_parsed.printers, 0 ≤ p.cluster ∧ p.cluster < sample_parsed.nclusters) ∧
    (∀ m ∈ sample_parsed.machines, 0 ≤ m.cluster ∧ m.cluster < sample_parsed.nclusters) :=
  cluster_context (sample_env (some sample_reload)) "larvnetd.conf".toList sample_reload
    sample_parsed (fun ms => List.Perm.refl ms) rfl (by decide) (by decide)

/-- C14: for lines that are C strings, the architecture list `read_config`
builds with `read_arches` is `arch_list`: in input order one entry for each
line before the first line whose first non-space character is `-` that is
neither blank nor has `#` as first non-space character, with the first token
as `netname` and the second token, or the first when there is no second, as
`reportname`; the lines left for the body are those after that `-` line; and
a successful `read_config` returns that architecture list. -/
theorem arch_registry_parse (x : Env) (f : List Char) (fp : LineSource)
    (hopen : x.fopen f = some fp) (h0 : ∀ l ∈ fp.lines, ∀ ch ∈ l, ch ≠ NUL) :
    (read_arches empty_config fp.lines).1.arches = arch_list fp.lines ∧
    (read_arches empty_config fp.lines).2.getD [] = body_of fp.lines ∧
    ∀ c, read_config x f = ParseResult.success c → c.arches = arch_list fp.lines := by
  obtain ⟨e1, e2⟩ := read_arches_spec empty_config fp.lines h0
  refine ⟨by rw [e1]; simp [empty_config], by rw [e2, body_of_eq], ?_⟩
  intro c h
  obtain ⟨c1, i1, L, rfl⟩ := read_config_effect x f fp c hopen h0 h
  exact L.arches

theorem arch_registry_parse_witness :
    (read_arches empty_config sample_round.lines).1.arches
      = [{ netname := "sun4".toList, reportname := "Sun".toList },
         { netname := "sgi".toList, reportname := "sgi".toList }] ∧
    sample_round_parsed.arches = arch_list sample_round.lines :=
  have h := arch_registry_parse (sample_env (some sample_round)) "larvnetd.conf".toList
    sample_round rfl (by decide)
  ⟨h.1.trans (by decide), h.2.2 sample_round_parsed (by decide)⟩

/-- C16: when `read_config` succeeds on a file of C strings, `narch` is the
number of qualifying architecture lines, `nclusters`, `nprinters` and
`ncgroups` are the numbers of `cluster`, `printer` and `cgroup` lines of the
body, and the clusters, printers and cluster groups carry, in file order, the
name and phone, the name, and the name with `atoi` of the two coordinate
fields written on the lines of their kind. -/
theorem structural_round_trip (x : Env) (f : List Char) (fp : LineSource) (c : config)
    (hopen : x.fopen f = some fp) (h0 : ∀ l ∈ fp.lines, ∀ ch ∈ l, ch ≠ NUL)
    (h : read_config x f = ParseResult.success c) :
    c.narch = (((fp.lines.takeWhile (fun l => !arch_end l)).filter
        (fun l => !arch_skipped l)).length : Int) ∧
    c.nclusters = (((body_of fp.lines).filter (is_line "cluster")).length : Int) ∧
    c.nprinters = (((body_of fp.lines).filter (is_line "printer")).length : Int) ∧
    c.ncgroups = (((body_of fp.lines).filter (is_line "cgroup")).length : Int) ∧
    c.clusters.map (fun cl => (cl.name, cl.phone))
      = ((body_of fp.lines).filter (is_line "cluster")).map
          (fun l => (nth_token 1 (line_text l), nth_token 2 (line_text l))) ∧
    c.printers.map printer.name
      = ((body_of fp.lines).filter (is_line "printer")).map
          (fun l => nth_token 1 (line_text l)) ∧
    c.cgroups.map (fun g => (g.name, g.x, g.y))
      = ((body_of fp.lines).filter (is_line "cgroup")).map
          (fun l => (nth_token 1 (line_text l), atoi (nth_token 2 (line_text l)),
                     atoi (nth_token 3 (line_text l)))) := by
  obtain ⟨c1, i1, L, rfl⟩ := read_config_effect x f fp c hopen h0 h
  have hc := L.clusters
  have hp := L.printer_names
  have hg := L.cgroups
  have ha := L.arches
  simp only [empty_config, List.map_nil, List.nil_append] at hc hp hg ha
  refine ⟨?_, ?_, ?_, ?_, hc, hp, hg⟩
  · simp only [config.narch]
    rw [ha]; simp [arch_list]
  · have := congrArg List.length hc
    simp only [List.length_map] at this
    simp only [config.nclusters]
    rw [this]
  · have := congrArg List.length hp
    simp only [List.length_map] at this
    simp only [config.nprinters]
    rw [this]
  · have := congrArg List.length hg
    simp only [List.length_map] at this
    simp only [config.ncgroups]
    rw [this]

theorem structural_round_trip_witness :
    sample_round_parsed.narch = 2 ∧ sample_round_parsed.nclusters = 1 ∧
    sample_round_parsed.nprinters = 1 ∧ sample_round_parsed.ncgroups = 1 ∧
    sample_round_parsed.clusters.map (fun cl => (cl.name, cl.phone))
      = [("m1".toList, "x3-0000".toList)] ∧
    sample_round_parsed.printers.map printer.name = ["lp".toList] ∧
    sample_round_parsed.cgroups.map (fun g => (g.name, g.x, g.y)) = [("west".toList, 12, -7)] :=
  have h := structural_round_trip (sample_env (some sample_round)) "larvnetd.conf".toList
    sample_round sample_round_parsed rfl (by decide) (by decide)
  ⟨h.1.trans (by decide), h.2.1.trans (by decide), h.2.2.1.trans (by decide),
    h.2.2.2.1.trans (by decide), h.2.2.2.2.1.trans (by decide),
    h.2.2.2.2.2.1.trans (by decide), h.2.2.2.2.2.2.trans (by decide)⟩

/-! ## Architecture numbers across reloads -/

theorem arch_loop_range (x : Env) (name : List Char) (l : List archname) (i : Int) :
    arch_loop x name l i = x.OTHER_ARCH ∨
      (i ≤ arch_loop x name l i ∧ arch_loop x name l i < i + (l.length : Int)) := by
  induction l generalizing i with
  | nil => exact Or.inl rfl
  | cons a rest ih =>
    simp only [arch_loop]
    split
    · refine Or.inr ⟨le_refl _, ?_⟩
      simp only [List.length_cons]; push_cast; omega
    · rcases ih (i + 1) with h | ⟨h1, h2⟩
      · exact Or.inl h
      · refine Or.inr ⟨by omega, ?_⟩
        simp only [List.length_cons]; push_cast; omega

theorem translate_arch_valid (x : Env) (old new : config) (a : Int)
    (h : valid_arch x old.narch a) :
    ∃ b, translate_arch x old new a = some b ∧ valid_arch x new.narch b := by
  by_cases hs : (a == x.UNKNOWN_ARCH || a == x.OTHER_ARCH) = true
  · refine ⟨a, by simp only [translate_arch, hs, if_true], ?_⟩
    simp only [Bool.or_eq_true, beq_iff_eq] at hs
    rcases hs with hs | hs
    · exact Or.inl hs
    · exact Or.inr (Or.inl hs)
  · have hin : 0 ≤ a ∧ a < old.narch := by
      simp only [Bool.or_eq_true, beq_iff_eq, not_or] at hs
      rcases h with h | h | h
      · exact absurd h hs.1
      · exact absurd h hs.2
      · exact h
    have hlt : a.toNat < old.arches.length := by
      have := hin.2
      simp only [config.narch] at this
      omega
    refine ⟨arch_loop x (old.arches[a.toNat]).netname new.arches 0, ?_, ?_⟩
    · simp only [translate_arch, hs, Bool.false_eq_true, if_false, hin.1, if_true,
        List.getElem?_eq_getElem hlt]
    · rcases arch_loop_range x (old.arches[a.toNat]).netname new.arches 0 with h1 | ⟨h1, h2⟩
      · exact Or.inr (Or.inl h1)
      · exact Or.inr (Or.inr ⟨h1, by simpa [config.narch] using h2⟩)

theorem modify_at_mem {α : Type} (f : α → α) (l : List α) (j : Nat) (b : α)
    (h : b ∈ modify_at f l j) : b ∈ l ∨ ∃ a ∈ l, b = f a := by
  induction l generalizing j with
  | nil => cases j <;> simp [modify_at] at h
  | cons a as ih =>
    cases j with
    | zero =>
      simp only [modify_at, List.mem_cons] at h
      rcases h with rfl | h
      · exact Or.inr ⟨a, List.mem_cons_self _ _, rfl⟩
      · exact Or.inl (List.mem_cons_of_mem _ h)
    | succ n =>
      simp only [modify_at, List.mem_cons] at h
      rcases h with rfl | h
      · exact Or.inl (List.mem_cons_self _ _)
      · rcases ih n h with h1 | ⟨a2, h1, h2⟩
        · exact Or.inl (List.mem_cons_of_mem _ h1)
        · exact Or.inr ⟨a2, List.mem_cons_of_mem _ h1, h2⟩

theorem merge_machine_valid (x : Env) (old nc : config) (m : machine)
    (hm : valid_arch x old.narch m.arch) (hnc : valid_arches x nc) :
    ∃ nc1, merge_machine x old nc m = some nc1 ∧ nc1.arches = nc.arches ∧
      valid_arches x nc1 := by
  unfold merge_machine
  cases hf : x.ws_find nc.machines m.name with
  | none => exact ⟨nc, rfl, rfl, hnc⟩
  | some j =>
    obtain ⟨b, hb, hv⟩ := translate_arch_valid x old nc m.arch hm
    simp only [hb]
    refine ⟨_, rfl, rfl, ?_⟩
    intro m2 hm2
    rcases modify_at_mem _ _ _ _ hm2 with h | ⟨m0, _, rfl⟩
    · exact hnc m2 h
    · exact hv

theorem merge_machines_valid (x : Env) (old : config) (ms : List machine) (nc : config)
    (hms : ∀ m ∈ ms, valid_arch x old.narch m.arch) (hnc : valid_arches x nc) :
    ∃ nc1, merge_machines x old ms nc = some nc1 ∧ nc1.arches = nc.arches ∧
      valid_arches x nc1 := by
  induction ms generalizing nc with
  | nil => exact ⟨nc, rfl, rfl, hnc⟩
  | cons m ms ih =>
    obtain ⟨nc2, h2, ha2, hv2⟩ :=
      merge_machine_valid x old nc m (hms m (List.mem_cons_self _ _)) hnc
    obtain ⟨nc1, h1, ha1, hv1⟩ :=
      ih nc2 (fun m2 h => hms m2 (List.mem_cons_of_mem _ h)) hv2
    exact ⟨nc1, by simp only [merge_machines, h2, h1], ha1.trans ha2, hv1⟩

theorem read_arches_machines (c : config) (lines : List (List Char)) :
    (read_arches c lines).1.machines = c.machines := by
  induction lines generalizing c with
  | nil => rfl
  | cons line rest ih =>
    simp only [read_arches]
    split
    · exact ih c
    · split
      · rfl
      · rw [ih]

theorem body_loop_machines (x : Env) (c : config) (ci : Int) (body : List (List Char))
    (c1 : config) (i1 : Int) (h : body_loop x c ci body = LineResult.next c1 i1) :
    ∀ m ∈ c1.machines, m ∈ c.machines ∨ m.arch = x.UNKNOWN_ARCH := by
  induction body generalizing c ci with
  | nil =>
    simp only [body_loop, LineResult.next.injEq] at h
    rw [← h.1]; exact fun m hm => Or.inl hm
  | cons l ls ih =>
    obtain ⟨c2, i2, h1, h2⟩ := body_loop_next_cons x c c1 ci i1 l ls h
    obtain ⟨ms, hms, hfr, _⟩ := (body_line_effect x c ci l c2 i2 h1).machines
    intro m hm
    rcases ih c2 i2 h2 m hm with h3 | h3
    · rw [hms] at h3
      rcases List.mem_append.mp h3 with h4 | h4
      · exact Or.inl h4
      · exact Or.inr (hfr m h4).2.2.1
    · exact Or.inr h3

theorem read_config_valid (x : Env) (hsort : ∀ ms, (x.ws_sort ms).Perm ms) (f : List Char)
    (c : config) (h : read_config x f = ParseResult.success c) : valid_arches x c := by
  unfold read_config at h
  split at h
  · simp at h
  · next fp hfp =>
    simp only at h
    split at h
    · simp at h
    · split at h
      · next c1 i hc =>
        split at h
        · simp at h
        · simp only [ParseResult.success.injEq] at h
          subst h
          intro m hm
          have hm1 : m ∈ c1.machines := (hsort c1.machines).mem_iff.mp hm
          rcases body_loop_machines x _ _ _ c1 i hc m hm1 with h3 | h3
          · rw [read_arches_machines] at h3
            simp [empty_config] at h3
          · exact Or.inl h3
      · simp at h
      · simp at h

theorem reread_config_valid (x : Env) (hsort : ∀ ms, (x.ws_sort ms).Perm ms)
    (state st1 : serverstate) (eff : List Effect) (hv : valid_arches x state.config)
    (h : reread_config x state = (Outcome.returned st1, eff)) :
    valid_arches x st1.config := by
  cases hr : read_config x state.configfile with
  | undefined => simp [reread_config, hr] at h
  | failure released =>
    simp only [reread_config, hr, Prod.mk.injEq, Outcome.returned.injEq] at h
    rw [← h.1]; exact hv
  | success newconf =>
    obtain ⟨nc, ch, hnc, _, hst, _⟩ := reread_config_success x state st1 newconf eff hr h
    obtain ⟨nc1, h1, _, hv1⟩ := merge_machines_valid x state.config state.config.machines
      newconf hv (read_config_valid x hsort _ newconf hr)
    rw [hnc] at h1
    cases h1
    rw [hst]
    exact hv1

theorem reachable_valid (x : Env) (hsort : ∀ ms, (x.ws_sort ms).Perm ms) (s : serverstate)
    (h : Reachable x s) : valid_arches x s.config := by
  induction h with
  | fresh files init f c ch hc =>
    exact read_config_valid (later_env x files init) hsort f c hc
  | reload files init s s1 eff _ hstep ih =>
    exact reread_config_valid (later_env x files init) hsort s s1 eff ih hstep

/-- C19: with `ws_sort` permuting its argument, a call of `reread_config`
that returns takes a state in which every machine has `UNKNOWN_ARCH`,
`OTHER_ARCH` or an index of the architecture list of its configuration as
`arch` to a state of the same kind; hence in every state reachable from a
fresh parse by such calls the machines are of that kind, `translate_arch`
reads `oldconfig->arches` inside its elements for each of them, and
`reread_config` is defined whenever `read_config` is. -/
theorem arch_indices_stay_valid (x : Env) (hsort : ∀ ms, (x.ws_sort ms).Perm ms) :
    (∀ state st1 eff, valid_arches x state.config →
      reread_config x state = (Outcome.returned st1, eff) → valid_arches x st1.config) ∧
    ∀ s, Reachable x s →
      valid_arches x s.config ∧
      (∀ m ∈ s.config.machines, ∀ newconfig,
        (translate_arch x s.config newconfig m.arch).isSome = true) ∧
      ∀ files init,
        read_config (later_env x files init) s.configfile ≠ ParseResult.undefined →
        (reread_config (later_env x files init) s).1 ≠ Outcome.undefined := by
  refine ⟨fun state st1 eff hv h => reread_config_valid x hsort state st1 eff hv h, ?_⟩
  intro s hs
  have hv := reachable_valid x hsort s hs
  refine ⟨hv, ?_, ?_⟩
  · intro m hm newconfig
    obtain ⟨b, hb, _⟩ := translate_arch_valid x s.config newconfig m.arch (hv m hm)
    rw [hb]; rfl
  · intro files init hr
    cases hc : read_config (later_env x files init) s.configfile with
    | undefined => exact absurd hc hr
    | failure released => simp [reread_config, hc]
    | success newconf =>
      obtain ⟨nc1, h1, _, _⟩ := merge_machines_valid (later_env x files init) s.config
        s.config.machines newconf hv
        (read_config_valid (later_env x files init) hsort _ newconf hc)
      simp only [reread_config, hc, h1]
      cases init with
      | none => simp [later_env]
      | some ch => simp [later_env]

theorem arch_indices_stay_valid_witness :
    valid_arches (sample_env (some sample_reload)) sample_reloaded.config :=
  (arch_indices_stay_valid (sample_env (some sample_reload))
    (fun ms => List.Perm.refl ms)).1 sample_state sample_reloaded sample_reload_effects
    (by unfold valid_arches valid_arch; decide) (by decide)

/-! ## Comments in the architecture list, and what `freeconfig` leaves -/

/-- C15: the first loop of `read_config` does not cut a line at `#`: from the
line `sun4 # retired soon` it takes `#` as report name, where the line `sun4`
gives the report name `sun4`; and a file holding that line and the terminator
is read with success into a configuration with that one architecture. -/
theorem arch_comment_kept :
    (read_arches empty_config ["sun4 # retired soon".toList]).1.arches
      = [{ netname := "sun4".toList, reportname := "#".toList }] ∧
    (read_arches empty_config ["sun4".toList]).1.arches
      = [{ netname := "sun4".toList, reportname := "sun4".toList }] ∧
    read_config
        (sample_env (some { lines := ["sun4 # retired soon".toList, "-".toList], error := false }))
        "larvnetd.conf".toList
      = ParseResult.success
          { empty_config with
            arches := [{ netname := "sun4".toList, reportname := "#".toList }] } := by
  decide

/-- C18: the releases of `freeconfig` do not depend on the machines: those of
a configuration to which `add_machine` has added a machine are those of the
configuration without it, and after `add_machine` on the empty configuration
`freeconfig` frees the five arrays and no string, so the name that
`add_machine` has copied stays allocated. -/
theorem freeconfig_leaves_machine_names (x : Env) (c : config) (name : List Char) (ci : Int) :
    freeconfig (add_machine x c name ci) = freeconfig c ∧
    freeconfig (add_machine x empty_config name ci)
      = [Effect.free_array Buffer.clusters, Effect.free_array Buffer.arches,
         Effect.free_array Buffer.machines, Effect.free_array Buffer.printers,
         Effect.free_array Buffer.cgroups] ∧
    Effect.free_string name ∉ freeconfig (add_machine x empty_config name ci) := by
  refine ⟨rfl, rfl, ?_⟩
  simp [freeconfig, add_machine, empty_config, free_opt]

/-! ## Inverted ranges -/

/-- C20, as stated, fails in two ways.  A first bound of `2^32` is stored in
the `int` as 0, so the line `ws a[4294967296-1]` appends the machines `a0`
and `a1`; and a `[` in the prefix is the bracket `find_numeric_range` looks
at, so the token of the line `ws [[9-3]` is taken as a host name. -/
theorem inverted_range_not_empty :
    body_line (sample_env none) empty_config 0 "ws a[4294967296-1]".toList
        = LineResult.next
            { empty_config with machines :=
                [{ name := "a0".toList, cluster := 0, busy := 2, arch := -1, laststatus := 0,
                   lastpoll := 0, numpolls := 0 },
                 { name := "a1".toList, cluster := 0, busy := 2, arch := -1, laststatus := 0,
                   lastpoll := 0, numpolls := 0 }] } 0 ∧
      body_line (sample_env none) empty_config 0 "ws [[9-3]".toList
        = LineResult.next
            { empty_config with machines :=
                [{ name := "[[9-3]".toList, cluster := 0, busy := 2, arch := -1,
                   laststatus := 0, lastpoll := 0, numpolls := 0 }] } 0 := by
  decide

/-- C20, amended: for a prefix without `[`, `#` and white space, a suffix
without `#` and white space, and naturals `high < low < 2147483648` written
in decimal without leading zeros, the line `ws prefix[low-high]suffix` under
a current cluster `ci` leaves the configuration as it is, and parsing goes on
with the same current cluster. -/
theorem inverted_range_empty (x : Env) (c : config) (ci : Int) (pre suf : List Char)
    (low high : Nat) (hci : ci ≠ -1)
    (hpre : ∀ ch ∈ pre, ch ≠ '[' ∧ ch ≠ '#' ∧ isspace ch = false)
    (hsuf : ∀ ch ∈ suf, ch ≠ '#' ∧ isspace ch = false)
    (hlt : high < low) (hlow : low < 2147483648) :
    body_line x c ci
        ("ws ".toList ++ pre ++ "[".toList ++ Nat.toDigits 10 low ++ "-".toList
          ++ Nat.toDigits 10 high ++ "]".toList ++ suf)
      = LineResult.next c ci := by
  have hline : "ws ".toList ++ pre ++ "[".toList ++ Nat.toDigits 10 low ++ "-".toList
        ++ Nat.toDigits 10 high ++ "]".toList ++ suf
      = 'w' :: 's' :: ' ' ::
          (pre ++ '[' :: (Nat.toDigits 10 low ++ '-' :: (Nat.toDigits 10 high ++ ']' :: suf))) := by
    simp [String.toList, List.append_assoc]
  have hclean := range_token_clean pre suf low high (fun ch h => (hpre ch h).2) hsuf
  have hne : pre ++ '[' :: (Nat.toDigits 10 low ++ '-' :: (Nat.toDigits 10 high ++ ']' :: suf))
      ≠ [] := by simp
  rw [hline, body_line_ws x c ci _ hne hclean,
    ws_line_token x c ci _ hne (fun ch h => (hclean ch h).2) hci,
    find_numeric_range_decimal pre suf low high (fun ch h => (hpre ch h).1) hlow
      (by omega)]
  have hfuel : ((high : Int) + 1 - (low : Int)).toNat = 0 := by omega
  simp only [hfuel]
  rw [ws_range_loop_ok x _ suf ci high 0 low c (by simp [INT_MAX]; omega) (by omega)]
  simp

theorem inverted_range_empty_witness :
    body_line (sample_env none) sample_parsed 1
        ("ws ".toList ++ "host".toList ++ "[".toList ++ Nat.toDigits 10 9 ++ "-".toList
          ++ Nat.toDigits 10 3 ++ "]".toList ++ ".mit.edu".toList)
      = LineResult.next sample_parsed 1 :=
  inverted_range_empty (sample_env none) sample_parsed 1 "host".toList ".mit.edu".toList 9 3
    (by decide) (by decide) (by decide) (by decide) (by decide)

end Larvnetd
